import Mathlib

/-!
# tcp-relay: a shallow embedding of the bridge's codec, reassembler, read loop, queue store,
configuration checks, target reconciliation and failover state

Byte strings are lists of `Fin 256`.  Go's fixed-width unsigned integers are natural
numbers; narrowing conversions (`byte(x >> k)`) and 32-bit wrap-around are written out
with explicit `%`.  Wall-clock fields of the codec (`Timestamp`, the `lastHeartbeat` of
`ProtocolHandler`, ...) are not part of the embedding; where a call reads the clock or a
query depends on `NOW()` the time is an explicit argument.
A Go loop that need not terminate is embedded with a fuel counter and returns `none`
when the fuel runs out.
-/

namespace TcpRelay

/-! ## Bytes and big-endian integers -/

abbrev Byte := Fin 256

/-- Go conversion `byte(n)`: the low eight bits. -/
def toByte (n : Nat) : Byte := ⟨n % 256, Nat.mod_lt n (by decide)⟩

/-- Go slice expression `data[lo:hi]` (the callers guarantee `lo ≤ hi ≤ len(data)`). -/
def slice (data : List Byte) (lo hi : Nat) : List Byte := (data.drop lo).take (hi - lo)

/-- Value read by `binary.BigEndian.Uint16/32/64` from a slice of 2, 4 or 8 bytes. -/
def bigEndian (bs : List Byte) : Nat := bs.foldl (fun acc b => acc * 256 + b.val) 0

/-! ## protocol.go -/

/-- The constant `HeartbeatPacket`. -/
def HeartbeatPacket : List Byte := [0xE5, 0xBF, 0x83, 0xE8, 0xB7, 0xB3]

/-- The struct `BasePackage` without its `Timestamp`. -/
structure BasePackage where
  SourceInfo : Nat
  HostInfo : Nat
  PackageNo : Nat
  CurrentDataItem : Nat
  DataSumLength : Nat
  RetransmissionFlag : Nat
  RetransmissionData : Nat
  RetransmissionSumLength : Nat
  Data : List Byte
deriving DecidableEq, Repr

/-- The header fields fit their Go types (uint32, uint32, uint64, uint16, uint32, uint16,
uint16, uint32). -/
def BasePackage.InRange (p : BasePackage) : Prop :=
  p.SourceInfo < 2 ^ 32 ∧ p.HostInfo < 2 ^ 32 ∧ p.PackageNo < 2 ^ 64 ∧
  p.CurrentDataItem < 2 ^ 16 ∧ p.DataSumLength < 2 ^ 32 ∧ p.RetransmissionFlag < 2 ^ 16 ∧
  p.RetransmissionData < 2 ^ 16 ∧ p.RetransmissionSumLength < 2 ^ 32

/-- The struct `ProtocolHandler`: only the buffer takes part in parsing. -/
structure ProtocolHandler where
  buffer : List Byte
deriving DecidableEq, Repr

/-- Embeds `ProtocolHandler.isHeartbeatPacket`. -/
def ProtocolHandler.isHeartbeatPacket (data : List Byte) : Bool :=
  if data.length < 6 then false else decide (slice data 0 6 = HeartbeatPacket)

/-- Embeds `ProtocolHandler.parseDataLength`. -/
def ProtocolHandler.parseDataLength (data : List Byte) : Except String Nat :=
  if data.length < 32 then .error "insufficient data for header"
  else .ok (bigEndian (slice data 18 22))

/-- Embeds `ProtocolHandler.parsePackage`. -/
def ProtocolHandler.parsePackage (data : List Byte) : Except String BasePackage :=
  if data.length < 32 then .error "insufficient data for package header"
  else .ok {
    SourceInfo := bigEndian (slice data 0 4)
    HostInfo := bigEndian (slice data 4 8)
    PackageNo := bigEndian (slice data 8 16)
    CurrentDataItem := bigEndian (slice data 16 18)
    DataSumLength := bigEndian (slice data 18 22)
    RetransmissionFlag := bigEndian (slice data 22 24)
    RetransmissionData := bigEndian (slice data 24 26)
    RetransmissionSumLength := bigEndian (slice data 26 30)
    Data := if data.length > 32 then data.drop 32 else [] }

/-- The `for` loop of `ProtocolHandler.ProcessData` on (buffer, packages).  `totalLength`
is a uint32, so `32 + dataLength` wraps modulo 2^32.  `none`: the fuel ran out. -/
def ProtocolHandler.processLoop : Nat → List Byte → List BasePackage →
    Option (List Byte × List BasePackage)
  | 0, _, _ => none
  | fuel + 1, buffer, packages =>
    if buffer.length < 32 then some (buffer, packages)
    else if ProtocolHandler.isHeartbeatPacket buffer then
      ProtocolHandler.processLoop fuel (buffer.drop 6) packages
    else
      match ProtocolHandler.parseDataLength buffer with
      | .error _ => some ([], packages)
      | .ok dataLength =>
        let totalLength := (32 + dataLength) % 2 ^ 32
        if buffer.length < totalLength then some (buffer, packages)
        else
          match ProtocolHandler.parsePackage (buffer.take totalLength) with
          | .error _ => ProtocolHandler.processLoop fuel (buffer.drop totalLength) packages
          | .ok pkg =>
            ProtocolHandler.processLoop fuel (buffer.drop totalLength) (packages ++ [pkg])

/-- Embeds `ProtocolHandler.ProcessData`: the new handler state, the returned packages and the
returned error (`none` is Go's nil error).  The loop may run once per buffered byte and
once more to exit; it needs more only if an iteration consumes no byte, and then the Go
loop does not terminate. -/
def ProtocolHandler.ProcessData (ph : ProtocolHandler) (data : List Byte) :
    Option (ProtocolHandler × List BasePackage × Option String) :=
  let buffer := ph.buffer ++ data
  match ProtocolHandler.processLoop (buffer.length + 1) buffer [] with
  | none => none
  | some (buffer1, packages) => some ({ buffer := buffer1 }, packages, none)

/-! ## auth.go -/

/-- The struct `AuthManager` without `lastAuthTime`; the token is the byte string of the
Go string. -/
structure AuthManager where
  token : List Byte
  sourceID : Nat
  hostID : Nat
  packageNo : Nat
deriving DecidableEq, Repr

/-- Embeds `NewAuthManager`. -/
def NewAuthManager (token : List Byte) (sourceID hostID : Nat) : AuthManager :=
  { token := token, sourceID := sourceID, hostID := hostID, packageNo := 1 }

/-- Value of one hexadecimal digit, as `encoding/hex` reads it. -/
def hexDigit (c : Byte) : Option Nat :=
  if 48 ≤ c.val ∧ c.val ≤ 57 then some (c.val - 48)
  else if 97 ≤ c.val ∧ c.val ≤ 102 then some (c.val - 97 + 10)
  else if 65 ≤ c.val ∧ c.val ≤ 70 then some (c.val - 65 + 10)
  else none

/-- Go's `hex.DecodeString`. -/
def hexDecode : List Byte → Except String (List Byte)
  | [] => .ok []
  | [_] => .error "encoding/hex: odd length hex string"
  | a :: b :: rest =>
    match hexDigit a, hexDigit b with
    | some x, some y =>
      match hexDecode rest with
      | .ok tl => .ok (toByte (x * 16 + y) :: tl)
      | .error e => .error e
    | _, _ => .error "encoding/hex: invalid byte"

/-- Embeds `AuthManager.generateTokenBytes`; `rnd` is the outcome of `rand.Read` on a 32-byte
buffer, used only for the empty token. -/
def AuthManager.generateTokenBytes (am : AuthManager) (rnd : Except String (List Byte)) :
    Except String (List Byte) :=
  if am.token = [] then rnd
  else if am.token.length = 64 then hexDecode am.token
  else if am.token.length ≤ 32 then
    .ok (am.token ++ List.replicate (32 - am.token.length) (0 : Byte))
  else .error "invalid token format"

/-- The header bytes that `AuthManager.serializeBasePackage` writes: the eight fields,
big-endian, at offsets 0..29 (`byte(x >> k)` keeps the low eight bits). -/
def AuthManager.headerBytes (pkg : BasePackage) : List Byte :=
  [ toByte (pkg.SourceInfo / 2 ^ 24), toByte (pkg.SourceInfo / 2 ^ 16),
    toByte (pkg.SourceInfo / 2 ^ 8), toByte pkg.SourceInfo,
    toByte (pkg.HostInfo / 2 ^ 24), toByte (pkg.HostInfo / 2 ^ 16),
    toByte (pkg.HostInfo / 2 ^ 8), toByte pkg.HostInfo,
    toByte (pkg.PackageNo / 2 ^ 56), toByte (pkg.PackageNo / 2 ^ 48),
    toByte (pkg.PackageNo / 2 ^ 40), toByte (pkg.PackageNo / 2 ^ 32),
    toByte (pkg.PackageNo / 2 ^ 24), toByte (pkg.PackageNo / 2 ^ 16),
    toByte (pkg.PackageNo / 2 ^ 8), toByte pkg.PackageNo,
    toByte (pkg.CurrentDataItem / 2 ^ 8), toByte pkg.CurrentDataItem,
    toByte (pkg.DataSumLength / 2 ^ 24), toByte (pkg.DataSumLength / 2 ^ 16),
    toByte (pkg.DataSumLength / 2 ^ 8), toByte pkg.DataSumLength,
    toByte (pkg.RetransmissionFlag / 2 ^ 8), toByte pkg.RetransmissionFlag,
    toByte (pkg.RetransmissionData / 2 ^ 8), toByte pkg.RetransmissionData,
    toByte (pkg.RetransmissionSumLength / 2 ^ 24),
    toByte (pkg.RetransmissionSumLength / 2 ^ 16),
    toByte (pkg.RetransmissionSumLength / 2 ^ 8), toByte pkg.RetransmissionSumLength ]

/-- Embeds `AuthManager.serializeBasePackage`: a zeroed array of `32 + len(pkg.Data)` bytes,
the header fields written from offset 0 with the running `offset`, which is 30 after the
last field, then `copy(data[offset:], pkg.Data)`; the bytes after the copy stay zero. -/
def AuthManager.serializeBasePackage (pkg : BasePackage) : Except String (List Byte) :=
  let totalLength := 32 + pkg.Data.length
  let offset := 4 + 4 + 8 + 2 + 4 + 2 + 2 + 4
  let written := AuthManager.headerBytes pkg ++ pkg.Data
  .ok (written ++ List.replicate (totalLength - (offset + pkg.Data.length)) (0 : Byte))

/-- Embeds `AuthManager.GenerateAuthPacket`: the updated manager and the packet. -/
def AuthManager.GenerateAuthPacket (am : AuthManager) (rnd : Except String (List Byte)) :
    AuthManager × Except String (List Byte) :=
  match am.generateTokenBytes rnd with
  | .error e => (am, .error ("failed to generate token: " ++ e))
  | .ok tokenBytes =>
    let basePackage : BasePackage :=
      { SourceInfo := am.sourceID, HostInfo := am.hostID, PackageNo := am.packageNo,
        CurrentDataItem := 1, DataSumLength := 0x0028, RetransmissionFlag := 0x00,
        RetransmissionData := 0x00, RetransmissionSumLength := 0x0000,
        Data := tokenBytes }
    match AuthManager.serializeBasePackage basePackage with
    | .error e => (am, .error ("failed to serialize auth packet: " ++ e))
    | .ok packetData => ({ am with packageNo := (am.packageNo + 1) % 2 ^ 64 }, .ok packetData)

/-! ## delimiter.go -/

/-- Go's `bytes.Index(s, sep)`: the index of the first position at which `sep` occurs in
`s`; `none` stands for -1.  The empty `sep` occurs at index 0. -/
def bytesIndex : List Byte → List Byte → Option Nat
  | [], sep => if sep = [] then some 0 else none
  | b :: t, sep =>
    if (b :: t).take sep.length = sep then some 0
    else (bytesIndex t sep).map (fun i => i + 1)

/-- Go's `bytes.Contains(b, sub)`. -/
def bytesContains (b sub : List Byte) : Bool := (bytesIndex b sub).isSome

/-- The struct `DelimiterHandler`; `maxLength` is a Go `int`. -/
structure DelimiterHandler where
  delimiter : List Byte
  buffer : List Byte
  maxLength : Int
deriving DecidableEq, Repr

/-- Embeds `NewDelimiterHandler`. -/
def NewDelimiterHandler (delimiter : List Byte) (maxLength : Int) : DelimiterHandler :=
  { delimiter := delimiter, buffer := [], maxLength := maxLength }

/-- The `for` loop of `DelimiterHandler.ProcessData` on (buffer, packets).  `none`: the
fuel ran out. -/
def DelimiterHandler.processLoop (delimiter : List Byte) (maxLength : Int) :
    Nat → List Byte → List (List Byte) → Option (List Byte × List (List Byte))
  | 0, _, _ => none
  | fuel + 1, buffer, packets =>
    match bytesIndex buffer delimiter with
    | none =>
      if (buffer.length : Int) > maxLength then some ([], packets) else some (buffer, packets)
    | some delimiterIndex =>
      let packet := buffer.take delimiterIndex
      let packets1 := if packet.length > 0 then packets ++ [packet] else packets
      DelimiterHandler.processLoop delimiter maxLength fuel
        (buffer.drop (delimiterIndex + delimiter.length)) packets1

/-- Embeds `DelimiterHandler.ProcessData`: the new handler state, the returned records and the
returned error (always nil in the source).  The loop may run once per buffered byte and
once more to exit; it needs more only with the empty delimiter, for which the Go loop does
not terminate. -/
def DelimiterHandler.ProcessData (dh : DelimiterHandler) (data : List Byte) :
    Option (DelimiterHandler × List (List Byte) × Option String) :=
  let buffer := dh.buffer ++ data
  match DelimiterHandler.processLoop dh.delimiter dh.maxLength (buffer.length + 1) buffer [] with
  | none => none
  | some (buffer1, packets) => some ({ dh with buffer := buffer1 }, packets, none)

/-- Embeds `DelimiterHandler.AddDelimiter`. -/
def DelimiterHandler.AddDelimiter (dh : DelimiterHandler) (data : List Byte) : List Byte :=
  data ++ dh.delimiter

/-- Embeds `DelimiterHandler.ValidatePacket`. -/
def DelimiterHandler.ValidatePacket (dh : DelimiterHandler) (packet : List Byte) : Bool :=
  if packet.length = 0 then false
  else if (packet.length : Int) > dh.maxLength then false
  else if bytesContains packet dh.delimiter then false
  else true

/-! ## heartbeat.go -/

/-- The struct `HeartbeatManager`; durations are in nanoseconds and the two clocks are
instants in nanoseconds, 0 being the zero `time.Time`. -/
structure HeartbeatManager where
  interval : Int
  lastHeartbeat : Int
  lastHeartbeatRecv : Int
  writeIdleTimeout : Int
  readIdleTimeout : Int
  separatorCharacter : List Byte
deriving DecidableEq, Repr

/-- Embeds `NewHeartbeatManager`. -/
def NewHeartbeatManager (interval writeIdle readIdle : Int) : HeartbeatManager :=
  { interval := interval
    lastHeartbeat := 0
    lastHeartbeatRecv := 0
    writeIdleTimeout := writeIdle
    readIdleTimeout := readIdle
    separatorCharacter := [0x78, 0x78, 0x78, 0x78, 0x88, 0x88, 0x88, 0x88] }

/-- Embeds `HeartbeatManager.GenerateHeartbeatPacket`, called at the instant `now`: the
manager with `lastHeartbeat` set, and the packet. -/
def HeartbeatManager.GenerateHeartbeatPacket (hm : HeartbeatManager) (now : Int) :
    HeartbeatManager × List Byte :=
  let heartbeatContent : List Byte := [0xE5, 0xBF, 0x83, 0xE8, 0xB7, 0xB3]
  let packet := heartbeatContent ++ hm.separatorCharacter
  ({ hm with lastHeartbeat := now }, packet)

/-- Embeds `HeartbeatManager.UpdateHeartbeatSent`. -/
def HeartbeatManager.UpdateHeartbeatSent (hm : HeartbeatManager) (now : Int) :
    HeartbeatManager :=
  { hm with lastHeartbeat := now }

/-- Embeds `HeartbeatManager.UpdateHeartbeatReceived`. -/
def HeartbeatManager.UpdateHeartbeatReceived (hm : HeartbeatManager) (now : Int) :
    HeartbeatManager :=
  { hm with lastHeartbeatRecv := now }

/-- Embeds `HeartbeatManager.IsHeartbeatPacket`. -/
def HeartbeatManager.IsHeartbeatPacket (_hm : HeartbeatManager) (data : List Byte) : Bool :=
  let heartbeatContent : List Byte := [0xE5, 0xBF, 0x83, 0xE8, 0xB7, 0xB3]
  bytesContains data heartbeatContent

/-! ## manager.go (source) -/

/-- The parts of `config.Config` that `NewManager` hands to the codec: the delimiter
(already hex-decoded), `delimiter.max_packet_length`, the authentication settings and
the three heartbeat durations. -/
structure SourceConfig where
  delimiterBytes : List Byte
  maxPacketLength : Int
  token : List Byte
  sourceID : Nat
  hostID : Nat
  heartbeatInterval : Int
  writeIdleTimeout : Int
  readIdleTimeout : Int
deriving DecidableEq, Repr

/-- The struct `Manager`, protocol side: the four protocol components and the callback
stored by `SetDataHandler`.  `H` names callbacks; a callback invocation is recorded as
the pair of the callback and its argument. -/
structure Manager (H : Type) where
  protocolHandler : ProtocolHandler
  delimiterHandler : DelimiterHandler
  authManager : AuthManager
  heartbeatManager : HeartbeatManager
  dataHandler : Option H

/-- Embeds `NewManager`. -/
def NewManager {H : Type} (cfg : SourceConfig) : Manager H :=
  { protocolHandler := { buffer := [] }
    delimiterHandler := NewDelimiterHandler cfg.delimiterBytes cfg.maxPacketLength
    authManager := NewAuthManager cfg.token cfg.sourceID cfg.hostID
    heartbeatManager :=
      NewHeartbeatManager cfg.heartbeatInterval cfg.writeIdleTimeout cfg.readIdleTimeout
    dataHandler := none }

/-- Embeds `Manager.SetDataHandler`. -/
def Manager.SetDataHandler {H : Type} (m : Manager H) (handler : H) : Manager H :=
  { m with dataHandler := some handler }

/-- Embeds `Manager.sendAuthPacket`: the updated manager and the bytes handed to `conn.Write`. -/
def Manager.sendAuthPacket {H : Type} (m : Manager H) (rnd : Except String (List Byte)) :
    Manager H × Except String (List Byte) :=
  match m.authManager.GenerateAuthPacket rnd with
  | (am, .error e) => ({ m with authManager := am }, .error ("failed to generate auth packet: " ++ e))
  | (am, .ok authPacket) =>
    ({ m with authManager := am }, .ok (m.delimiterHandler.AddDelimiter authPacket))

/-- The loop `for _, packet := range packets` of `Manager.readDataFromSource`: the
protocol handler after the loop and the callback invocations made, in order.  Only the
parameter `dataHandler` is ever invoked. -/
def Manager.handlePackets {H : Type} (dh : DelimiterHandler) (dataHandler : H) :
    ProtocolHandler → List (List Byte) → List (H × List Byte) →
    Option (ProtocolHandler × List (H × List Byte))
  | ph, [], calls => some (ph, calls)
  | ph, packet :: rest, calls =>
    if !dh.ValidatePacket packet then Manager.handlePackets dh dataHandler ph rest calls
    else
      match ph.ProcessData packet with
      | none => none
      | some (ph1, _, some _) =>
        Manager.handlePackets dh dataHandler ph1 rest (calls ++ [(dataHandler, packet)])
      | some (ph1, basePackages, none) =>
        Manager.handlePackets dh dataHandler ph1 rest
          (calls ++ basePackages.map (fun pkg => (dataHandler, pkg.Data)))

/-- One pass through the `default:` branch of `Manager.readDataFromSource` after a read
that returned the bytes `data`: the updated manager and the callback invocations. -/
def Manager.handleRead {H : Type} (m : Manager H) (dataHandler : H) (data : List Byte) :
    Option (Manager H × List (H × List Byte)) :=
  if data.length > 0 then
    if m.heartbeatManager.IsHeartbeatPacket data then some (m, [])
    else
      match m.delimiterHandler.ProcessData data with
      | none => none
      | some (dh1, _, some _) => some ({ m with delimiterHandler := dh1 }, [])
      | some (dh1, packets, none) =>
        match Manager.handlePackets dh1 dataHandler m.protocolHandler packets [] with
        | none => none
        | some (ph1, calls) =>
          some ({ m with delimiterHandler := dh1, protocolHandler := ph1 }, calls)
  else some (m, [])

/-- The read loop of `Manager.readDataFromSource` over the successive results of
`conn.Read`: the final manager and all callback invocations, in order. -/
def Manager.readChunks {H : Type} (dataHandler : H) :
    Manager H → List (List Byte) → Option (Manager H × List (H × List Byte))
  | m, [] => some (m, [])
  | m, data :: rest =>
    match m.handleRead dataHandler data with
    | none => none
    | some (m1, calls) =>
      match Manager.readChunks dataHandler m1 rest with
      | none => none
      | some (m2, calls2) => some (m2, calls ++ calls2)

/-- Embeds `Manager.readDataFromSource` on a connection whose writes succeed and whose reads
return `chunks`: the auth frame written first, then the read loop.  The ticker branch
(heartbeat emission, read-idle check) is left out. -/
def Manager.readDataFromSource {H : Type} (m : Manager H) (rnd : Except String (List Byte))
    (dataHandler : H) (chunks : List (List Byte)) :
    Option (Manager H × List (List Byte) × List (H × List Byte)) :=
  match m.sendAuthPacket rnd with
  | (m1, .error _) => some (m1, [], [])
  | (m1, .ok frame) =>
    match Manager.readChunks dataHandler m1 chunks with
    | none => none
    | some (m2, calls) => some (m2, [frame], calls)

/-! ## cmd/server/main.go (bridge) -/

/-- The two closures that `main` creates for the source manager: the one passed to
`SetDataHandler`, which saves the payload with `db.SaveMessage`, and the one passed to
`ConnectToSource`, whose body is `return nil`. -/
inductive MainCallback where
  | saveToDatabase
  | returnNil
deriving DecidableEq, Repr

/-- The source-manager wiring of `main`: `NewManager`, `SetDataHandler(save closure)`,
then `ConnectToSource(ctx, return-nil closure)`, which on a successful dial runs
`readDataFromSource` with that same closure. -/
def mainSourceSession (cfg : SourceConfig) (rnd : Except String (List Byte))
    (chunks : List (List Byte)) :
    Option (Manager MainCallback × List (List Byte) × List (MainCallback × List Byte)) :=
  let sourceManager : Manager MainCallback := NewManager cfg
  let sourceManager := sourceManager.SetDataHandler MainCallback.saveToDatabase
  sourceManager.readDataFromSource rnd MainCallback.returnNil chunks

/-! ## models.go -/

def StatusReceived : String := "received"
def StatusPending : String := "pending"
def StatusSending : String := "sending"
def StatusSent : String := "sent"
def StatusFailed : String := "failed"

/-- The struct `Message`, which is also a row of `message_queue`.  Times are
nanoseconds. -/
structure Message where
  ID : Int
  SourceIP : String
  OriginalData : List Byte
  DataLength : Int
  CreatedAt : Int
  ProcessedAt : Option Int
  Status : String
deriving DecidableEq, Repr

/-- The struct `TargetDeliveryStatus`, extended with the `error_count` column that the
update statements use: a row of `target_delivery_status`. -/
structure TargetDeliveryStatus where
  MessageID : Int
  TargetServerID : String
  TargetServerName : String
  TargetAddress : String
  Status : String
  SendAttempts : Int
  MaxAttempts : Int
  LastAttemptAt : Option Int
  NextRetryAt : Option Int
  SentAt : Option Int
  LastError : Option String
  ErrorCount : Int
  DataSize : Int
deriving DecidableEq, Repr

/-- The struct `TargetServer` with the columns of `target_servers` the queries read;
`Timeout` is in seconds, `CreatedAt` is the row's `created_at`. -/
structure TargetServer where
  ID : String
  Name : String
  Address : String
  Enabled : Bool
  Timeout : Int
  MaxRetries : Int
  BatchSize : Int
  Priority : Int
  CreatedAt : Int
deriving DecidableEq, Repr

/-- The database behind `Postgres`: the three tables and the next value of the
`message_queue.id` sequence. -/
structure Store where
  message_queue : List Message
  target_delivery_status : List TargetDeliveryStatus
  target_servers : List TargetServer
  nextMessageID : Int
deriving DecidableEq, Repr

/-- Modelled from the spec: the column defaults of `target_delivery_status`, whose schema
is not among the sources.  A delivery row is created with `attempts=0`,
`next_retry_at=NULL`; the other columns the insert does not name are null or zero. -/
def deliveryRowWithDefaults (delivery : TargetDeliveryStatus) : TargetDeliveryStatus :=
  { delivery with
    SendAttempts := 0, LastAttemptAt := none, NextRetryAt := none, SentAt := none,
    LastError := none, ErrorCount := 0 }

/-! ## postgres.go

A statement that fails leaves the tables as they were; which statements fail is an
argument of each operation. -/

/-- Embeds `Postgres.GetEnabledTargetServers`: the enabled rows by ascending `created_at`, with
the six selected columns; the fields the query does not scan keep Go's zero value. -/
def Postgres.GetEnabledTargetServers (db : Store) (fails : Bool) :
    Except String (List TargetServer) :=
  if fails then .error "query failed"
  else
    let rows := (db.target_servers.filter (fun r => r.Enabled)).insertionSort
      (fun a b => a.CreatedAt ≤ b.CreatedAt)
    .ok (rows.map (fun r =>
      { ID := r.ID, Name := r.Name, Address := r.Address, Enabled := false,
        Timeout := r.Timeout, MaxRetries := r.MaxRetries, BatchSize := r.BatchSize,
        Priority := 0, CreatedAt := 0 }))

/-- Embeds `Postgres.CreateDeliveryStatus`: the insert names `message_id`, `target_server_id`,
`target_server_name`, `target_address`, `status`, `max_attempts` and `data_size`. -/
def Postgres.CreateDeliveryStatus (db : Store) (fails : Bool)
    (delivery : TargetDeliveryStatus) : Store × Option String :=
  if fails then (db, some "insert failed")
  else
    ({ db with target_delivery_status :=
        db.target_delivery_status ++ [deliveryRowWithDefaults delivery] }, none)

/-- The storage failures that can hit one `SaveMessage` call: the message insert, the
target query, and the delivery insert for each target id. -/
structure SaveFaults where
  insertMessage : Bool
  listTargets : Bool
  createDelivery : String → Bool

/-- No statement fails. -/
def SaveFaults.none : SaveFaults :=
  { insertMessage := false, listTargets := false, createDelivery := fun _ => false }

/-- The loop `for _, target := range targets` of `SaveMessage`: a failed
`CreateDeliveryStatus` is logged and the loop goes on. -/
def Postgres.createDeliveries (faults : SaveFaults) (msg : Message) :
    Store → List TargetServer → Store
  | db, [] => db
  | db, target :: rest =>
    let delivery : TargetDeliveryStatus :=
      { MessageID := msg.ID, TargetServerID := target.ID, TargetServerName := target.Name,
        TargetAddress := target.Address, Status := StatusPending, SendAttempts := 0,
        MaxAttempts := target.MaxRetries, LastAttemptAt := none, NextRetryAt := none,
        SentAt := none, LastError := none, ErrorCount := 0, DataSize := msg.DataLength }
    Postgres.createDeliveries faults msg
      (Postgres.CreateDeliveryStatus db (faults.createDelivery target.ID) delivery).1 rest

/-- Embeds `Postgres.SaveMessage` at time `now`: the store afterwards, the message struct
as the call leaves it, and the returned error (`none` is nil).  No transaction is opened.
The insert names `source_ip`, `original_data`, `data_length` and `status`; the row's `id`
is the next value of the sequence, its `created_at` is the time of the insert and its
`processed_at` is null, as in the data model of the spec (the schema is not among the
sources). -/
def Postgres.SaveMessage (db : Store) (now : Int) (faults : SaveFaults) (msg : Message) :
    Store × Message × Option String :=
  if faults.insertMessage then (db, msg, some "failed to save message")
  else
    let msg1 := { msg with ID := db.nextMessageID, CreatedAt := now }
    let row : Message := { msg1 with ProcessedAt := none }
    let db1 := { db with message_queue := db.message_queue ++ [row],
                         nextMessageID := db.nextMessageID + 1 }
    match Postgres.GetEnabledTargetServers db1 faults.listTargets with
    | .error _ => (db1, msg1, some "failed to get target servers")
    | .ok targets => (Postgres.createDeliveries faults msg1 db1 targets, msg1, none)

/-- The `WHERE` clause of `GetPendingMessagesForTarget` on one delivery row. -/
def deliveryEligible (now : Int) (targetID : String) (tds : TargetDeliveryStatus) : Bool :=
  decide (tds.TargetServerID = targetID) &&
  (decide (tds.Status = "pending") || decide (tds.Status = "failed")) &&
  (match tds.NextRetryAt with
   | none => true
   | some t => decide (t ≤ now)) &&
  decide (tds.SendAttempts < tds.MaxAttempts)

/-- Embeds `Postgres.GetPendingMessagesForTarget` at time `now`: the join of `message_queue`
with the eligible delivery rows, by ascending `created_at`, cut at `limit`.  PostgreSQL
rejects a negative `LIMIT`. -/
def Postgres.GetPendingMessagesForTarget (db : Store) (now : Int) (fails : Bool)
    (targetID : String) (limit : Int) : Except String (List Message) :=
  if fails then .error "query failed"
  else if limit < 0 then .error "LIMIT must not be negative"
  else
    let joined := db.message_queue.flatMap (fun mq =>
      (db.target_delivery_status.filter (fun tds =>
        decide (mq.ID = tds.MessageID) && deliveryEligible now targetID tds)).map
        (fun _ => mq))
    let ordered := joined.insertionSort (fun a b => a.CreatedAt ≤ b.CreatedAt)
    .ok (ordered.take limit.toNat)

/-- Go's `int64(x)` of a mathematical integer: wrap-around into [-2^63, 2^63). -/
def wrapInt64 (x : Int) : Int := (x + 2 ^ 63) % 2 ^ 64 - 2 ^ 63

/-- Go's `time.Duration(1 << uint(attempts))`: the shift count is the 64-bit unsigned
conversion of `attempts`; a count of 64 or more shifts everything out. -/
def durationShift (attempts : Int) : Int :=
  let count := attempts % 2 ^ 64
  if count ≥ 64 then 0 else wrapInt64 (2 ^ count.toNat)

/-- Go's `time.Minute`, in nanoseconds. -/
def Minute : Int := 60 * 1000000000

/-- Go's `time.Second`, in nanoseconds. -/
def Second : Int := 1000000000

/-- Embeds `Postgres.calculateNextRetryTime` at time `now`. -/
def Postgres.calculateNextRetryTime (now : Int) (attempts : Int) : Int :=
  let delay := wrapInt64 (durationShift attempts * Minute)
  let delay := if delay > 60 * Minute then 60 * Minute else delay
  now + delay

/-- Embeds `Postgres.UpdateDeliveryStatus`: every row of the (message, target) pair is
rewritten according to `status`.  `now` is the clock read at the start of the call;
`retryNow` is the clock that `calculateNextRetryTime` reads afterwards, in the case
`StatusFailed` only. -/
def Postgres.UpdateDeliveryStatus (db : Store) (now retryNow : Int) (fails : Bool)
    (messageID : Int) (targetID : String) (status : String) (attempts : Int)
    (errorMsg : Option String) : Store × Option String :=
  let onRows (f : TargetDeliveryStatus → TargetDeliveryStatus) : Store × Option String :=
    if fails then (db, some "exec failed")
    else
      ({ db with target_delivery_status := db.target_delivery_status.map (fun tds =>
          if tds.MessageID = messageID ∧ tds.TargetServerID = targetID then f tds else tds) },
        none)
  if status = StatusSending then
    onRows (fun tds =>
      { tds with Status := status, LastAttemptAt := some now, SendAttempts := attempts })
  else if status = StatusSent then
    onRows (fun tds =>
      { tds with Status := status, SentAt := some now, SendAttempts := attempts,
                 LastError := none })
  else if status = StatusFailed then
    let nextRetry := Postgres.calculateNextRetryTime retryNow attempts
    onRows (fun tds =>
      { tds with Status := status, LastAttemptAt := some now, SendAttempts := attempts,
                 NextRetryAt := some nextRetry, LastError := errorMsg,
                 ErrorCount := tds.ErrorCount + 1 })
  else (db, some ("unknown status: " ++ status))

/-- Embeds `Postgres.GetDeliveryAttempts`: `QueryRow(...).Scan` reads the first matching row and
fails when there is none. -/
def Postgres.GetDeliveryAttempts (db : Store) (fails : Bool) (messageID : Int)
    (targetID : String) : Except String Int :=
  if fails then .error "query failed"
  else
    match db.target_delivery_status.find? (fun tds =>
      decide (tds.MessageID = messageID) && decide (tds.TargetServerID = targetID)) with
    | none => .error "sql: no rows in result set"
    | some tds => .ok tds.SendAttempts

/-! ## forwarder/manager.go -/

/-- What happens to one send started by `Worker.processSingleMessage`: `sendToTarget`
returns nil, returns an error, or the process is killed before it returns. -/
inductive SendOutcome where
  | delivered
  | failed (err : String)
  | killed
deriving DecidableEq, Repr

/-- The clock readings and the storage failures that one `Worker.processSingleMessage`
call meets: `markAt` is the clock of the `UpdateDeliveryStatus` call that marks the row
`sending`, `resultAt` the clock at the start of the `UpdateDeliveryStatus` call that
records the result of the send, `retryAt` the clock read by `calculateNextRetryTime`
within that call; the three flags tell whether the marking update, the
`GetDeliveryAttempts` query and the recording update fail. -/
structure Processing where
  markAt : Int
  resultAt : Int
  retryAt : Int
  markFails : Bool
  getAttemptsFails : Bool
  resultFails : Bool
deriving DecidableEq, Repr

/-- Embeds `Worker.handleSendFailure`: a failed `GetDeliveryAttempts` ends the call, a failed
`UpdateDeliveryStatus` is only logged. -/
def Worker.handleSendFailure (db : Store) (run : Processing) (targetID : String)
    (message : Message) (err : String) : Store :=
  match Postgres.GetDeliveryAttempts db run.getAttemptsFails message.ID targetID with
  | .error _ => db
  | .ok currentAttempts =>
    (Postgres.UpdateDeliveryStatus db run.resultAt run.retryAt run.resultFails message.ID
      targetID StatusFailed (currentAttempts + 1) (some err)).1

/-- Embeds `Worker.handleSendSuccess`: a failed `UpdateDeliveryStatus` is only logged. -/
def Worker.handleSendSuccess (db : Store) (run : Processing) (targetID : String)
    (message : Message) : Store :=
  (Postgres.UpdateDeliveryStatus db run.resultAt run.retryAt run.resultFails message.ID
    targetID StatusSent 0 none).1

/-- Embeds `Worker.processSingleMessage` for the worker of target `targetID`: mark the row
`sending` with attempts 0 (the call returns if that fails), send, then record the
result.  With `SendOutcome.killed` nothing follows the first update. -/
def Worker.processSingleMessage (db : Store) (run : Processing) (targetID : String)
    (message : Message) (outcome : SendOutcome) : Store :=
  match Postgres.UpdateDeliveryStatus db run.markAt run.markAt run.markFails message.ID
      targetID StatusSending 0 none with
  | (db1, some _) => db1
  | (db1, none) =>
    match outcome with
    | .killed => db1
    | .failed err => Worker.handleSendFailure db1 run targetID message err
    | .delivered => Worker.handleSendSuccess db1 run targetID message

/-- The struct `config.ForwarderConfig`; durations are nanoseconds. -/
structure ForwarderConfig where
  BatchSize : Int
  ProcessInterval : Int
  MaxProcessingWorkers : Int
  BaseRetryInterval : Int
  MaxRetryInterval : Int
deriving DecidableEq, Repr

/-- The local `delay` of `Worker.calculateNextRetry` when it is added to the clock:
`BaseRetryInterval * time.Duration(1<<uint(attempts))` in 64-bit arithmetic, replaced by
`MaxRetryInterval` when larger. -/
def Worker.retryDelay (config : ForwarderConfig) (attempts : Int) : Int :=
  let delay := wrapInt64 (config.BaseRetryInterval * durationShift attempts)
  if delay > config.MaxRetryInterval then config.MaxRetryInterval else delay

/-- Embeds `Worker.calculateNextRetry` at time `now`. -/
def Worker.calculateNextRetry (config : ForwarderConfig) (now : Int) (attempts : Int) : Int :=
  now + Worker.retryDelay config attempts

/-! ## manager.go (source): failover -/

/-- The struct `config.SourceServer`, with the fields the failover logic reads. -/
structure SourceServer where
  ID : String
  Name : String
  Address : String
  Enabled : Bool
  FailoverThreshold : Int
deriving DecidableEq, Repr

/-- The struct `config.SourceServers`. -/
structure SourceServers where
  Primary : SourceServer
  Backup : SourceServer
deriving DecidableEq, Repr

/-- The two values the pointer `Manager.currentServer` ever takes: `&config.Primary` and
`&config.Backup`. -/
inductive Endpoint where
  | primary
  | backup
deriving DecidableEq, Repr

/-- The failover part of the struct `Manager`: the configuration, the current server and
the failure counters (a Go map whose missing keys read as 0).  The counters are Go
`int`s that grow by one per failed connect or probe; their wrap-around is out of reach
and is not part of the embedding. -/
structure Failover where
  config : SourceServers
  currentServer : Endpoint
  failureCounts : String → Int

/-- The server that an endpoint pointer refers to. -/
def SourceServers.at (config : SourceServers) : Endpoint → SourceServer
  | .primary => config.Primary
  | .backup => config.Backup

/-- The other endpoint. -/
def Endpoint.other : Endpoint → Endpoint
  | .primary => .backup
  | .backup => .primary

/-- The failover part of `NewManager`: the primary server is current, the counter map is
empty. -/
def NewFailover (config : SourceServers) : Failover :=
  { config := config, currentServer := .primary, failureCounts := fun _ => 0 }

/-- Embeds `Manager.GetCurrentServer`. -/
def Manager.GetCurrentServer (m : Failover) : SourceServer := m.config.at m.currentServer

/-- Embeds `Manager.recordFailure`. -/
def Manager.recordFailure (m : Failover) (serverID : String) : Failover :=
  { m with failureCounts := fun id =>
      if id = serverID then m.failureCounts serverID + 1 else m.failureCounts id }

/-- Embeds `Manager.resetFailureCount`. -/
def Manager.resetFailureCount (m : Failover) (serverID : String) : Failover :=
  if m.failureCounts serverID > 0 then
    { m with failureCounts := fun id => if id = serverID then 0 else m.failureCounts id }
  else m

/-- Embeds `Manager.shouldFailover`. -/
def Manager.shouldFailover (m : Failover) (serverID : String) : Bool :=
  if serverID = m.config.Primary.ID then
    decide (m.failureCounts serverID ≥ m.config.Primary.FailoverThreshold)
  else if serverID = m.config.Backup.ID then
    decide (m.failureCounts serverID ≥ m.config.Backup.FailoverThreshold)
  else false

/-- Embeds `Manager.checkAndPerformFailover`. -/
def Manager.checkAndPerformFailover (m : Failover) : Failover :=
  if (Manager.GetCurrentServer m).ID = m.config.Primary.ID ∧
      m.failureCounts m.config.Primary.ID ≥ m.config.Primary.FailoverThreshold ∧
      m.config.Backup.Enabled = true then
    { m with currentServer := .backup }
  else if (Manager.GetCurrentServer m).ID = m.config.Backup.ID ∧
      m.failureCounts m.config.Primary.ID = 0 ∧ m.config.Primary.Enabled = true then
    { m with currentServer := .primary }
  else m

/-- Embeds `Manager.performFailover`. -/
def Manager.performFailover (m : Failover) : Failover :=
  if (Manager.GetCurrentServer m).ID = m.config.Primary.ID ∧ m.config.Backup.Enabled = true then
    { m with currentServer := .backup }
  else if (Manager.GetCurrentServer m).ID = m.config.Backup.ID ∧
      m.config.Primary.Enabled = true then
    { m with currentServer := .primary }
  else m

/-- The branch of `Manager.ConnectToSource` taken when `connectWithRetry` fails for the
current server: record the failure and, if `shouldFailover` says so, `performFailover`
(the redial that follows is the next connect). -/
def Manager.connectFailed (m : Failover) : Failover :=
  let server := Manager.GetCurrentServer m
  let m1 := Manager.recordFailure m server.ID
  if Manager.shouldFailover m1 server.ID then Manager.performFailover m1 else m1

/-! ## Successive authentication packets -/

/-- Successive calls of `AuthManager.GenerateAuthPacket` on one manager, the calls drawing
the elements of the list from `crypto/rand` in turn: the manager after the calls and the
results in call order. -/
def AuthManager.generateAuthPackets (am : AuthManager) :
    List (Except String (List Byte)) → AuthManager × List (Except String (List Byte))
  | [] => (am, [])
  | rnd :: rest =>
    let r := am.GenerateAuthPacket rnd
    let rs := AuthManager.generateAuthPackets r.1 rest
    (rs.1, r.2 :: rs.2)

/-! ## config.go: validation -/

/-- The struct `AuthConfig`; `ReauthInterval` is a `time.Duration` in nanoseconds. -/
structure AuthConfig where
  Token : List Byte
  SourceID : Nat
  HostID : Nat
  ReauthInterval : Int
deriving DecidableEq, Repr

/-- The struct `config.TargetServer`; `Timeout` is a `time.Duration` in nanoseconds. -/
structure config.TargetServer where
  ID : String
  Name : String
  Address : String
  Enabled : Bool
  Timeout : Int
  MaxRetries : Int
  BatchSize : Int
  Priority : Int
deriving DecidableEq, Repr

/-- The parts of the struct `Config` that the two validators read. -/
structure Config where
  Authentication : AuthConfig
  TargetServers : List config.TargetServer
deriving DecidableEq, Repr

/-- Embeds `Config.ValidateAuthentication`; `none` is Go's nil error. -/
def Config.ValidateAuthentication (c : Config) : Option String :=
  if c.Authentication.Token = [] then some "authentication token is required"
  else if c.Authentication.Token.length ≠ 32 ∧ c.Authentication.Token.length ≠ 64 then
    some "authentication token must be 32 bytes (ASCII) or 64 characters (hex)"
  else if c.Authentication.SourceID = 0 then some "authentication source_id cannot be zero"
  else if c.Authentication.HostID = 0 then some "authentication host_id cannot be zero"
  else if c.Authentication.ReauthInterval ≤ 0 then
    some "authentication reauth_interval must be positive"
  else none

/-- The loop of `Config.ValidateTargetServers` from index `i` on, with the ids seen so far.
The argument `splitHostPort` tells whether Go's `net.SplitHostPort` accepts an address. -/
def Config.validateTargetServersFrom (splitHostPort : String → Bool) :
    List String → Nat → List config.TargetServer → Option String
  | _, _, [] => none
  | seenIDs, i, server :: rest =>
    if seenIDs.contains server.ID then some ("duplicate target server ID: " ++ server.ID)
    else if server.ID = "" then
      some ("target server " ++ toString i ++ ": ID is required")
    else if server.Name = "" then
      some ("target server " ++ server.ID ++ ": name is required")
    else if server.Address = "" then
      some ("target server " ++ server.ID ++ ": address is required")
    else if splitHostPort server.Address = false then
      some ("target server " ++ server.ID ++ ": invalid address format \x27" ++
        server.Address ++ "\x27, expected \x27host:port\x27")
    else if server.Timeout ≤ 0 then
      some ("target server " ++ server.ID ++ ": timeout must be positive")
    else if server.MaxRetries < 0 then
      some ("target server " ++ server.ID ++ ": max_retries cannot be negative")
    else if server.BatchSize ≤ 0 then
      some ("target server " ++ server.ID ++ ": batch_size must be positive")
    else Config.validateTargetServersFrom splitHostPort (server.ID :: seenIDs) (i + 1) rest

/-- Embeds `Config.ValidateTargetServers`; `none` is Go's nil error. -/
def Config.ValidateTargetServers (splitHostPort : String → Bool) (c : Config) :
    Option String :=
  if c.TargetServers.length = 0 then some "no target servers configured"
  else Config.validateTargetServersFrom splitHostPort [] 0 c.TargetServers

/-! ## synchronizer.go

A transaction works on a copy of the rows of `target_servers`; the commit stores the copy.
Go's `int(d.Seconds())`, a floating-point computation, is the argument `seconds` of the
statements that write `connection_timeout_sec`. -/

/-- Modelled from the spec: the table `targets`, whose schema is not among the sources.
The column `id` is the primary key, so an insert of an id that a row already holds is
refused; `created_at` is set when the row is inserted. -/
def insertTargetRow (now : Int) (rows : List TargetServer) (row : TargetServer) :
    Except String (List TargetServer) :=
  if rows.any (fun r => r.ID = row.ID) then
    .error "duplicate key value violates unique constraint"
  else .ok (rows ++ [{ row with CreatedAt := now }])

/-- Embeds `TargetSynchronizer.getExistingServers`: one struct per row, in row order, with
`Timeout` the duration `timeoutSec * time.Second`; the field the query does not scan
keeps Go's zero value.  The column holds whole seconds of a `time.Duration`, for which
the product stays within int64. -/
def TargetSynchronizer.getExistingServers (tx : List TargetServer) (fails : Bool) :
    Except String (List TargetServer) :=
  if fails then .error "query failed"
  else
    .ok (tx.map (fun r =>
      { ID := r.ID, Name := r.Name, Address := r.Address, Enabled := r.Enabled,
        Timeout := r.Timeout * Second, MaxRetries := r.MaxRetries,
        BatchSize := r.BatchSize, Priority := r.Priority, CreatedAt := 0 }))

/-- Go's map index `existingServers[id]` on the map that `getExistingServers` fills: the
struct of the last scanned row with that id. -/
def existingServer (existingServers : List TargetServer) (id : String) :
    Option TargetServer :=
  existingServers.reverse.find? (fun s => s.ID = id)

/-- Embeds `TargetSynchronizer.needUpdate`. -/
def TargetSynchronizer.needUpdate (existing : TargetServer) (new : config.TargetServer) :
    Bool :=
  existing.Name != new.Name ||
    existing.Address != new.Address ||
    existing.Enabled != new.Enabled ||
    existing.Timeout != new.Timeout ||
    existing.MaxRetries != new.MaxRetries ||
    existing.BatchSize != new.BatchSize ||
    existing.Priority != new.Priority

/-- Embeds `TargetSynchronizer.updateServer`: the `UPDATE ... WHERE id = $8`. -/
def TargetSynchronizer.updateServer (seconds : Int → Int) (tx : List TargetServer)
    (fails : Bool) (server : config.TargetServer) : Except String (List TargetServer) :=
  if fails then .error "update failed"
  else
    .ok (tx.map (fun r =>
      if r.ID = server.ID then
        { r with Name := server.Name, Address := server.Address, Enabled := server.Enabled,
                 Timeout := seconds server.Timeout, MaxRetries := server.MaxRetries,
                 BatchSize := server.BatchSize, Priority := server.Priority }
      else r))

/-- Embeds `TargetSynchronizer.createServer` at time `now`: the `INSERT` of the eight
named columns. -/
def TargetSynchronizer.createServer (seconds : Int → Int) (now : Int)
    (tx : List TargetServer) (fails : Bool) (server : config.TargetServer) :
    Except String (List TargetServer) :=
  if fails then .error "insert failed"
  else
    insertTargetRow now tx
      { ID := server.ID, Name := server.Name, Address := server.Address,
        Enabled := server.Enabled, Timeout := seconds server.Timeout,
        MaxRetries := server.MaxRetries, BatchSize := server.BatchSize,
        Priority := server.Priority, CreatedAt := 0 }

/-- Embeds `TargetSynchronizer.syncSingleServer`. -/
def TargetSynchronizer.syncSingleServer (seconds : Int → Int) (now : Int)
    (tx : List TargetServer) (fails : Bool) (server : config.TargetServer)
    (existingServers : List TargetServer) : Except String (List TargetServer) :=
  match existingServer existingServers server.ID with
  | some existing =>
    if TargetSynchronizer.needUpdate existing server then
      TargetSynchronizer.updateServer seconds tx fails server
    else .ok tx
  | none => TargetSynchronizer.createServer seconds now tx fails server

/-- The loop `for id := range existingServers` of `disableMissingServers`, over the ids of
the scanned rows; `fails` tells for which id the `UPDATE` fails. -/
def TargetSynchronizer.disableLoop (fails : String → Bool) (configuredIDs : List String) :
    List TargetServer → List String → Except String (List TargetServer)
  | tx, [] => .ok tx
  | tx, id :: rest =>
    if !configuredIDs.contains id then
      if fails id then .error "update failed"
      else
        TargetSynchronizer.disableLoop fails configuredIDs
          (tx.map (fun r => if r.ID = id then { r with Enabled := false } else r)) rest
    else TargetSynchronizer.disableLoop fails configuredIDs tx rest

/-- Embeds `TargetSynchronizer.disableMissingServers`. -/
def TargetSynchronizer.disableMissingServers (tx : List TargetServer)
    (fails : String → Bool) (configuredServers : List config.TargetServer)
    (existingServers : List TargetServer) : Except String (List TargetServer) :=
  let configuredIDs := configuredServers.map (fun server => server.ID)
  TargetSynchronizer.disableLoop fails configuredIDs tx
    (existingServers.map (fun server => server.ID))

/-- The storage failures that can hit one `SyncTargetServers` call: the `Begin`, the query
of the existing rows, the statement that syncs a configured id, the statement that
disables a stored id, and the `Commit`. -/
structure SyncFaults where
  begin : Bool
  getExisting : Bool
  syncServer : String → Bool
  disableServer : String → Bool
  commit : Bool

/-- No statement fails. -/
def SyncFaults.none : SyncFaults :=
  { begin := false, getExisting := false, syncServer := fun _ => false,
    disableServer := fun _ => false, commit := false }

/-- The loop `for _, server := range servers` of `SyncTargetServers`. -/
def TargetSynchronizer.syncLoop (seconds : Int → Int) (now : Int) (faults : SyncFaults)
    (existingServers : List TargetServer) :
    List TargetServer → List config.TargetServer → Except String (List TargetServer)
  | tx, [] => .ok tx
  | tx, server :: rest =>
    match TargetSynchronizer.syncSingleServer seconds now tx (faults.syncServer server.ID)
        server existingServers with
    | .error e => .error ("failed to sync server " ++ server.ID ++ ": " ++ e)
    | .ok tx1 => TargetSynchronizer.syncLoop seconds now faults existingServers tx1 rest

/-- Embeds `TargetSynchronizer.SyncTargetServers` at time `now`: the store afterwards and
the returned error (`none` is nil).  A call that returns an error has not committed, and
the table is as it was. -/
def TargetSynchronizer.SyncTargetServers (seconds : Int → Int) (db : Store) (now : Int)
    (faults : SyncFaults) (servers : List config.TargetServer) : Store × Option String :=
  if faults.begin then (db, some "failed to begin transaction")
  else
    let tx := db.target_servers
    match TargetSynchronizer.getExistingServers tx faults.getExisting with
    | .error e => (db, some ("failed to get existing servers: " ++ e))
    | .ok existingServers =>
      match TargetSynchronizer.syncLoop seconds now faults existingServers tx servers with
      | .error e => (db, some e)
      | .ok tx1 =>
        match TargetSynchronizer.disableMissingServers tx1 faults.disableServer servers
            existingServers with
        | .error e => (db, some ("failed to disable missing servers: " ++ e))
        | .ok tx2 =>
          if faults.commit then (db, some "failed to commit transaction")
          else ({ db with target_servers := tx2 }, none)

/-! ## Sequences of failover operations -/

/-- The four operations on the failover state of `Manager`. -/
inductive FailoverOp where
  | recordFailure (serverID : String)
  | resetFailureCount (serverID : String)
  | performFailover
  | checkAndPerformFailover
deriving DecidableEq, Repr

/-- One operation applied to a failover state. -/
def FailoverOp.apply (m : Failover) : FailoverOp → Failover
  | .recordFailure serverID => Manager.recordFailure m serverID
  | .resetFailureCount serverID => Manager.resetFailureCount m serverID
  | .performFailover => Manager.performFailover m
  | .checkAndPerformFailover => Manager.checkAndPerformFailover m

/-- A sequence of operations applied from left to right. -/
def FailoverOp.run (m : Failover) (ops : List FailoverOp) : Failover :=
  ops.foldl FailoverOp.apply m

/-! ## Feeding a stream to the reassembler -/

/-- Feeding chunks in order to a `DelimiterHandler` via `ProcessData`: the final handler
and the concatenation of the record lists returned by the calls. -/
def DelimiterHandler.feed :
    DelimiterHandler → List (List Byte) → Option (DelimiterHandler × List (List Byte))
  | dh, [] => some (dh, [])
  | dh, chunk :: rest =>
    match dh.ProcessData chunk with
    | none => none
    | some (dh1, records, _) =>
      match DelimiterHandler.feed dh1 rest with
      | none => none
      | some (dh2, records2) => some (dh2, records ++ records2)

/-- The delimiter `sep` occurs in `s` at index `i`. -/
def occursAt (s sep : List Byte) (i : Nat) : Prop :=
  i + sep.length ≤ s.length ∧ (s.drop i).take sep.length = sep

/-- Cutting a byte stream at the successive first occurrences of the delimiter, as the
spec words the reassembly (search for the delimiter; on hit, split at the match, yield
the prefix as one record, consume the delimiter): the delimiter-terminated records,
empty ones included, and the unterminated rest.  The counter bounds the number of
cuts. -/
def splitStream (sep : List Byte) : Nat → List Byte → List (List Byte) × List Byte
  | 0, s => ([], s)
  | fuel + 1, s =>
    match bytesIndex s sep with
    | none => ([], s)
    | some i =>
      let r := splitStream sep fuel (s.drop (i + sep.length))
      (s.take i :: r.1, r.2)

/-- The whole stream `s` cut at every delimiter: each cut consumes at least one byte, so
one cut per byte suffices. -/
def splitAll (sep s : List Byte) : List (List Byte) × List Byte :=
  splitStream sep (s.length + 1) s

/-- The delimiter-terminated records of the whole stream `s`, in order. -/
def terminatedRecords (sep s : List Byte) : List (List Byte) := (splitAll sep s).1

/-- What `ProcessData` does to the rest when no delimiter is left in the buffer. -/
def overflowGuard (maxLength : Int) (buffer : List Byte) : List Byte :=
  if (buffer.length : Int) > maxLength then [] else buffer

/-! ## The reconciled table, row by row -/

/-- The struct that `getExistingServers` scans from a row. -/
def scannedServer (r : TargetServer) : TargetServer :=
  { ID := r.ID, Name := r.Name, Address := r.Address, Enabled := r.Enabled,
    Timeout := r.Timeout * Second, MaxRetries := r.MaxRetries,
    BatchSize := r.BatchSize, Priority := r.Priority, CreatedAt := 0 }

/-- A stored row with the seven configured attributes written over it. -/
def configuredRow (seconds : Int → Int) (server : config.TargetServer) (r : TargetServer) :
    TargetServer :=
  { r with Name := server.Name, Address := server.Address, Enabled := server.Enabled,
           Timeout := seconds server.Timeout, MaxRetries := server.MaxRetries,
           BatchSize := server.BatchSize, Priority := server.Priority }

/-- The row inserted at time `now` for a configured server that no stored row holds. -/
def insertedRow (seconds : Int → Int) (now : Int) (server : config.TargetServer) :
    TargetServer :=
  { ID := server.ID, Name := server.Name, Address := server.Address,
    Enabled := server.Enabled, Timeout := seconds server.Timeout,
    MaxRetries := server.MaxRetries, BatchSize := server.BatchSize,
    Priority := server.Priority, CreatedAt := now }

/-- A stored row with `enabled = false`. -/
def disabledRow (r : TargetServer) : TargetServer := { r with Enabled := false }

/-- What becomes of a stored row: if a configured server has its id, the configured
attributes are written over it when they differ from the stored ones; otherwise
`absent` is applied. -/
def reconciledRow (seconds : Int → Int) (servers : List config.TargetServer)
    (absent : TargetServer → TargetServer) (r : TargetServer) : TargetServer :=
  match servers.find? (fun server => server.ID = r.ID) with
  | some server =>
    if TargetSynchronizer.needUpdate (scannedServer r) server then
      configuredRow seconds server r
    else r
  | none => absent r

/-- The table after the configured servers have been upserted into the stored rows: the
stored rows in place, then one new row per configured id that no stored row holds. -/
def upsertedRows (seconds : Int → Int) (now : Int) (stored : List TargetServer)
    (servers : List config.TargetServer) (absent : TargetServer → TargetServer) :
    List TargetServer :=
  stored.map (reconciledRow seconds servers absent) ++
    (servers.filter (fun server => !stored.any (fun r => r.ID = server.ID))).map
      (insertedRow seconds now)

/-- The reconciled table: upsert of the configured servers, stored rows of other ids
disabled. -/
def reconciledRows (seconds : Int → Int) (now : Int) (stored : List TargetServer)
    (servers : List config.TargetServer) : List TargetServer :=
  upsertedRows seconds now stored servers disabledRow

/-! ## Test data of the scenarios -/

/-- The delimiter `78 78 78 78 88 88 88 88`. -/
def scenarioDelimiter : List Byte := [0x78, 0x78, 0x78, 0x78, 0x88, 0x88, 0x88, 0x88]

/-- Configuration of the auth-frame scenario: `source_id=0x00000322`,
`host_id=0x00000014`, the token of 32 ASCII `A`; the heartbeat interval is 10 s, the
idle timeouts 30 s and 60 s. -/
def scenarioConfig (maxPacketLength : Int) : SourceConfig :=
  { delimiterBytes := scenarioDelimiter, maxPacketLength := maxPacketLength,
    token := List.replicate 32 (0x41 : Byte), sourceID := 0x00000322, hostID := 0x00000014,
    heartbeatInterval := 10000000000, writeIdleTimeout := 30000000000,
    readIdleTimeout := 60000000000 }

/-- The 30 header bytes listed in the auth-frame scenario. -/
def scenarioHeader : List Byte :=
  [0x00, 0x00, 0x03, 0x22, 0x00, 0x00, 0x00, 0x14,
   0x00, 0x00, 0x00, 0x00, 0x00, 0x00, 0x00, 0x01, 0x00, 0x01,
   0x00, 0x00, 0x00, 0x28, 0x00, 0x00, 0x00, 0x00, 0x00, 0x00, 0x00, 0x00]

/-- The 70-byte string of the auth-frame scenario: the header bytes, 32 bytes `0x41`,
the delimiter. -/
def scenarioAuthFrame : List Byte :=
  scenarioHeader ++ List.replicate 32 (0x41 : Byte) ++ scenarioDelimiter

/-- A base package with a three-byte payload. -/
def samplePackage : BasePackage :=
  { SourceInfo := 0x322, HostInfo := 0x14, PackageNo := 1, CurrentDataItem := 1,
    DataSumLength := 3, RetransmissionFlag := 0, RetransmissionData := 0,
    RetransmissionSumLength := 0, Data := [1, 2, 3] }

/-- A 33-byte record: a zero header declaring one payload byte, then the byte `2A`. -/
def sampleFrame : List Byte :=
  List.replicate 21 (0 : Byte) ++ [1] ++ List.replicate 10 (0 : Byte) ++ [0x2A]

/-- A 32-byte record that begins with the heartbeat marker and declares no payload. -/
def markerFrame : List Byte := HeartbeatPacket ++ List.replicate 26 (0 : Byte)

/-- A 33-byte record of zeros: a zero header declaring no payload, then one more byte. -/
def overlongFrame : List Byte := List.replicate 33 (0 : Byte)

/-- A 32-byte record: a zero header declaring one payload byte, and no payload. -/
def truncatedFrame : List Byte :=
  List.replicate 21 (0 : Byte) ++ [1] ++ List.replicate 10 (0 : Byte)

/-- A record of one byte followed by the delimiter. -/
def shortRecordChunk : List Byte := [0x01] ++ scenarioDelimiter

/-- One read that holds a heartbeat record and then the record `sampleFrame`. -/
def heartbeatThenDataChunk : List Byte :=
  HeartbeatPacket ++ scenarioDelimiter ++ sampleFrame ++ scenarioDelimiter

/-- An enabled target with `max_retries = 3`. -/
def sampleTarget : TargetServer :=
  { ID := "t1", Name := "target-1", Address := "10.0.0.1:9000", Enabled := true,
    Timeout := 5, MaxRetries := 3, BatchSize := 10, Priority := 1, CreatedAt := 0 }

/-- A store with one enabled target and no messages. -/
def sampleStore : Store :=
  { message_queue := [], target_delivery_status := [], target_servers := [sampleTarget],
    nextMessageID := 1 }

/-- A message as the ingest path builds it. -/
def sampleMessage : Message :=
  { ID := 0, SourceIP := "", OriginalData := [0x2A], DataLength := 1, CreatedAt := 0,
    ProcessedAt := none, Status := "pending" }

/-- Only the target query fails. -/
def faultListTargets : SaveFaults :=
  { insertMessage := false, listTargets := true, createDelivery := fun _ => false }

/-- Only the delivery inserts fail. -/
def faultCreateDelivery : SaveFaults :=
  { insertMessage := false, listTargets := false, createDelivery := fun _ => true }

/-- The store after one message was saved at time 100 without failures. -/
def savedStore : Store := (Postgres.SaveMessage sampleStore 100 SaveFaults.none sampleMessage).1

/-- The saved message, with the id and creation time the store assigned. -/
def savedMessage : Message :=
  (Postgres.SaveMessage sampleStore 100 SaveFaults.none sampleMessage).2.1

/-- A processing that meets no storage failure: it marks the row at time `now`, starts
recording the result of its send one time unit later, and reads the clock for the
retry time one unit after that. -/
def processingAt (now : Int) : Processing :=
  { markAt := now, resultAt := now + 1, retryAt := now + 2, markFails := false,
    getAttemptsFails := false, resultFails := false }

/-- The store after the worker of `t1` took up the saved message at time 200 and the
process was killed during the send. -/
def abandonedStore : Store :=
  Worker.processSingleMessage savedStore (processingAt 200) "t1" savedMessage
    SendOutcome.killed

/-- The store after a second message was saved at time 150 and the send of the first was
then abandoned at time 200. -/
def twoMessageStore : Store :=
  Worker.processSingleMessage
    (Postgres.SaveMessage savedStore 150 SaveFaults.none sampleMessage).1 (processingAt 200)
    "t1" savedMessage SendOutcome.killed

/-- The delivery row that the data model prescribes for a new message and a target:
status `pending`, `attempts=0`, `max_attempts=target.max_retries`, `next_retry_at=NULL`,
with the target's id, name and address. -/
def expectedDeliveryRow (messageID dataSize : Int) (target : TargetServer) :
    TargetDeliveryStatus :=
  { MessageID := messageID, TargetServerID := target.ID, TargetServerName := target.Name,
    TargetAddress := target.Address, Status := "pending", SendAttempts := 0,
    MaxAttempts := target.MaxRetries, LastAttemptAt := none, NextRetryAt := none,
    SentAt := none, LastError := none, ErrorCount := 0, DataSize := dataSize }

/-- The stream `AA BB` + delimiter: one record of two bytes. -/
def twoByteStream : List Byte := [0xAA, 0xBB] ++ scenarioDelimiter

/-- The same stream cut after the third byte of the delimiter. -/
def twoByteStreamCut : List (List Byte) :=
  [[0xAA, 0xBB, 0x78, 0x78, 0x78], [0x78, 0x88, 0x88, 0x88, 0x88]]

/-- The stream of the reassembly scenario: `AA BB` + delimiter + `CC` + delimiter. -/
def reassemblyStream : List Byte :=
  [0xAA, 0xBB] ++ scenarioDelimiter ++ [0xCC] ++ scenarioDelimiter

/-- The stream of the reassembly scenario in three chunks. -/
def reassemblyChunks : List (List Byte) :=
  [[0xAA, 0xBB, 0x78, 0x78], [0x78, 0x78, 0x88, 0x88, 0x88, 0x88, 0xCC, 0x78],
   [0x78, 0x78, 0x78, 0x88, 0x88, 0x88, 0x88]]

/-- A read holding a five-byte record and its delimiter. -/
def fiveByteRecordChunk : List Byte := [1, 2, 3, 4, 5] ++ scenarioDelimiter

/-- The backoff function as the spec defines it:
`backoff(attempts) = min(base_retry_interval · 2^attempts, max_retry_interval)`. -/
def backoff (baseRetryInterval maxRetryInterval : Int) (attempts : Nat) : Int :=
  min (baseRetryInterval * 2 ^ attempts) maxRetryInterval

/-- The forwarder configuration of the retry scenario: `base_retry_interval=1s`,
`max_retry_interval=60s`. -/
def retryConfig : ForwarderConfig :=
  { BatchSize := 10, ProcessInterval := Second, MaxProcessingWorkers := 4,
    BaseRetryInterval := Second, MaxRetryInterval := 60 * Second }

/-- The store after a second message was saved at time 150; both deliveries are
pending. -/
def twoPendingStore : Store :=
  (Postgres.SaveMessage savedStore 150 SaveFaults.none sampleMessage).1

/-- A store with one enabled target whose `max_retries` is 5 and one saved message. -/
def retryStore : Store :=
  (Postgres.SaveMessage
    { sampleStore with target_servers := [{ sampleTarget with MaxRetries := 5 }] }
    0 SaveFaults.none sampleMessage).1

/-- The message saved in `retryStore`, with the id and creation time the store
assigned. -/
def retryMessage : Message := { sampleMessage with ID := 1, CreatedAt := 0 }

/-- One failed processing of `retryMessage` by the worker of `t1`, started at time `now`
and meeting no storage failure. -/
def failOnce (db : Store) (now : Int) : Store :=
  Worker.processSingleMessage db (processingAt now) "t1" retryMessage
    (SendOutcome.failed "connection refused")

/-- The store after five consecutive failed processings of `retryMessage`, at 0 s, 200 s,
400 s, 600 s and 800 s, each later than the `next_retry_at` left by the one before. -/
def fiveFailures : Store :=
  [0, 200, 400, 600, 800].foldl (fun db t => failOnce db (t * Second)) retryStore

/-- The store after the saved message was delivered to `t1` at time 200. -/
def sentStore : Store :=
  Worker.processSingleMessage savedStore (processingAt 200) "t1" savedMessage
    SendOutcome.delivered

/-- Source servers with distinct ids, both enabled, `failover_threshold=3`. -/
def sampleServers : SourceServers :=
  { Primary := { ID := "primary", Name := "main", Address := "10.0.0.1:7000", Enabled := true,
                 FailoverThreshold := 3 },
    Backup := { ID := "backup", Name := "standby", Address := "10.0.0.2:7000", Enabled := true,
                FailoverThreshold := 3 } }

/-- The failover state on the backup server with no recorded failures. -/
def onBackup : Failover :=
  { config := sampleServers, currentServer := Endpoint.backup, failureCounts := fun _ => 0 }

/-- A token of 64 hexadecimal characters: 32 times `4A`. -/
def hexToken : List Byte := (List.replicate 32 [(0x34 : Byte), 0x41]).flatten

/-- A token of 40 ASCII characters `A`. -/
def longToken : List Byte := List.replicate 40 (0x41 : Byte)

/-- A 32-byte record whose length field (bytes 18..21) is `FF FF FF E0`, so that
`32 + length` is 0 in uint32 arithmetic. -/
def wrappedLengthFrame : List Byte :=
  List.replicate 18 (0 : Byte) ++ [0xFF, 0xFF, 0xFF, 0xE0] ++ List.replicate 10 (0 : Byte)

/-- A token of 64 characters `Z`, none of them hexadecimal. -/
def nonHexToken : List Byte := List.replicate 64 (0x5A : Byte)

/-- A configuration whose authentication section holds `nonHexToken`, `source_id=1`,
`host_id=1` and a re-authentication interval of one hour. -/
def nonHexConfig : Config :=
  { Authentication :=
      { Token := nonHexToken, SourceID := 1, HostID := 1, ReauthInterval := 60 * Minute },
    TargetServers := [] }

/-- The conversion `int(d.Seconds())` on durations for which float64 is exact: the quotient
by one second, truncated toward zero. -/
def wholeSeconds (d : Int) : Int := Int.tdiv d Second

/-- A stored target `t3` that the configuration below changes. -/
def storedTarget : TargetServer :=
  { ID := "t3", Name := "target-3", Address := "10.0.0.3:9000", Enabled := false,
    Timeout := 5, MaxRetries := 3, BatchSize := 10, Priority := 3, CreatedAt := 7 }

/-- A store with the targets `t1` and `t3` and no messages. -/
def twoTargetStore : Store :=
  { message_queue := [], target_delivery_status := [],
    target_servers := [sampleTarget, storedTarget], nextMessageID := 1 }

/-- A configured list: `t3` with new attributes and a timeout of 2.5 s, and the new
target `t2`. -/
def configuredTargets : List config.TargetServer :=
  [ { ID := "t3", Name := "target-3b", Address := "10.0.0.3:9100", Enabled := true,
      Timeout := 2500000000, MaxRetries := 4, BatchSize := 20, Priority := 1 },
    { ID := "t2", Name := "target-2", Address := "10.0.0.2:9000", Enabled := true,
      Timeout := 5000000000, MaxRetries := 5, BatchSize := 10, Priority := 2 } ]

/-- The table that reconciling `configuredTargets` into `twoTargetStore` at time 50
leaves: `t1` disabled, `t3` rewritten, `t2` inserted. -/
def reconciledTargets : List TargetServer :=
  [ { sampleTarget with Enabled := false },
    { ID := "t3", Name := "target-3b", Address := "10.0.0.3:9100", Enabled := true,
      Timeout := 2, MaxRetries := 4, BatchSize := 20, Priority := 1, CreatedAt := 7 },
    { ID := "t2", Name := "target-2", Address := "10.0.0.2:9000", Enabled := true,
      Timeout := 5, MaxRetries := 5, BatchSize := 10, Priority := 2, CreatedAt := 50 } ]

/-- A configuration with the single target `t0`, whose `max_retries` is 0. -/
def zeroRetryConfig : Config :=
  { Authentication := { Token := [], SourceID := 0, HostID := 0, ReauthInterval := 0 },
    TargetServers :=
      [ { ID := "t0", Name := "target-0", Address := "10.0.0.9:9000", Enabled := true,
          Timeout := 5000000000, MaxRetries := 0, BatchSize := 10, Priority := 1 } ] }

/-- A store with no rows. -/
def emptyStore : Store :=
  { message_queue := [], target_delivery_status := [], target_servers := [],
    nextMessageID := 1 }

/-- The store after the targets of `zeroRetryConfig` are reconciled into the empty store
at time 0 and `sampleMessage` is saved at time 100, no statement failing. -/
def zeroRetryStore : Store :=
  (Postgres.SaveMessage
    (TargetSynchronizer.SyncTargetServers wholeSeconds emptyStore 0 SyncFaults.none
      zeroRetryConfig.TargetServers).1 100 SaveFaults.none sampleMessage).1

/-- The target row that reconciling `zeroRetryConfig` inserts. -/
def zeroRetryRow : TargetServer :=
  { ID := "t0", Name := "target-0", Address := "10.0.0.9:9000", Enabled := true,
    Timeout := 5, MaxRetries := 0, BatchSize := 10, Priority := 1, CreatedAt := 0 }

/-- The delivery row that `SaveMessage` creates for the target `t0`: pending, no attempt
made, `max_attempts` 0, no retry time. -/
def zeroRetryDelivery : TargetDeliveryStatus :=
  { MessageID := 1, TargetServerID := "t0", TargetServerName := "target-0",
    TargetAddress := "10.0.0.9:9000", Status := "pending", SendAttempts := 0,
    MaxAttempts := 0, LastAttemptAt := none, NextRetryAt := none, SentAt := none,
    LastError := none, ErrorCount := 0, DataSize := 1 }

/-! ## Theorems: frame codec -/

theorem slice_to_end (r : List Byte) (lo hi : Nat) (h : r.length = hi) :
    slice r lo hi = r.drop lo := by
  unfold slice
  apply List.take_of_length_le
  rw [List.length_drop, h]

theorem serializeBasePackage_eq (p : BasePackage) :
    AuthManager.serializeBasePackage p =
      .ok (AuthManager.headerBytes p ++ (p.Data ++ [0, 0])) := by
  have h : 32 + p.Data.length - (4 + 4 + 8 + 2 + 4 + 2 + 2 + 4 + p.Data.length) = 2 := by
    omega
  simp only [AuthManager.serializeBasePackage, h, List.append_assoc]
  rfl

/-- Decoding what `serializeBasePackage` wrote: the eight header fields come back, the
payload comes back shifted by the two bytes between offset 30 and offset 32. -/
theorem parsePackage_serializeBasePackage (p : BasePackage) (h : p.InRange) :
    ∃ q, (match AuthManager.serializeBasePackage p with
          | .ok d => ProtocolHandler.parsePackage d
          | .error e => .error e) = .ok q ∧
      q.SourceInfo = p.SourceInfo ∧ q.HostInfo = p.HostInfo ∧ q.PackageNo = p.PackageNo ∧
      q.CurrentDataItem = p.CurrentDataItem ∧ q.DataSumLength = p.DataSumLength ∧
      q.RetransmissionFlag = p.RetransmissionFlag ∧
      q.RetransmissionData = p.RetransmissionData ∧
      q.RetransmissionSumLength = p.RetransmissionSumLength ∧
      q.Data = (p.Data ++ [0, 0]).drop 2 := by
  obtain ⟨h1, h2, h3, h4, h5, h6, h7, h8⟩ := h
  rw [serializeBasePackage_eq]
  have hl : ¬ (AuthManager.headerBytes p ++ (p.Data ++ [0, 0])).length < 32 := by
    simp [AuthManager.headerBytes]
  refine ⟨_, if_neg hl, ?_, ?_, ?_, ?_, ?_, ?_, ?_, ?_, ?_⟩
  · simp [slice, bigEndian, toByte, AuthManager.headerBytes]; omega
  · simp [slice, bigEndian, toByte, AuthManager.headerBytes]; omega
  · simp [slice, bigEndian, toByte, AuthManager.headerBytes]; omega
  · simp [slice, bigEndian, toByte, AuthManager.headerBytes]; omega
  · simp [slice, bigEndian, toByte, AuthManager.headerBytes]; omega
  · simp [slice, bigEndian, toByte, AuthManager.headerBytes]; omega
  · simp [slice, bigEndian, toByte, AuthManager.headerBytes]; omega
  · simp [slice, bigEndian, toByte, AuthManager.headerBytes]; omega
  · by_cases hd : p.Data = []
    · simp [hd, AuthManager.headerBytes]
    · have : 0 < p.Data.length := List.length_pos.mpr hd
      simp [AuthManager.headerBytes]

/-- C5, as stated, fails: the frame that the first `sendAuthPacket` of the scenario
configuration writes has 72 bytes and is not the 70-byte string of the scenario. -/
theorem auth_frame_differs_from_scenario :
    ∃ frame : List Byte,
      ((NewManager (scenarioConfig 1024) : Manager Unit).sendAuthPacket
        (.error "rand.Read is not reached")).2 = .ok frame ∧
      frame.length = 72 ∧ scenarioAuthFrame.length = 70 ∧ frame ≠ scenarioAuthFrame :=
  ⟨_, rfl, by decide, by decide, by decide⟩

/-- C5, amended: for the scenario configuration (any `max_packet_length`, any state of the
random source) the first auth frame written is 72 bytes long, namely a 32-byte header
area plus 32 payload bytes plus the delimiter; its first 30 bytes are the header bytes
of the scenario and its last 8 bytes are the delimiter. -/
theorem auth_frame_layout (maxPacketLength : Int) (rnd : Except String (List Byte)) :
    ∃ frame : List Byte,
      ((NewManager (scenarioConfig maxPacketLength) : Manager Unit).sendAuthPacket rnd).2 =
        .ok frame ∧
      frame.length = 32 + 32 + 8 ∧ frame.take 30 = scenarioHeader ∧
      frame.drop 64 = scenarioDelimiter := by
  have h : (NewAuthManager (List.replicate 32 (0x41 : Byte)) 0x322 0x14).GenerateAuthPacket rnd =
      ({ token := List.replicate 32 (0x41 : Byte), sourceID := 0x322, hostID := 0x14,
         packageNo := 2 },
       .ok (scenarioHeader ++ List.replicate 32 (0x41 : Byte) ++ [0, 0])) := rfl
  refine ⟨scenarioHeader ++ List.replicate 32 (0x41 : Byte) ++ [0, 0] ++ scenarioDelimiter,
    ?_, ?_, ?_, ?_⟩
  · simp only [Manager.sendAuthPacket, NewManager, scenarioConfig, h]
    rfl
  all_goals decide

/-- C6 at the failing input: encoding `samplePackage` (payload `01 02 03`) and decoding
the result succeeds with the eight header fields intact but with payload `03 00 00`. -/
theorem roundtrip_payload_shifted :
    (match AuthManager.serializeBasePackage samplePackage with
     | .ok d => ProtocolHandler.parsePackage d
     | .error e => .error e) = .ok { samplePackage with Data := [3, 0, 0] } ∧
    samplePackage.Data = [1, 2, 3] :=
  ⟨rfl, rfl⟩

theorem processLoop_short (fuel : Nat) (buffer : List Byte) (packages : List BasePackage)
    (h : buffer.length < 32) :
    ProtocolHandler.processLoop (fuel + 1) buffer packages = some (buffer, packages) := by
  simp [ProtocolHandler.processLoop, h]

theorem isHeartbeatPacket_eq_false (r : List Byte) (h : slice r 0 6 ≠ HeartbeatPacket) :
    ProtocolHandler.isHeartbeatPacket r = false := by
  simp [ProtocolHandler.isHeartbeatPacket, h]

theorem ProcessData_single (r : List Byte) (pkg : BasePackage)
    (hlen : r.length = 32 + bigEndian (slice r 18 22))
    (hsize : r.length < 2 ^ 32)
    (hmark : slice r 0 6 ≠ HeartbeatPacket)
    (hparse : ProtocolHandler.parsePackage r = .ok pkg) :
    ProtocolHandler.ProcessData { buffer := [] } r = some ({ buffer := [] }, [pkg], none) := by
  have h32 : ¬ r.length < 32 := by omega
  have htot : (32 + bigEndian (slice r 18 22)) % 2 ^ 32 = r.length := by
    rw [← hlen]; exact Nat.mod_eq_of_lt hsize
  obtain ⟨k, hk⟩ : ∃ k, r.length = k + 1 := ⟨r.length - 1, by omega⟩
  have hloop : ProtocolHandler.processLoop (r.length + 1) r [] = some ([], [pkg]) := by
    rw [ProtocolHandler.processLoop]
    simp only [h32, if_false, isHeartbeatPacket_eq_false r hmark,
      ProtocolHandler.parseDataLength, htot, lt_irrefl, List.take_length, List.drop_length,
      hparse, List.nil_append, Bool.false_eq_true]
    rw [hk]
    exact processLoop_short k [] _ (by simp)
  simp only [ProtocolHandler.ProcessData, List.nil_append, hloop]

/-- C7, as stated, fails: `markerFrame` has length 32 + N with N = 0, yet `ProcessData`
on an empty-buffer handler returns no package and keeps 26 bytes in the buffer. -/
theorem ProcessData_marker_frame_not_decoded :
    markerFrame.length = 32 + bigEndian (slice markerFrame 18 22) ∧
    ProtocolHandler.ProcessData { buffer := [] } markerFrame =
      some ({ buffer := List.replicate 26 (0 : Byte) }, [], none) := by
  decide

/-- C7, amended: for every byte string `r` of length 32 + N below 2^32 (N the big-endian
value at `r[18..22)`) whose first six bytes are not the heartbeat marker, `ProcessData(r)`
on a handler with an empty buffer returns, with a nil error, exactly one package, whose
header fields are the big-endian values at offsets 0, 4, 8, 16, 18, 22, 24 and 26 of `r`
and whose `Data` is `r[32..32+N)`, and leaves the buffer empty. -/
theorem ProcessData_well_framed (r : List Byte)
    (hlen : r.length = 32 + bigEndian (slice r 18 22))
    (hsize : r.length < 2 ^ 32)
    (hmark : slice r 0 6 ≠ HeartbeatPacket) :
    ProtocolHandler.ProcessData { buffer := [] } r =
      some ({ buffer := [] },
        [{ SourceInfo := bigEndian (slice r 0 4), HostInfo := bigEndian (slice r 4 8),
           PackageNo := bigEndian (slice r 8 16),
           CurrentDataItem := bigEndian (slice r 16 18),
           DataSumLength := bigEndian (slice r 18 22),
           RetransmissionFlag := bigEndian (slice r 22 24),
           RetransmissionData := bigEndian (slice r 24 26),
           RetransmissionSumLength := bigEndian (slice r 26 30),
           Data := slice r 32 (32 + bigEndian (slice r 18 22)) }], none) := by
  apply ProcessData_single r _ hlen hsize hmark
  have h32 : ¬ r.length < 32 := by omega
  rw [slice_to_end r 32 _ hlen]
  simp only [ProtocolHandler.parsePackage, h32, if_false]
  by_cases h : r.length > 32
  · simp only [h, if_true]
  · have : r.length ≤ 32 := by omega
    simp only [h, if_false, List.drop_of_length_le this]

/-- C7, witness: `sampleFrame` (a zero header declaring one payload byte, then `2A`)
meets the three hypotheses and decodes to one package with payload `2A`. -/
theorem ProcessData_well_framed_witness :
    sampleFrame.length = 32 + bigEndian (slice sampleFrame 18 22) ∧
    sampleFrame.length < 2 ^ 32 ∧ slice sampleFrame 0 6 ≠ HeartbeatPacket ∧
    ProtocolHandler.ProcessData { buffer := [] } sampleFrame =
      some ({ buffer := [] },
        [{ SourceInfo := bigEndian (slice sampleFrame 0 4),
           HostInfo := bigEndian (slice sampleFrame 4 8),
           PackageNo := bigEndian (slice sampleFrame 8 16),
           CurrentDataItem := bigEndian (slice sampleFrame 16 18),
           DataSumLength := bigEndian (slice sampleFrame 18 22),
           RetransmissionFlag := bigEndian (slice sampleFrame 22 24),
           RetransmissionData := bigEndian (slice sampleFrame 24 26),
           RetransmissionSumLength := bigEndian (slice sampleFrame 26 30),
           Data := slice sampleFrame 32 (32 + bigEndian (slice sampleFrame 18 22)) }], none) :=
  ⟨by decide, by decide, by decide,
    ProcessData_well_framed sampleFrame (by decide) (by decide) (by decide)⟩

/-- C8, as stated, fails: `overlongFrame` has 33 bytes while its header declares N = 0,
yet `ProcessData` returns a package (decoded from the first 32 bytes) and a nil error. -/
theorem ProcessData_misframed_not_rejected :
    overlongFrame.length ≠ 32 + bigEndian (slice overlongFrame 18 22) ∧
    ProtocolHandler.ProcessData { buffer := [] } overlongFrame =
      some ({ buffer := [0] },
        [{ SourceInfo := 0, HostInfo := 0, PackageNo := 0, CurrentDataItem := 0,
           DataSumLength := 0, RetransmissionFlag := 0, RetransmissionData := 0,
           RetransmissionSumLength := 0, Data := [] }], none) := by
  decide

theorem ProcessData_error_nil (ph : ProtocolHandler) (data : List Byte)
    (out : ProtocolHandler × List BasePackage × Option String)
    (h : ProtocolHandler.ProcessData ph data = some out) : out.2.2 = none := by
  unfold ProtocolHandler.ProcessData at h
  simp only at h
  split at h
  · exact absurd h (by simp)
  · cases h
    rfl

theorem slice_take (r : List Byte) (n lo hi : Nat) (h : hi ≤ n) :
    slice (r.take n) lo hi = slice r lo hi := by
  unfold slice
  rw [List.drop_take, List.take_take, Nat.min_eq_left (by omega)]

theorem parsePackage_take (r : List Byte) (n : Nat) (hn : 32 + n ≤ r.length) :
    ProtocolHandler.parsePackage (r.take (32 + n)) =
      .ok { SourceInfo := bigEndian (slice r 0 4), HostInfo := bigEndian (slice r 4 8),
            PackageNo := bigEndian (slice r 8 16),
            CurrentDataItem := bigEndian (slice r 16 18),
            DataSumLength := bigEndian (slice r 18 22),
            RetransmissionFlag := bigEndian (slice r 22 24),
            RetransmissionData := bigEndian (slice r 24 26),
            RetransmissionSumLength := bigEndian (slice r 26 30),
            Data := slice r 32 (32 + n) } := by
  have htake : (r.take (32 + n)).length = 32 + n := by
    rw [List.length_take]; omega
  have hl : ¬ (r.take (32 + n)).length < 32 := by omega
  have hs : slice r 32 (32 + n) = (r.drop 32).take n := by
    unfold slice
    rw [Nat.add_sub_cancel_left]
  have hdata : (if (r.take (32 + n)).length > 32 then (r.take (32 + n)).drop 32 else []) =
      slice r 32 (32 + n) := by
    rw [hs, htake]
    split
    · rw [List.drop_take, Nat.add_sub_cancel_left]
    · next h0 =>
      have hn0 : n = 0 := by omega
      subst hn0
      rfl
  simp only [ProtocolHandler.parsePackage, hl, if_false, hdata,
    slice_take r (32 + n) 0 4 (by omega), slice_take r (32 + n) 4 8 (by omega),
    slice_take r (32 + n) 8 16 (by omega), slice_take r (32 + n) 16 18 (by omega),
    slice_take r (32 + n) 18 22 (by omega), slice_take r (32 + n) 22 24 (by omega),
    slice_take r (32 + n) 24 26 (by omega), slice_take r (32 + n) 26 30 (by omega)]

theorem ProcessData_leading_frame (r : List Byte)
    (hmark : slice r 0 6 ≠ HeartbeatPacket)
    (hlong : 32 + bigEndian (slice r 18 22) < r.length)
    (hrest : r.length < 32 + bigEndian (slice r 18 22) + 32)
    (hsize : 32 + bigEndian (slice r 18 22) < 2 ^ 32) :
    ProtocolHandler.ProcessData { buffer := [] } r =
      some ({ buffer := r.drop (32 + bigEndian (slice r 18 22)) },
        [{ SourceInfo := bigEndian (slice r 0 4), HostInfo := bigEndian (slice r 4 8),
           PackageNo := bigEndian (slice r 8 16),
           CurrentDataItem := bigEndian (slice r 16 18),
           DataSumLength := bigEndian (slice r 18 22),
           RetransmissionFlag := bigEndian (slice r 22 24),
           RetransmissionData := bigEndian (slice r 24 26),
           RetransmissionSumLength := bigEndian (slice r 26 30),
           Data := slice r 32 (32 + bigEndian (slice r 18 22)) }], none) := by
  have h32 : ¬ r.length < 32 := by omega
  have hnlt : ¬ r.length < 32 + bigEndian (slice r 18 22) := by omega
  have hparse := parsePackage_take r (bigEndian (slice r 18 22)) (by omega)
  obtain ⟨k, hk⟩ : ∃ k, r.length = k + 1 := ⟨r.length - 1, by omega⟩
  have hshort : (r.drop (32 + bigEndian (slice r 18 22))).length < 32 := by
    rw [List.length_drop]; omega
  have hloop : ProtocolHandler.processLoop (r.length + 1) r [] =
      some (r.drop (32 + bigEndian (slice r 18 22)),
        [{ SourceInfo := bigEndian (slice r 0 4), HostInfo := bigEndian (slice r 4 8),
           PackageNo := bigEndian (slice r 8 16),
           CurrentDataItem := bigEndian (slice r 16 18),
           DataSumLength := bigEndian (slice r 18 22),
           RetransmissionFlag := bigEndian (slice r 22 24),
           RetransmissionData := bigEndian (slice r 24 26),
           RetransmissionSumLength := bigEndian (slice r 26 30),
           Data := slice r 32 (32 + bigEndian (slice r 18 22)) }]) := by
    rw [ProtocolHandler.processLoop]
    simp only [h32, if_false, isHeartbeatPacket_eq_false r hmark,
      ProtocolHandler.parseDataLength, Nat.mod_eq_of_lt hsize, hnlt, hparse, List.nil_append,
      Bool.false_eq_true]
    rw [hk]
    exact processLoop_short k _ _ hshort
  simp only [ProtocolHandler.ProcessData, List.nil_append, hloop]

/-- C8, amended: `ProcessData` never returns a non-nil error.  For every byte string `r`
that is shorter than 32 bytes, or that does not start with the heartbeat marker and is
shorter than 32 + N (N the big-endian value at `r[18..22)`, 32 + N below 2^32),
`ProcessData(r)` on a handler with an empty buffer returns no package and a nil error
and keeps `r` in the buffer.  An `r` that does not start with the heartbeat marker and
is longer than 32 + N by fewer than 32 bytes is not rejected either: `ProcessData(r)`
returns, with a nil error, exactly one package, decoded from the leading 32 + N bytes
of `r`, and keeps the remaining bytes in the buffer. -/
theorem ProcessData_incomplete_frame_buffered (r : List Byte) :
    ((r.length < 32 ∨
      (slice r 0 6 ≠ HeartbeatPacket ∧ r.length < 32 + bigEndian (slice r 18 22) ∧
        32 + bigEndian (slice r 18 22) < 2 ^ 32)) →
      ProtocolHandler.ProcessData { buffer := [] } r = some ({ buffer := r }, [], none)) ∧
    ((slice r 0 6 ≠ HeartbeatPacket ∧ 32 + bigEndian (slice r 18 22) < r.length ∧
        r.length < 32 + bigEndian (slice r 18 22) + 32 ∧
        32 + bigEndian (slice r 18 22) < 2 ^ 32) →
      ProtocolHandler.ProcessData { buffer := [] } r =
        some ({ buffer := r.drop (32 + bigEndian (slice r 18 22)) },
          [{ SourceInfo := bigEndian (slice r 0 4), HostInfo := bigEndian (slice r 4 8),
             PackageNo := bigEndian (slice r 8 16),
             CurrentDataItem := bigEndian (slice r 16 18),
             DataSumLength := bigEndian (slice r 18 22),
             RetransmissionFlag := bigEndian (slice r 22 24),
             RetransmissionData := bigEndian (slice r 24 26),
             RetransmissionSumLength := bigEndian (slice r 26 30),
             Data := slice r 32 (32 + bigEndian (slice r 18 22)) }], none)) ∧
    ∀ (ph : ProtocolHandler) (data : List Byte)
      (out : ProtocolHandler × List BasePackage × Option String),
      ProtocolHandler.ProcessData ph data = some out → out.2.2 = none := by
  refine ⟨fun h => ?_, fun h => ProcessData_leading_frame r h.1 h.2.1 h.2.2.1 h.2.2.2,
    ProcessData_error_nil⟩
  have hloop : ProtocolHandler.processLoop (r.length + 1) r [] = some (r, []) := by
    by_cases h32 : r.length < 32
    · exact processLoop_short _ r [] h32
    · rcases h with h | ⟨hmark, hlt, hsize⟩
      · exact absurd h h32
      · rw [ProtocolHandler.processLoop]
        simp only [h32, if_false, isHeartbeatPacket_eq_false r hmark,
          ProtocolHandler.parseDataLength, Nat.mod_eq_of_lt hsize, hlt, if_true,
          Bool.false_eq_true]
  simp only [ProtocolHandler.ProcessData, List.nil_append, hloop]

/-- C8, witness: `truncatedFrame` (32 bytes, header declaring one payload byte) meets
the first hypothesis and is kept in the buffer; `overlongFrame` (33 zero bytes, header
declaring no payload) meets the second and yields one package and one buffered byte. -/
theorem ProcessData_incomplete_frame_buffered_witness :
    ((slice truncatedFrame 0 6 ≠ HeartbeatPacket ∧
      truncatedFrame.length < 32 + bigEndian (slice truncatedFrame 18 22) ∧
      32 + bigEndian (slice truncatedFrame 18 22) < 2 ^ 32) ∧
    ProtocolHandler.ProcessData { buffer := [] } truncatedFrame =
      some ({ buffer := truncatedFrame }, [], none)) ∧
    ((slice overlongFrame 0 6 ≠ HeartbeatPacket ∧
      32 + bigEndian (slice overlongFrame 18 22) < overlongFrame.length ∧
      overlongFrame.length < 32 + bigEndian (slice overlongFrame 18 22) + 32 ∧
      32 + bigEndian (slice overlongFrame 18 22) < 2 ^ 32) ∧
    ProtocolHandler.ProcessData { buffer := [] } overlongFrame =
      some ({ buffer := overlongFrame.drop (32 + bigEndian (slice overlongFrame 18 22)) },
        [{ SourceInfo := bigEndian (slice overlongFrame 0 4),
           HostInfo := bigEndian (slice overlongFrame 4 8),
           PackageNo := bigEndian (slice overlongFrame 8 16),
           CurrentDataItem := bigEndian (slice overlongFrame 16 18),
           DataSumLength := bigEndian (slice overlongFrame 18 22),
           RetransmissionFlag := bigEndian (slice overlongFrame 22 24),
           RetransmissionData := bigEndian (slice overlongFrame 24 26),
           RetransmissionSumLength := bigEndian (slice overlongFrame 26 30),
           Data := slice overlongFrame 32 (32 + bigEndian (slice overlongFrame 18 22)) }],
        none)) :=
  ⟨⟨by decide,
    (ProcessData_incomplete_frame_buffered truncatedFrame).1 (Or.inr (by decide))⟩,
   ⟨by decide,
    (ProcessData_incomplete_frame_buffered overlongFrame).2.1 (by decide)⟩⟩

/-! ## Theorems: read loop -/

/-- C2 at the failing input: in the wiring of `main`, a read that holds the well-framed
record `sampleFrame` (payload `2A`) makes exactly one callback invocation, of the
`return nil` closure passed to `ConnectToSource`; the closure registered with
`SetDataHandler` is still stored in the manager and was not invoked. -/
theorem main_session_bypasses_registered_handler :
    ∃ (m : Manager MainCallback) (frames : List (List Byte)),
      mainSourceSession (scenarioConfig 1024) (.error "rand.Read is not reached")
        [sampleFrame ++ scenarioDelimiter] =
        some (m, frames, [(MainCallback.returnNil, [0x2A])]) ∧
      m.dataHandler = some MainCallback.saveToDatabase :=
  ⟨_, _, rfl, rfl⟩

/-- C3 at the failing inputs: the one-byte record of `shortRecordChunk` is neither a
heartbeat marker nor longer than `max_packet_length` and does not decode, yet no callback
is invoked and the byte stays in the protocol handler's buffer; and the well-framed
record of `heartbeatThenDataChunk` causes no invocation either, because the read that
carries it also carries a heartbeat. -/
theorem undecodable_record_not_delivered :
    (∃ m : Manager Unit,
      Manager.readChunks () (NewManager (scenarioConfig 1024)) [shortRecordChunk] =
        some (m, []) ∧ m.protocolHandler.buffer = [0x01]) ∧
    (∃ m : Manager Unit,
      Manager.readChunks () (NewManager (scenarioConfig 1024)) [heartbeatThenDataChunk] =
        some (m, [])) :=
  ⟨⟨_, rfl, rfl⟩, ⟨_, rfl⟩⟩

theorem handlePackets_callbacks {H : Type} (dh : DelimiterHandler) (dataHandler : H)
    (packets : List (List Byte)) (ph : ProtocolHandler) (calls : List (H × List Byte))
    (out : ProtocolHandler × List (H × List Byte))
    (h : Manager.handlePackets dh dataHandler ph packets calls = some out)
    (hc : ∀ c ∈ calls, c.1 = dataHandler) : ∀ c ∈ out.2, c.1 = dataHandler := by
  induction packets generalizing ph calls with
  | nil =>
    simp only [Manager.handlePackets, Option.some.injEq] at h
    subst h
    exact hc
  | cons packet rest ih =>
    rw [Manager.handlePackets] at h
    split at h
    · exact ih _ _ h hc
    · split at h
      · cases h
      · refine ih _ _ h (fun c hmem => ?_)
        rcases List.mem_append.mp hmem with hm | hm
        · exact hc c hm
        · rw [List.mem_singleton.mp hm]
      · refine ih _ _ h (fun c hmem => ?_)
        rcases List.mem_append.mp hmem with hm | hm
        · exact hc c hm
        · obtain ⟨pkg, -, rfl⟩ := List.mem_map.mp hm
          rfl

theorem handleRead_callbacks {H : Type} (m : Manager H) (dataHandler : H) (data : List Byte)
    (out : Manager H × List (H × List Byte))
    (h : m.handleRead dataHandler data = some out) : ∀ c ∈ out.2, c.1 = dataHandler := by
  unfold Manager.handleRead at h
  split at h
  · split at h
    · cases h; simp
    · split at h
      · cases h
      · cases h; simp
      · split at h
        · cases h
        · rename_i hp
          cases h
          exact handlePackets_callbacks _ _ _ _ _ _ hp (by simp)
  · cases h; simp

theorem readChunks_callbacks {H : Type} (dataHandler : H) (chunks : List (List Byte))
    (m : Manager H) (out : Manager H × List (H × List Byte))
    (h : Manager.readChunks dataHandler m chunks = some out) :
    ∀ c ∈ out.2, c.1 = dataHandler := by
  induction chunks generalizing m out with
  | nil =>
    simp only [Manager.readChunks, Option.some.injEq] at h
    subst h
    simp
  | cons data rest ih =>
    rw [Manager.readChunks] at h
    split at h
    · cases h
    · rename_i m1 calls h1
      split at h
      · cases h
      · rename_i m2 calls2 h2
        cases h
        intro c hmem
        rcases List.mem_append.mp hmem with hm | hm
        · exact handleRead_callbacks _ _ _ _ h1 c hm
        · exact ih _ _ h2 c hm

/-- In the wiring of `main`, whatever the configuration and the bytes read, every callback
invocation of the session goes to the `return nil` closure; the closure registered with
`SetDataHandler` is never invoked. -/
theorem mainSourceSession_never_saves (cfg : SourceConfig) (rnd : Except String (List Byte))
    (chunks : List (List Byte))
    (out : Manager MainCallback × List (List Byte) × List (MainCallback × List Byte))
    (h : mainSourceSession cfg rnd chunks = some out) :
    ∀ c ∈ out.2.2, c.1 = MainCallback.returnNil := by
  unfold mainSourceSession Manager.readDataFromSource at h
  simp only at h
  split at h
  · cases h; simp
  · split at h
    · cases h
    · rename_i hr
      cases h
      exact readChunks_callbacks _ _ _ _ hr

/-! ## Theorems: queue store -/

theorem createDeliveries_eq (faults : SaveFaults) (msg : Message)
    (targets : List TargetServer) (db : Store) :
    Postgres.createDeliveries faults msg db targets =
      { db with target_delivery_status := (db.target_delivery_status ++
          (targets.filter (fun t => !faults.createDelivery t.ID)).map
            (expectedDeliveryRow msg.ID msg.DataLength)) } := by
  induction targets generalizing db with
  | nil => simp [Postgres.createDeliveries]
  | cons t rest ih =>
    rw [Postgres.createDeliveries]
    simp only [ih]
    cases hf : faults.createDelivery t.ID
    · simp [Postgres.CreateDeliveryStatus, hf, deliveryRowWithDefaults, expectedDeliveryRow,
        StatusPending]
    · simp [Postgres.CreateDeliveryStatus, hf]

/-- C1, as stated, fails: when only the target query fails, `SaveMessage` returns an
error although the message row was added; when only the delivery insert fails, it
returns nil although the one enabled target got no delivery row. -/
theorem SaveMessage_not_atomic :
    ((Postgres.SaveMessage sampleStore 100 faultListTargets sampleMessage).2.2 ≠ none ∧
      (Postgres.SaveMessage sampleStore 100 faultListTargets
        sampleMessage).1.message_queue.length = sampleStore.message_queue.length + 1) ∧
    ((Postgres.SaveMessage sampleStore 100 faultCreateDelivery sampleMessage).2.2 = none ∧
      (sampleStore.target_servers.filter (fun t => t.Enabled)).length = 1 ∧
      (Postgres.SaveMessage sampleStore 100 faultCreateDelivery
        sampleMessage).1.target_delivery_status = []) := by
  decide

/-- C1, amended: for every store state and every combination of storage failures, if
`SaveMessage` returns nil the store has gained exactly one message row and exactly one
delivery row (status pending, attempts 0, `max_attempts` = the target's `max_retries`,
`next_retry_at` null) for each currently enabled target whose delivery insert did not
fail, hence for each enabled target when no statement fails; if it returns an error the
store has gained no delivery row, and it is unchanged when the message insert was the
statement that failed, while the message row stays when the target query failed. -/
theorem SaveMessage_effects (db : Store) (now : Int) (faults : SaveFaults) (msg : Message) :
    let out := Postgres.SaveMessage db now faults msg
    let stored : Message :=
      { msg with ID := db.nextMessageID, CreatedAt := now, ProcessedAt := none }
    let enabled := (db.target_servers.filter (fun t => t.Enabled)).insertionSort
      (fun a b => a.CreatedAt ≤ b.CreatedAt)
    (out.2.2 = none →
      out.1.message_queue = db.message_queue ++ [stored] ∧
      out.1.target_delivery_status = db.target_delivery_status ++
        (enabled.filter (fun t => !faults.createDelivery t.ID)).map
          (expectedDeliveryRow db.nextMessageID msg.DataLength)) ∧
    (out.2.2 ≠ none →
      out.1.target_delivery_status = db.target_delivery_status ∧
      (if faults.insertMessage then out.1 = db
       else out.1.message_queue = db.message_queue ++ [stored])) := by
  intro out stored enabled
  cases h1 : faults.insertMessage
  · cases h2 : faults.listTargets
    · have hout : out = Postgres.SaveMessage db now faults msg := rfl
      simp only [Postgres.SaveMessage, h1, h2, Postgres.GetEnabledTargetServers,
        createDeliveries_eq, Bool.false_eq_true, if_false] at hout
      rw [hout]
      simp [List.filter_map, List.map_map, Function.comp_def, expectedDeliveryRow, stored,
        enabled]
    · have hout : out = Postgres.SaveMessage db now faults msg := rfl
      simp only [Postgres.SaveMessage, h1, h2, Postgres.GetEnabledTargetServers,
        Bool.false_eq_true, if_false, if_true] at hout
      rw [hout]
      simp [stored]
  · have hout : out = Postgres.SaveMessage db now faults msg := rfl
    simp only [Postgres.SaveMessage, h1, if_true] at hout
    rw [hout]
    simp

/-- C1, witness: saving `sampleMessage` into `sampleStore` without failures returns nil
and leaves exactly the message row and the pending delivery row for target `t1`. -/
theorem SaveMessage_effects_witness :
    (Postgres.SaveMessage sampleStore 100 SaveFaults.none sampleMessage).2.2 = none ∧
    (Postgres.SaveMessage sampleStore 100 SaveFaults.none sampleMessage).1.message_queue =
      [{ sampleMessage with ID := 1, CreatedAt := 100 }] ∧
    (Postgres.SaveMessage sampleStore 100 SaveFaults.none
      sampleMessage).1.target_delivery_status = [expectedDeliveryRow 1 1 sampleTarget] :=
  ⟨rfl, (SaveMessage_effects sampleStore 100 SaveFaults.none sampleMessage).1 rfl⟩

theorem processSingleMessage_killed (db : Store) (run : Processing) (targetID : String)
    (message : Message) (hmark : run.markFails = false) :
    Worker.processSingleMessage db run targetID message SendOutcome.killed =
      { db with target_delivery_status := db.target_delivery_status.map (fun tds =>
          if tds.MessageID = message.ID ∧ tds.TargetServerID = targetID then
            { tds with Status := "sending", LastAttemptAt := some run.markAt,
                       SendAttempts := 0 }
          else tds) } := by
  simp [Worker.processSingleMessage, Postgres.UpdateDeliveryStatus, StatusSending, hmark]

theorem deliveryEligible_status (now : Int) (targetID : String) (tds : TargetDeliveryStatus)
    (h : deliveryEligible now targetID tds = true) :
    tds.TargetServerID = targetID ∧ (tds.Status = "pending" ∨ tds.Status = "failed") ∧
    (tds.NextRetryAt = none ∨ ∃ t, tds.NextRetryAt = some t ∧ t ≤ now) ∧
    tds.SendAttempts < tds.MaxAttempts := by
  unfold deliveryEligible at h
  simp only [Bool.and_eq_true, Bool.or_eq_true, decide_eq_true_eq] at h
  obtain ⟨⟨⟨h1, h2⟩, h3⟩, h4⟩ := h
  refine ⟨h1, h2, ?_, h4⟩
  cases hn : tds.NextRetryAt with
  | none => exact Or.inl rfl
  | some t =>
    rw [hn] at h3
    exact Or.inr ⟨t, rfl, by simpa using h3⟩

theorem GetPendingMessagesForTarget_mem (db : Store) (now : Int) (fails : Bool)
    (targetID : String) (limit : Int) (msgs : List Message)
    (h : Postgres.GetPendingMessagesForTarget db now fails targetID limit = .ok msgs)
    (m : Message) (hm : m ∈ msgs) :
    m ∈ db.message_queue ∧ ∃ tds ∈ db.target_delivery_status,
      m.ID = tds.MessageID ∧ deliveryEligible now targetID tds = true := by
  unfold Postgres.GetPendingMessagesForTarget at h
  split at h
  · cases h
  · split at h
    · cases h
    · simp only [Except.ok.injEq] at h
      subst h
      have h1 := List.mem_of_mem_take hm
      rw [(List.perm_insertionSort _ _).mem_iff] at h1
      simp only [List.mem_flatMap, List.mem_map, List.mem_filter, Bool.and_eq_true,
        decide_eq_true_eq] at h1
      obtain ⟨mq, hmq, tds, ⟨htds, hid, hel⟩, rfl⟩ := h1
      exact ⟨hmq, tds, htds, hid, hel⟩

/-- C4, as stated, fails: in `abandonedStore` the only delivery row, for message 1 and
target `t1`, was marked `sending` and then abandoned, has `next_retry_at` null and
`send_attempts < max_attempts`, yet a later `GetPendingMessagesForTarget("t1", 10)`
returns no message. -/
theorem abandoned_sending_row_not_claimed :
    abandonedStore.target_delivery_status.map
      (fun r => (r.MessageID, r.TargetServerID, r.Status, r.NextRetryAt,
        decide (r.SendAttempts < r.MaxAttempts))) = [(1, "t1", "sending", none, true)] ∧
    abandonedStore.message_queue.map (fun m => m.ID) = [1] ∧
    Postgres.GetPendingMessagesForTarget abandonedStore 300 false "t1" 10 = .ok [] :=
  ⟨by decide, by decide, rfl⟩

/-- C4, amended: a delivery that the worker marked `sending` (the marking update
succeeded, at whatever time) and then abandoned (no `mark_sent` or `mark_failed`
followed) is not eligible for claim: whatever its `next_retry_at` and attempt counters,
no later `GetPendingMessagesForTarget` call for that target, at any time and with any
limit, returns its message. -/
theorem sending_row_never_claimed (db : Store) (run : Processing) (later : Int)
    (targetID : String) (message : Message) (limit : Int) (msgs : List Message)
    (hmark : run.markFails = false)
    (h : Postgres.GetPendingMessagesForTarget
      (Worker.processSingleMessage db run targetID message SendOutcome.killed) later false
      targetID limit = .ok msgs) :
    ∀ m ∈ msgs, m.ID ≠ message.ID := by
  intro m hm hid
  obtain ⟨-, tds, htds, hmid, hel⟩ := GetPendingMessagesForTarget_mem _ _ _ _ _ _ h m hm
  obtain ⟨ht, hs, -, -⟩ := deliveryEligible_status _ _ _ hel
  rw [processSingleMessage_killed _ _ _ _ hmark] at htds
  simp only [List.mem_map] at htds
  obtain ⟨tds0, -, rfl⟩ := htds
  by_cases hc : tds0.MessageID = message.ID ∧ tds0.TargetServerID = targetID
  · simp only [hc, and_self, if_true] at hs
    rcases hs with hs | hs <;> exact absurd hs (by decide)
  · simp only [hc, if_false] at hmid ht
    exact hc ⟨by rw [← hmid, hid], ht⟩

/-- C4, witness: in `twoMessageStore` (messages 1 and 2 saved, the send of message 1
abandoned) the query for `t1` succeeds and returns message 2 only. -/
theorem sending_row_never_claimed_witness :
    (processingAt 200).markFails = false ∧
    Postgres.GetPendingMessagesForTarget twoMessageStore 300 false "t1" 10 =
      .ok [{ sampleMessage with ID := 2, CreatedAt := 150 }] ∧
    ∀ m ∈ [({ sampleMessage with ID := 2, CreatedAt := 150 } : Message)],
      m.ID ≠ savedMessage.ID :=
  ⟨rfl, rfl, sending_row_never_claimed
    (Postgres.SaveMessage savedStore 150 SaveFaults.none sampleMessage).1 (processingAt 200)
    300 "t1" savedMessage 10 _ rfl rfl⟩

/-! ## Theorems: delimiter reassembler -/

theorem occursAt_zero_iff (s sep : List Byte) :
    occursAt s sep 0 ↔ s.take sep.length = sep := by
  unfold occursAt
  constructor
  · rintro ⟨-, h⟩
    simpa using h
  · intro h
    refine ⟨?_, by simpa using h⟩
    have := congrArg List.length h
    simp only [List.length_take] at this
    omega

theorem occursAt_cons_succ (b : Byte) (t sep : List Byte) (j : Nat) :
    occursAt (b :: t) sep (j + 1) ↔ occursAt t sep j := by
  unfold occursAt
  simp only [List.length_cons, List.drop_succ_cons]
  constructor
  · rintro ⟨h1, h2⟩; exact ⟨by omega, h2⟩
  · rintro ⟨h1, h2⟩; exact ⟨by omega, h2⟩

theorem bytesIndex_some_iff (s sep : List Byte) (i : Nat) :
    bytesIndex s sep = some i ↔ occursAt s sep i ∧ ∀ j < i, ¬ occursAt s sep j := by
  induction s generalizing i with
  | nil =>
    unfold bytesIndex occursAt
    by_cases h : sep = []
    · subst h
      simp
      constructor
      · rintro rfl; simp
      · rintro ⟨h, -⟩; exact h.symm
    · simp [h]
  | cons b t ih =>
    rw [bytesIndex]
    by_cases h0 : (b :: t).take sep.length = sep
    · rw [if_pos h0]
      have hocc : occursAt (b :: t) sep 0 := (occursAt_zero_iff _ _).mpr h0
      constructor
      · intro h
        cases h
        exact ⟨hocc, fun j hj => absurd hj (Nat.not_lt_zero j)⟩
      · rintro ⟨-, h2⟩
        cases i with
        | zero => rfl
        | succ k => exact absurd hocc (h2 0 (Nat.succ_pos k))
    · rw [if_neg h0]
      have hocc : ¬ occursAt (b :: t) sep 0 := fun h => h0 ((occursAt_zero_iff _ _).mp h)
      cases i with
      | zero =>
        constructor
        · intro h
          cases hb : bytesIndex t sep <;> simp [hb] at h
        · rintro ⟨h, -⟩
          exact absurd h hocc
      | succ k =>
        have : (Option.map (fun i => i + 1) (bytesIndex t sep) = some (k + 1)) ↔
            bytesIndex t sep = some k := by
          cases hb : bytesIndex t sep <;> simp
        rw [this, ih k, occursAt_cons_succ]
        constructor
        · rintro ⟨h1, h2⟩
          refine ⟨h1, fun j hj => ?_⟩
          cases j with
          | zero => exact hocc
          | succ j' =>
            rw [occursAt_cons_succ]
            exact h2 j' (by omega)
        · rintro ⟨h1, h2⟩
          refine ⟨h1, fun j hj => ?_⟩
          have := h2 (j + 1) (by omega)
          rwa [occursAt_cons_succ] at this

theorem bytesIndex_none_iff (s sep : List Byte) :
    bytesIndex s sep = none ↔ ∀ j, ¬ occursAt s sep j := by
  induction s with
  | nil =>
    unfold bytesIndex occursAt
    by_cases h : sep = []
    · subst h
      simp
    · simp [h]
  | cons b t ih =>
    rw [bytesIndex]
    by_cases h0 : (b :: t).take sep.length = sep
    · rw [if_pos h0]
      simp only [reduceCtorEq, false_iff, not_forall, not_not]
      exact ⟨0, (occursAt_zero_iff _ _).mpr h0⟩
    · rw [if_neg h0]
      have hocc : ¬ occursAt (b :: t) sep 0 := fun h => h0 ((occursAt_zero_iff _ _).mp h)
      rw [Option.map_eq_none', ih]
      constructor
      · intro h j
        cases j with
        | zero => exact hocc
        | succ j' =>
          rw [occursAt_cons_succ]
          exact h j'
      · intro h j
        have := h (j + 1)
        rwa [occursAt_cons_succ] at this


theorem occursAt_append_iff (s t sep : List Byte) (i : Nat) (h : i + sep.length ≤ s.length) :
    occursAt (s ++ t) sep i ↔ occursAt s sep i := by
  unfold occursAt
  have hd : (s ++ t).drop i = s.drop i ++ t := List.drop_append_of_le_length (by omega)
  have ht : (s.drop i ++ t).take sep.length = (s.drop i).take sep.length :=
    List.take_append_of_le_length (by rw [List.length_drop]; omega)
  rw [hd, ht, List.length_append]
  constructor
  · rintro ⟨-, h2⟩; exact ⟨h, h2⟩
  · rintro ⟨-, h2⟩; exact ⟨by omega, h2⟩

theorem occursAt_append_right (s t sep : List Byte) (i : Nat) (h : occursAt t sep i) :
    occursAt (s ++ t) sep (s.length + i) := by
  unfold occursAt at *
  obtain ⟨h1, h2⟩ := h
  refine ⟨by rw [List.length_append]; omega, ?_⟩
  have : (s ++ t).drop (s.length + i) = t.drop i := by
    rw [List.drop_append]
  rw [this, h2]

theorem bytesIndex_bound (s sep : List Byte) (i : Nat) (h : bytesIndex s sep = some i) :
    i + sep.length ≤ s.length :=
  ((bytesIndex_some_iff s sep i).mp h).1.1

theorem bytesIndex_append (s t sep : List Byte) (i : Nat) (h : bytesIndex s sep = some i) :
    bytesIndex (s ++ t) sep = some i := by
  have hb := bytesIndex_bound s sep i h
  obtain ⟨h1, h2⟩ := (bytesIndex_some_iff s sep i).mp h
  rw [bytesIndex_some_iff]
  refine ⟨(occursAt_append_iff s t sep i hb).mpr h1, fun j hj hocc => ?_⟩
  exact h2 j hj ((occursAt_append_iff s t sep j (by omega)).mp hocc)

theorem bytesIndex_of_append (s t sep : List Byte) (i : Nat)
    (h : bytesIndex (s ++ t) sep = some i) (hb : i + sep.length ≤ s.length) :
    bytesIndex s sep = some i := by
  obtain ⟨h1, h2⟩ := (bytesIndex_some_iff (s ++ t) sep i).mp h
  rw [bytesIndex_some_iff]
  refine ⟨(occursAt_append_iff s t sep i hb).mp h1, fun j hj hocc => ?_⟩
  exact h2 j hj ((occursAt_append_iff s t sep j (by omega)).mpr hocc)

theorem bytesIndex_none_of_append (s t sep : List Byte)
    (h : bytesIndex (s ++ t) sep = none) :
    bytesIndex s sep = none ∧ bytesIndex t sep = none := by
  rw [bytesIndex_none_iff] at h
  constructor
  · rw [bytesIndex_none_iff]
    intro j hocc
    exact h j ((occursAt_append_iff s t sep j hocc.1).mpr hocc)
  · rw [bytesIndex_none_iff]
    intro j hocc
    exact h _ (occursAt_append_right s t sep j hocc)

theorem drop_length_lt (s sep : List Byte) (i : Nat) (hsep : sep ≠ [])
    (h : bytesIndex s sep = some i) : (s.drop (i + sep.length)).length < s.length := by
  have hb := bytesIndex_bound s sep i h
  have hpos : 0 < sep.length := List.length_pos.mpr hsep
  rw [List.length_drop]
  omega

theorem splitStream_fuel (sep : List Byte) (hsep : sep ≠ []) (f1 f2 : Nat) (s : List Byte)
    (h1 : s.length < f1) (h2 : s.length < f2) :
    splitStream sep f1 s = splitStream sep f2 s := by
  induction f1 generalizing f2 s with
  | zero => omega
  | succ n ih =>
    cases f2 with
    | zero => omega
    | succ m =>
      simp only [splitStream]
      cases hi : bytesIndex s sep with
      | none => rfl
      | some i =>
        have hlt := drop_length_lt s sep i hsep hi
        simp only
        rw [ih m (s.drop (i + sep.length)) (by omega) (by omega)]

theorem splitStream_none (sep s : List Byte) (h : bytesIndex s sep = none) :
    splitStream sep (s.length + 1) s = ([], s) := by
  simp [splitStream, h]

theorem splitStream_some (sep s : List Byte) (hsep : sep ≠ []) (i : Nat)
    (h : bytesIndex s sep = some i) :
    splitStream sep (s.length + 1) s =
      (s.take i ::
        (splitStream sep ((s.drop (i + sep.length)).length + 1) (s.drop (i + sep.length))).1,
       (splitStream sep ((s.drop (i + sep.length)).length + 1) (s.drop (i + sep.length))).2) := by
  have hlt := drop_length_lt s sep i hsep h
  rw [splitStream_fuel sep hsep ((s.drop (i + sep.length)).length + 1) s.length _
    (Nat.lt_succ_self _) hlt]
  rw [splitStream]
  simp only [h]


theorem splitAll_none (sep s : List Byte) (h : bytesIndex s sep = none) :
    splitAll sep s = ([], s) :=
  splitStream_none sep s h

theorem splitAll_some (sep s : List Byte) (hsep : sep ≠ []) (i : Nat)
    (h : bytesIndex s sep = some i) :
    splitAll sep s =
      (s.take i :: (splitAll sep (s.drop (i + sep.length))).1,
       (splitAll sep (s.drop (i + sep.length))).2) :=
  splitStream_some sep s hsep i h

theorem splitAll_rest_none (sep : List Byte) (hsep : sep ≠ []) (s : List Byte) :
    bytesIndex (splitAll sep s).2 sep = none := by
  suffices H : ∀ n (s : List Byte), s.length < n → bytesIndex (splitAll sep s).2 sep = none
    from H (s.length + 1) s (Nat.lt_succ_self _)
  intro n
  induction n with
  | zero => intro s hs; omega
  | succ n ih =>
    intro s hs
    cases hi : bytesIndex s sep with
    | none => rw [splitAll_none sep s hi]; exact hi
    | some i =>
      rw [splitAll_some sep s hsep i hi]
      exact ih _ (by have := drop_length_lt s sep i hsep hi; omega)

theorem splitAll_append (sep : List Byte) (hsep : sep ≠ []) (s t : List Byte) :
    splitAll sep (s ++ t) =
      ((splitAll sep s).1 ++ (splitAll sep ((splitAll sep s).2 ++ t)).1,
       (splitAll sep ((splitAll sep s).2 ++ t)).2) := by
  suffices H : ∀ n (s : List Byte), s.length < n →
      splitAll sep (s ++ t) =
        ((splitAll sep s).1 ++ (splitAll sep ((splitAll sep s).2 ++ t)).1,
         (splitAll sep ((splitAll sep s).2 ++ t)).2)
    from H (s.length + 1) s (Nat.lt_succ_self _)
  intro n
  induction n with
  | zero => intro s hs; omega
  | succ n ih =>
    intro s hs
    cases hi : bytesIndex s sep with
    | none => rw [splitAll_none sep s hi]; rfl
    | some i =>
      have hb := bytesIndex_bound s sep i hi
      have hlt := drop_length_lt s sep i hsep hi
      rw [splitAll_some sep s hsep i hi,
        splitAll_some sep (s ++ t) hsep i (bytesIndex_append s t sep i hi)]
      have hd : (s ++ t).drop (i + sep.length) = s.drop (i + sep.length) ++ t :=
        List.drop_append_of_le_length hb
      have htk : (s ++ t).take i = s.take i := List.take_append_of_le_length (by omega)
      rw [hd, htk, ih (s.drop (i + sep.length)) (by omega)]
      rfl

theorem splitAll_record_bound (sep : List Byte) (hsep : sep ≠ []) (s : List Byte) :
    ∀ p ∈ (splitAll sep s).1, p.length + sep.length ≤ s.length := by
  suffices H : ∀ n (s : List Byte), s.length < n →
      ∀ p ∈ (splitAll sep s).1, p.length + sep.length ≤ s.length
    from H (s.length + 1) s (Nat.lt_succ_self _)
  intro n
  induction n with
  | zero => intro s hs; omega
  | succ n ih =>
    intro s hs p hp
    cases hi : bytesIndex s sep with
    | none => rw [splitAll_none sep s hi] at hp; cases hp
    | some i =>
      have hb := bytesIndex_bound s sep i hi
      have hlt := drop_length_lt s sep i hsep hi
      rw [splitAll_some sep s hsep i hi] at hp
      rcases List.mem_cons.mp hp with rfl | hp
      · rw [List.length_take]; omega
      · have := ih _ (by omega) p hp
        omega

theorem processLoop_eq (sep : List Byte) (hsep : sep ≠ []) (maxLength : Int) (fuel : Nat)
    (buffer : List Byte) (packets : List (List Byte)) (h : buffer.length < fuel) :
    DelimiterHandler.processLoop sep maxLength fuel buffer packets =
      some (overflowGuard maxLength (splitAll sep buffer).2,
        packets ++ (splitAll sep buffer).1.filter (fun p => decide (p.length > 0))) := by
  induction fuel generalizing buffer packets with
  | zero => omega
  | succ n ih =>
    rw [DelimiterHandler.processLoop]
    cases hi : bytesIndex buffer sep with
    | none =>
      simp only [splitAll_none sep buffer hi, overflowGuard, List.filter_nil, List.append_nil]
      split <;> rfl
    | some i =>
      have hlt := drop_length_lt buffer sep i hsep hi
      simp only [splitAll_some sep buffer hsep i hi]
      rw [ih _ _ (by omega)]
      simp only [List.filter_cons]
      split_ifs <;> simp_all

theorem ProcessData_eq (dh : DelimiterHandler) (hsep : dh.delimiter ≠ []) (data : List Byte) :
    dh.ProcessData data =
      some ({ dh with buffer :=
          overflowGuard dh.maxLength (splitAll dh.delimiter (dh.buffer ++ data)).2 },
        (splitAll dh.delimiter (dh.buffer ++ data)).1.filter (fun p => decide (p.length > 0)),
        none) := by
  unfold DelimiterHandler.ProcessData
  simp only [processLoop_eq dh.delimiter hsep dh.maxLength _ _ [] (Nat.lt_succ_self _),
    List.nil_append]


theorem feed_no_delimiter (chunks : List (List Byte)) (dh : DelimiterHandler)
    (hsep : dh.delimiter ≠ [])
    (h : bytesIndex (dh.buffer ++ chunks.flatten) dh.delimiter = none) :
    ∃ dh1, DelimiterHandler.feed dh chunks = some (dh1, []) := by
  induction chunks generalizing dh with
  | nil => exact ⟨dh, rfl⟩
  | cons c cs ih =>
    rw [List.flatten_cons, ← List.append_assoc] at h
    obtain ⟨h1, h2⟩ := bytesIndex_none_of_append _ _ _ h
    rw [DelimiterHandler.feed, ProcessData_eq dh hsep c, splitAll_none _ _ h1]
    simp only [List.filter_nil, List.nil_append]
    have hnext : bytesIndex (overflowGuard dh.maxLength (dh.buffer ++ c) ++ cs.flatten)
        dh.delimiter = none := by
      unfold overflowGuard
      split
      · simpa using h2
      · exact h
    obtain ⟨dh1, hfeed⟩ := ih
      { dh with buffer := overflowGuard dh.maxLength (dh.buffer ++ c) } hsep hnext
    exact ⟨dh1, by rw [hfeed]⟩

theorem feed_records (chunks : List (List Byte)) (dh : DelimiterHandler)
    (hsep : dh.delimiter ≠ []) (hbuf : bytesIndex dh.buffer dh.delimiter = none)
    (hrec : ∀ p ∈ (splitAll dh.delimiter (dh.buffer ++ chunks.flatten)).1,
      (p.length : Int) + dh.delimiter.length ≤ dh.maxLength + 1) :
    ∃ dh1, DelimiterHandler.feed dh chunks =
      some (dh1, (splitAll dh.delimiter (dh.buffer ++ chunks.flatten)).1.filter
        (fun p => decide (p.length > 0))) := by
  induction chunks generalizing dh with
  | nil =>
    refine ⟨dh, ?_⟩
    simp only [List.flatten_nil, List.append_nil, splitAll_none _ _ hbuf, List.filter_nil]
    rfl
  | cons c cs ih =>
    rw [List.flatten_cons, ← List.append_assoc, splitAll_append _ hsep] at hrec ⊢
    simp only [List.filter_append]
    rw [DelimiterHandler.feed, ProcessData_eq dh hsep c]
    simp only
    have hrest := splitAll_rest_none dh.delimiter hsep (dh.buffer ++ c)
    by_cases hover : ((splitAll dh.delimiter (dh.buffer ++ c)).2.length : Int) > dh.maxLength
    · -- the rest is discarded: no delimiter can follow
      have hnone : bytesIndex ((splitAll dh.delimiter (dh.buffer ++ c)).2 ++ cs.flatten)
          dh.delimiter = none := by
        cases hi : bytesIndex ((splitAll dh.delimiter (dh.buffer ++ c)).2 ++ cs.flatten)
          dh.delimiter with
        | none => rfl
        | some i =>
          exfalso
          have hb := bytesIndex_bound _ _ _ hi
          have hmem := hrec (((splitAll dh.delimiter (dh.buffer ++ c)).2 ++ cs.flatten).take i)
            (by
              rw [splitAll_some _ _ hsep i hi]
              exact List.mem_append_right _ (List.mem_cons_self _ _))
          rw [List.length_take] at hmem
          have hshort : ¬ i + dh.delimiter.length ≤
              (splitAll dh.delimiter (dh.buffer ++ c)).2.length := by
            intro hle
            have := bytesIndex_of_append _ _ _ _ hi hle
            rw [hrest] at this
            cases this
          have hmin : min i ((splitAll dh.delimiter (dh.buffer ++ c)).2 ++ cs.flatten).length
              = i := by omega
          rw [hmin] at hmem
          omega
      have hguard : overflowGuard dh.maxLength (splitAll dh.delimiter (dh.buffer ++ c)).2
          = [] := by
        simp [overflowGuard, hover]
      rw [hguard, splitAll_none _ _ hnone]
      obtain ⟨dh1, hfeed⟩ := feed_no_delimiter cs { dh with buffer := [] } hsep
        (by simpa using (bytesIndex_none_of_append _ _ _ hnone).2)
      exact ⟨dh1, by rw [hfeed]; simp⟩
    · have hguard : overflowGuard dh.maxLength (splitAll dh.delimiter (dh.buffer ++ c)).2
          = (splitAll dh.delimiter (dh.buffer ++ c)).2 := by
        simp [overflowGuard, hover]
      rw [hguard]
      obtain ⟨dh1, hfeed⟩ := ih
        { dh with buffer := (splitAll dh.delimiter (dh.buffer ++ c)).2 } hsep hrest
        (fun p hp => hrec p (List.mem_append_right _ hp))
      exact ⟨dh1, by rw [hfeed]⟩

/-- C9, amended: for every non-empty delimiter, every `max_packet_length` and every byte
stream in which each delimiter-terminated record, together with all but the last byte of
its delimiter, fits in `max_packet_length` (record length + delimiter length ≤
`max_packet_length` + 1), any two ways of cutting the stream into consecutive chunks, fed
in order to a fresh `DelimiterHandler` via `ProcessData`, yield the same concatenated
list of records, namely the non-empty delimiter-terminated records of the stream. -/
theorem reassembly_chunking_invariant (delimiter : List Byte) (hsep : delimiter ≠ [])
    (maxLength : Int) (chunks1 chunks2 : List (List Byte))
    (hsame : chunks1.flatten = chunks2.flatten)
    (hrec : ∀ p ∈ terminatedRecords delimiter chunks1.flatten,
      (p.length : Int) + delimiter.length ≤ maxLength + 1) :
    ∃ dh1 dh2 records,
      DelimiterHandler.feed (NewDelimiterHandler delimiter maxLength) chunks1 =
        some (dh1, records) ∧
      DelimiterHandler.feed (NewDelimiterHandler delimiter maxLength) chunks2 =
        some (dh2, records) ∧
      records = (terminatedRecords delimiter chunks1.flatten).filter
        (fun p => decide (p.length > 0)) := by
  have hnil : bytesIndex [] delimiter = none := by simp [bytesIndex, hsep]
  obtain ⟨dh1, h1⟩ := feed_records chunks1 (NewDelimiterHandler delimiter maxLength) hsep hnil
    (by simpa [NewDelimiterHandler, terminatedRecords] using hrec)
  obtain ⟨dh2, h2⟩ := feed_records chunks2 (NewDelimiterHandler delimiter maxLength) hsep hnil
    (by rw [← hsame]; simpa [NewDelimiterHandler, terminatedRecords] using hrec)
  refine ⟨dh1, dh2, _, h1, ?_, ?_⟩
  · rw [h2, ← hsame]
  · simp [NewDelimiterHandler, terminatedRecords]


/-- C9, as stated, fails: the stream `AA BB` + delimiter has one record, of two bytes,
and `max_packet_length` is 4; fed as one chunk it yields the record `AA BB`, fed in two
chunks cut inside the delimiter it yields no record, because the five buffered bytes
(record plus the start of the delimiter) exceed `max_packet_length` and are dropped. -/
theorem chunking_changes_records :
    [twoByteStream].flatten = twoByteStreamCut.flatten ∧
    (∀ p ∈ terminatedRecords scenarioDelimiter twoByteStream, (p.length : Int) ≤ 4) ∧
    ((splitAll scenarioDelimiter twoByteStream).2.length : Int) ≤ 4 ∧
    DelimiterHandler.feed (NewDelimiterHandler scenarioDelimiter 4) [twoByteStream] =
      some ({ delimiter := scenarioDelimiter, buffer := [], maxLength := 4 },
        [[0xAA, 0xBB]]) ∧
    DelimiterHandler.feed (NewDelimiterHandler scenarioDelimiter 4) twoByteStreamCut =
      some ({ delimiter := scenarioDelimiter, buffer := [], maxLength := 4 }, []) := by
  decide

/-- C9, witness: the reassembly scenario with `max_packet_length` 1024, fed as one chunk
and as three chunks. -/
theorem reassembly_chunking_invariant_witness :
    scenarioDelimiter ≠ [] ∧ [reassemblyStream].flatten = reassemblyChunks.flatten ∧
    (∀ p ∈ terminatedRecords scenarioDelimiter [reassemblyStream].flatten,
      (p.length : Int) + scenarioDelimiter.length ≤ 1024 + 1) ∧
    ∃ dh1 dh2 records,
      DelimiterHandler.feed (NewDelimiterHandler scenarioDelimiter 1024) [reassemblyStream] =
        some (dh1, records) ∧
      DelimiterHandler.feed (NewDelimiterHandler scenarioDelimiter 1024) reassemblyChunks =
        some (dh2, records) ∧
      records = (terminatedRecords scenarioDelimiter [reassemblyStream].flatten).filter
        (fun p => decide (p.length > 0)) :=
  ⟨by decide, by decide, by decide,
    reassembly_chunking_invariant scenarioDelimiter (by decide) 1024 [reassemblyStream]
      reassemblyChunks (by decide) (by decide)⟩

theorem processLoop_record_bound (sep : List Byte) (maxLength : Int) (fuel : Nat)
    (buffer : List Byte) (packets : List (List Byte))
    (out : List Byte × List (List Byte))
    (h : DelimiterHandler.processLoop sep maxLength fuel buffer packets = some out) :
    ∀ p ∈ out.2, p ∈ packets ∨ p.length + sep.length ≤ buffer.length := by
  induction fuel generalizing buffer packets with
  | zero => simp [DelimiterHandler.processLoop] at h
  | succ n ih =>
    rw [DelimiterHandler.processLoop] at h
    cases hi : bytesIndex buffer sep with
    | none =>
      simp only [hi] at h
      intro p hp
      left
      split at h <;> (cases h; exact hp)
    | some i =>
      simp only [hi] at h
      have hb := bytesIndex_bound buffer sep i hi
      intro p hp
      rcases ih _ _ h p hp with hmem | hlen
      · split at hmem
        · rcases List.mem_append.mp hmem with hm | hm
          · exact Or.inl hm
          · right
            rw [List.mem_singleton.mp hm, List.length_take]
            omega
        · exact Or.inl hmem
      · right
        rw [List.length_drop] at hlen
        omega

/-- C10, as stated, fails: with `max_packet_length` 4 and an empty buffer, a read that
holds a five-byte record and its delimiter makes `ProcessData` return that record. -/
theorem ProcessData_returns_overlong_record :
    (NewDelimiterHandler scenarioDelimiter 4).ProcessData fiveByteRecordChunk =
      some ({ delimiter := scenarioDelimiter, buffer := [], maxLength := 4 },
        [[1, 2, 3, 4, 5]], none) ∧
    (([1, 2, 3, 4, 5] : List Byte).length : Int) > 4 := by
  decide

/-- C10, amended: for every `DelimiterHandler` state (delimiter, buffer, maxLength) and
every input chunk, every record returned by `ProcessData` is at most
`len(buffer) + len(chunk) - len(delimiter)` bytes long, and it is at most `maxLength`
bytes long if it passes `ValidatePacket`, the check the read loop applies to each
returned record. -/
theorem ProcessData_record_length (dh : DelimiterHandler) (data : List Byte)
    (out : DelimiterHandler × List (List Byte) × Option String)
    (h : dh.ProcessData data = some out) :
    ∀ p ∈ out.2.1,
      p.length + dh.delimiter.length ≤ dh.buffer.length + data.length ∧
      (dh.ValidatePacket p = true → (p.length : Int) ≤ dh.maxLength) := by
  intro p hp
  constructor
  · unfold DelimiterHandler.ProcessData at h
    simp only at h
    split at h
    · cases h
    · rename_i buffer1 packets hloop
      cases h
      rcases processLoop_record_bound _ _ _ _ _ _ hloop p hp with hm | hlen
      · cases hm
      · rw [List.length_append] at hlen
        exact hlen
  · intro hv
    unfold DelimiterHandler.ValidatePacket at hv
    split at hv
    · cases hv
    · split at hv
      · cases hv
      · omega

/-- C10, witness: the reassembly scenario stream read at once by a fresh handler with
`max_packet_length` 1024. -/
theorem ProcessData_record_length_witness :
    (NewDelimiterHandler scenarioDelimiter 1024).ProcessData reassemblyStream =
      some ({ delimiter := scenarioDelimiter, buffer := [], maxLength := 1024 },
        [[0xAA, 0xBB], [0xCC]], none) ∧
    ∀ p ∈ [([0xAA, 0xBB] : List Byte), [0xCC]],
      p.length + (NewDelimiterHandler scenarioDelimiter 1024).delimiter.length ≤
        (NewDelimiterHandler scenarioDelimiter 1024).buffer.length + reassemblyStream.length ∧
      ((NewDelimiterHandler scenarioDelimiter 1024).ValidatePacket p = true →
        (p.length : Int) ≤ (NewDelimiterHandler scenarioDelimiter 1024).maxLength) :=
  ⟨by decide,
    ProcessData_record_length (NewDelimiterHandler scenarioDelimiter 1024) reassemblyStream
      ({ delimiter := scenarioDelimiter, buffer := [], maxLength := 1024 },
        [[0xAA, 0xBB], [0xCC]], none) (by decide)⟩

/-! ## Theorems: record contents -/

theorem occursAt_take (s sep : List Byte) (i j : Nat) (h : occursAt (s.take i) sep j) :
    occursAt s sep j ∧ j + sep.length ≤ i := by
  have hlen : j + sep.length ≤ (s.take i).length := h.1
  have hi : j + sep.length ≤ i := by
    rw [List.length_take] at hlen
    omega
  refine ⟨?_, hi⟩
  have := (occursAt_append_iff (s.take i) (s.drop i) sep j hlen).mpr h
  rwa [List.take_append_drop] at this

theorem splitAll_record_clean (sep : List Byte) (hsep : sep ≠ []) (s : List Byte) :
    ∀ p ∈ (splitAll sep s).1, bytesIndex p sep = none := by
  suffices H : ∀ n (s : List Byte), s.length < n →
      ∀ p ∈ (splitAll sep s).1, bytesIndex p sep = none
    from H (s.length + 1) s (Nat.lt_succ_self _)
  intro n
  induction n with
  | zero => intro s hs; omega
  | succ n ih =>
    intro s hs p hp
    cases hi : bytesIndex s sep with
    | none => rw [splitAll_none sep s hi] at hp; cases hp
    | some i =>
      have hlt := drop_length_lt s sep i hsep hi
      rw [splitAll_some sep s hsep i hi] at hp
      rcases List.mem_cons.mp hp with rfl | hp
      · rw [bytesIndex_none_iff]
        intro j hocc
        obtain ⟨h1, h2⟩ := occursAt_take s sep i j hocc
        have hpos : 0 < sep.length := List.length_pos.mpr hsep
        exact ((bytesIndex_some_iff s sep i).mp hi).2 j (by omega) h1
      · exact ih _ (by omega) p hp

/-- C11: for every `DelimiterHandler` with a non-empty delimiter, every buffer state and
every input chunk, `ProcessData` returns, and each record it returns is non-empty and
does not contain the delimiter as a contiguous substring. -/
theorem ProcessData_records_clean (dh : DelimiterHandler) (hsep : dh.delimiter ≠ [])
    (data : List Byte) :
    ∃ out, dh.ProcessData data = some out ∧
      ∀ p ∈ out.2.1, p ≠ [] ∧ bytesContains p dh.delimiter = false := by
  refine ⟨_, ProcessData_eq dh hsep data, ?_⟩
  intro p hp
  simp only [List.mem_filter, decide_eq_true_eq] at hp
  obtain ⟨hmem, hlen⟩ := hp
  refine ⟨List.length_pos.mp hlen, ?_⟩
  simp [bytesContains, splitAll_record_clean dh.delimiter hsep _ p hmem]

/-- C11, witness: the reassembly scenario stream read at once by a fresh handler. -/
theorem ProcessData_records_clean_witness :
    (NewDelimiterHandler scenarioDelimiter 1024).delimiter ≠ [] ∧
    ∃ out, (NewDelimiterHandler scenarioDelimiter 1024).ProcessData reassemblyStream =
        some out ∧
      ∀ p ∈ out.2.1, p ≠ [] ∧
        bytesContains p (NewDelimiterHandler scenarioDelimiter 1024).delimiter = false :=
  ⟨by decide,
    ProcessData_records_clean (NewDelimiterHandler scenarioDelimiter 1024) (by decide)
      reassemblyStream⟩

/-! ## Theorems: claiming and updating deliveries -/

theorem deliveryEligible_iff (now : Int) (targetID : String) (tds : TargetDeliveryStatus) :
    deliveryEligible now targetID tds = true ↔
      tds.TargetServerID = targetID ∧ (tds.Status = "pending" ∨ tds.Status = "failed") ∧
      (tds.NextRetryAt = none ∨ ∃ t, tds.NextRetryAt = some t ∧ t ≤ now) ∧
      tds.SendAttempts < tds.MaxAttempts := by
  constructor
  · exact deliveryEligible_status now targetID tds
  · rintro ⟨h1, h2, h3, h4⟩
    unfold deliveryEligible
    simp only [Bool.and_eq_true, Bool.or_eq_true, decide_eq_true_eq]
    refine ⟨⟨⟨h1, h2⟩, ?_⟩, h4⟩
    rcases h3 with h3 | ⟨t, h3, ht⟩
    · rw [h3]
    · rw [h3]; simpa using ht

/-- C12: for every store state, target id `t`, limit (not negative) and time `now`, a
`GetPendingMessagesForTarget(t, limit)` call whose query succeeds returns the first
`limit` entries of a list that is in ascending message `created_at` order and holds
exactly the messages with a delivery row for `t` in status pending or failed, with
`next_retry_at` null or not later than `now`, and with `send_attempts < max_attempts`;
so the result is in ascending `created_at` order, has at most `limit` entries, and a
message none of whose delivery rows for `t` meets the conditions is not returned. -/
theorem GetPendingMessagesForTarget_eligible (db : Store) (now : Int) (targetID : String)
    (limit : Int) (hlimit : 0 ≤ limit) :
    ∃ all msgs : List Message,
      Postgres.GetPendingMessagesForTarget db now false targetID limit = .ok msgs ∧
      msgs = all.take limit.toNat ∧
      all.Sorted (fun a b => a.CreatedAt ≤ b.CreatedAt) ∧
      (∀ m, m ∈ all ↔ m ∈ db.message_queue ∧ ∃ tds ∈ db.target_delivery_status,
        tds.MessageID = m.ID ∧ tds.TargetServerID = targetID ∧
        (tds.Status = "pending" ∨ tds.Status = "failed") ∧
        (tds.NextRetryAt = none ∨ ∃ t, tds.NextRetryAt = some t ∧ t ≤ now) ∧
        tds.SendAttempts < tds.MaxAttempts) ∧
      msgs.Sorted (fun a b => a.CreatedAt ≤ b.CreatedAt) ∧
      (msgs.length : Int) ≤ limit ∧
      (∀ m ∈ msgs, m ∈ all) := by
  haveI : IsTotal Message (fun a b => a.CreatedAt ≤ b.CreatedAt) :=
    ⟨fun a b => le_total a.CreatedAt b.CreatedAt⟩
  haveI : IsTrans Message (fun a b => a.CreatedAt ≤ b.CreatedAt) :=
    ⟨fun a b c hab hbc => le_trans hab hbc⟩
  have hnot : ¬ limit < 0 := by omega
  refine ⟨(db.message_queue.flatMap (fun mq =>
      (db.target_delivery_status.filter (fun tds =>
        decide (mq.ID = tds.MessageID) && deliveryEligible now targetID tds)).map
        (fun _ => mq))).insertionSort (fun a b => a.CreatedAt ≤ b.CreatedAt),
    _, ?_, rfl, List.sorted_insertionSort _ _, ?_, ?_, ?_, ?_⟩
  · simp only [Postgres.GetPendingMessagesForTarget, hnot, if_false, Bool.false_eq_true]
  · intro m
    rw [(List.perm_insertionSort _ _).mem_iff]
    simp only [List.mem_flatMap, List.mem_map, List.mem_filter, Bool.and_eq_true,
      decide_eq_true_eq, deliveryEligible_iff]
    constructor
    · rintro ⟨mq, hmq, tds, ⟨htds, hid, hel⟩, rfl⟩
      exact ⟨hmq, tds, htds, hid.symm, hel⟩
    · rintro ⟨hmq, tds, htds, hid, hel⟩
      exact ⟨m, hmq, tds, ⟨htds, hid.symm, hel⟩, rfl⟩
  · exact (List.sorted_insertionSort _ _).sublist (List.take_sublist _ _)
  · rw [List.length_take]
    omega
  · intro m hm
    exact List.mem_of_mem_take hm

/-- C12, witness: in `twoPendingStore` both messages are eligible for `t1`; with limit 1
the older one is returned. -/
theorem GetPendingMessagesForTarget_eligible_witness :
    (0 : Int) ≤ 1 ∧
    Postgres.GetPendingMessagesForTarget twoPendingStore 300 false "t1" 1 =
      .ok [savedMessage] ∧
    ∃ all msgs : List Message,
      Postgres.GetPendingMessagesForTarget twoPendingStore 300 false "t1" 1 = .ok msgs ∧
      msgs = all.take (1 : Int).toNat ∧
      all.Sorted (fun a b => a.CreatedAt ≤ b.CreatedAt) ∧
      (∀ m, m ∈ all ↔ m ∈ twoPendingStore.message_queue ∧
        ∃ tds ∈ twoPendingStore.target_delivery_status,
        tds.MessageID = m.ID ∧ tds.TargetServerID = "t1" ∧
        (tds.Status = "pending" ∨ tds.Status = "failed") ∧
        (tds.NextRetryAt = none ∨ ∃ t, tds.NextRetryAt = some t ∧ t ≤ 300) ∧
        tds.SendAttempts < tds.MaxAttempts) ∧
      msgs.Sorted (fun a b => a.CreatedAt ≤ b.CreatedAt) ∧
      (msgs.length : Int) ≤ 1 ∧
      (∀ m ∈ msgs, m ∈ all) :=
  ⟨by decide, rfl, GetPendingMessagesForTarget_eligible twoPendingStore 300 "t1" 1 (by decide)⟩

theorem UpdateDeliveryStatus_sending (db : Store) (now retryNow : Int) (messageID : Int)
    (targetID : String) (attempts : Int) (errorMsg : Option String) :
    Postgres.UpdateDeliveryStatus db now retryNow false messageID targetID StatusSending
        attempts errorMsg =
      ({ db with target_delivery_status := db.target_delivery_status.map (fun tds =>
          if tds.MessageID = messageID ∧ tds.TargetServerID = targetID then
            { tds with Status := "sending", LastAttemptAt := some now,
                       SendAttempts := attempts }
          else tds) }, none) := by
  simp [Postgres.UpdateDeliveryStatus, StatusSending]

theorem UpdateDeliveryStatus_failed (db : Store) (now retryNow : Int) (messageID : Int)
    (targetID : String) (attempts : Int) (errorMsg : Option String) :
    Postgres.UpdateDeliveryStatus db now retryNow false messageID targetID StatusFailed
        attempts errorMsg =
      ({ db with target_delivery_status := db.target_delivery_status.map (fun tds =>
          if tds.MessageID = messageID ∧ tds.TargetServerID = targetID then
            { tds with Status := "failed", LastAttemptAt := some now,
                       SendAttempts := attempts,
                       NextRetryAt :=
                         some (Postgres.calculateNextRetryTime retryNow attempts),
                       LastError := errorMsg, ErrorCount := tds.ErrorCount + 1 }
          else tds) }, none) := by
  simp [Postgres.UpdateDeliveryStatus, StatusSending, StatusSent, StatusFailed]

theorem UpdateDeliveryStatus_sent (db : Store) (now retryNow : Int) (messageID : Int)
    (targetID : String) (attempts : Int) (errorMsg : Option String) :
    Postgres.UpdateDeliveryStatus db now retryNow false messageID targetID StatusSent
        attempts errorMsg =
      ({ db with target_delivery_status := db.target_delivery_status.map (fun tds =>
          if tds.MessageID = messageID ∧ tds.TargetServerID = targetID then
            { tds with Status := "sent", SentAt := some now, SendAttempts := attempts,
                       LastError := none }
          else tds) }, none) := by
  simp [Postgres.UpdateDeliveryStatus, StatusSending, StatusSent]

set_option maxRecDepth 4000 in
/-- C13 at the failing input: after one failed processing of `retryMessage` the delivery
row has `send_attempts = 1` and status failed; 200 s later the row is claimed again, and
the `mark_sending` update with which the worker starts the next processing lowers
`send_attempts` to 0. -/
theorem mark_sending_resets_attempts :
    (failOnce retryStore 0).target_delivery_status.map
      (fun r => (r.Status, r.SendAttempts)) = [("failed", 1)] ∧
    Postgres.GetPendingMessagesForTarget (failOnce retryStore 0) (200 * Second) false "t1" 10 =
      .ok [retryMessage] ∧
    (Worker.processSingleMessage (failOnce retryStore 0) (processingAt (200 * Second)) "t1"
      retryMessage SendOutcome.killed).target_delivery_status.map
      (fun r => (r.Status, r.SendAttempts)) = [("sending", 0)] :=
  ⟨rfl, rfl, rfl⟩

/-- C14, as stated, fails: with `max_attempts = 5`, the first failed processing leaves
`next_retry_at − last_attempt_at` at 120 s plus the nanosecond between the two clock
readings, not at 1 s, and after five consecutive failed processings the row has
`send_attempts = 1`, below `max_attempts`, and is claimed again. -/
theorem retry_schedule_not_in_seconds :
    (failOnce retryStore 0).target_delivery_status.map
      (fun r => (r.LastAttemptAt, r.NextRetryAt)) = [(some 1, some (2 + 120 * Second))] ∧
    fiveFailures.target_delivery_status.map
      (fun r => (r.Status, r.SendAttempts, r.MaxAttempts)) = [("failed", 1, 5)] ∧
    Postgres.GetPendingMessagesForTarget fiveFailures (1000 * Second) false "t1" 10 =
      .ok [retryMessage] :=
  ⟨rfl, rfl, rfl⟩

theorem UpdateDeliveryStatus_exec_failed (db : Store) (now retryNow : Int) (messageID : Int)
    (targetID status : String) (attempts : Int) (errorMsg : Option String) :
    (Postgres.UpdateDeliveryStatus db now retryNow true messageID targetID status attempts
      errorMsg).1 = db := by
  unfold Postgres.UpdateDeliveryStatus
  simp only [if_true]
  split_ifs <;> rfl

theorem processSingleMessage_mark_failed (db : Store) (run : Processing) (targetID : String)
    (message : Message) (outcome : SendOutcome) (hmark : run.markFails = true) :
    Worker.processSingleMessage db run targetID message outcome = db := by
  simp [Worker.processSingleMessage, Postgres.UpdateDeliveryStatus, StatusSending, hmark]

theorem processSingleMessage_store_error (db : Store) (run : Processing) (targetID : String)
    (message : Message) (err : String) (hmark : run.markFails = false)
    (h : run.getAttemptsFails = true ∨ run.resultFails = true) :
    Worker.processSingleMessage db run targetID message (SendOutcome.failed err) =
      Worker.processSingleMessage db run targetID message SendOutcome.killed := by
  simp only [Worker.processSingleMessage, hmark, UpdateDeliveryStatus_sending,
    Worker.handleSendFailure]
  cases hq : Postgres.GetDeliveryAttempts _ run.getAttemptsFails message.ID targetID with
  | error e => rfl
  | ok cur =>
    rcases h with hg | hr
    · simp [Postgres.GetDeliveryAttempts, hg] at hq
    · simp only [hr]
      exact UpdateDeliveryStatus_exec_failed _ _ _ _ _ _ _ _

theorem processSingleMessage_failed_rows (db : Store) (run : Processing) (targetID : String)
    (message : Message) (err : String) (hmark : run.markFails = false)
    (hget : run.getAttemptsFails = false) (hres : run.resultFails = false) :
    ∀ tds ∈ (Worker.processSingleMessage db run targetID message
        (SendOutcome.failed err)).target_delivery_status,
      tds.MessageID = message.ID → tds.TargetServerID = targetID →
      tds.Status = "failed" ∧ tds.LastAttemptAt = some run.resultAt ∧ tds.SendAttempts = 1 ∧
      tds.NextRetryAt = some (Postgres.calculateNextRetryTime run.retryAt 1) := by
  intro tds hmem hid ht
  simp only [Worker.processSingleMessage, hmark, hget, hres, UpdateDeliveryStatus_sending,
    Worker.handleSendFailure, Postgres.GetDeliveryAttempts, Bool.false_eq_true, if_false]
    at hmem
  split at hmem
  · rename_i hfind
    split at hfind
    · -- no row of the pair exists
      rename_i hnone
      rw [List.find?_eq_none] at hnone
      exact absurd (by simp [hid, ht]) (hnone tds hmem)
    · cases hfind
  · rename_i cur hfind
    split at hfind
    · cases hfind
    · rename_i row hrow
      cases hfind
      have hrowmem := List.mem_of_find?_eq_some hrow
      have hpred := List.find?_some hrow
      simp only [Bool.and_eq_true, decide_eq_true_eq] at hpred
      have hcur : row.SendAttempts = 0 := by
        simp only [List.mem_map] at hrowmem
        obtain ⟨r0, -, rfl⟩ := hrowmem
        by_cases hc : r0.MessageID = message.ID ∧ r0.TargetServerID = targetID
        · simp [hc]
        · simp only [hc, if_false] at hpred
      rw [hcur, UpdateDeliveryStatus_failed] at hmem
      simp only [List.mem_map] at hmem
      obtain ⟨r1, -, rfl⟩ := hmem
      by_cases hc : r1.MessageID = message.ID ∧ r1.TargetServerID = targetID
      · simp [hc]
      · simp only [hc, if_false] at hid ht
        exact absurd ⟨hid, ht⟩ hc


/-! ## Theorems: backoff -/

theorem wrapInt64_of_range (x : Int) (h0 : 0 ≤ x) (h : x < 2 ^ 63) : wrapInt64 x = x := by
  unfold wrapInt64
  omega

theorem durationShift_of_lt (a : Nat) (h : a < 63) : durationShift a = 2 ^ a := by
  have hpow : (2 : Int) ^ a < 2 ^ 63 := by
    exact_mod_cast Nat.pow_lt_pow_right (by norm_num : 1 < 2) h
  have hpos : (0 : Int) < 2 ^ a := by positivity
  have hcount : (a : Int) % 2 ^ 64 = a := by omega
  unfold durationShift
  simp only [hcount, Int.toNat_ofNat]
  rw [if_neg (by omega), wrapInt64_of_range _ hpos.le hpow]

theorem exponent_lt_of_product (base : Int) (a : Nat) (hbase : 1 ≤ base)
    (h : base * 2 ^ a < 2 ^ 63) : a < 63 := by
  by_contra hge
  have h63 : (2 : Int) ^ 63 ≤ 2 ^ a := by
    exact_mod_cast Nat.pow_le_pow_right (by norm_num : 0 < 2) (by omega : 63 ≤ a)
  have hpos : (0 : Int) < 2 ^ a := by positivity
  nlinarith

/-- Without overflow the worker's delay is the backoff function of the spec. -/
theorem retryDelay_eq_backoff (config : ForwarderConfig) (a : Nat)
    (hbase : 0 ≤ config.BaseRetryInterval)
    (h : config.BaseRetryInterval * 2 ^ a < 2 ^ 63) :
    Worker.retryDelay config a = backoff config.BaseRetryInterval config.MaxRetryInterval a := by
  unfold Worker.retryDelay backoff
  have hprod : wrapInt64 (config.BaseRetryInterval * durationShift a) =
      config.BaseRetryInterval * 2 ^ a := by
    rcases eq_or_lt_of_le hbase with h0 | hpos
    · rw [← h0]
      simp [wrapInt64]
    · have ha := exponent_lt_of_product _ a hpos h
      rw [durationShift_of_lt a ha]
      exact wrapInt64_of_range _ (by positivity) h
  simp only [hprod, min_def]
  split_ifs <;> omega

/-- Up to 27 attempts the store's delay is the backoff function of the spec for a base of
one minute and a cap of sixty minutes. -/
theorem calculateNextRetryTime_eq_backoff (now : Int) (a : Nat) (h : a ≤ 27) :
    Postgres.calculateNextRetryTime now a = now + backoff Minute (60 * Minute) a := by
  have hpow : (2 : Int) ^ a ≤ 2 ^ 27 := by
    exact_mod_cast Nat.pow_le_pow_right (by norm_num : 0 < 2) h
  have hpos : (0 : Int) < 2 ^ a := by positivity
  unfold Postgres.calculateNextRetryTime backoff
  rw [durationShift_of_lt a (by omega)]
  have hprod : wrapInt64 (2 ^ a * Minute) = Minute * 2 ^ a := by
    rw [wrapInt64_of_range]
    · ring
    · unfold Minute; positivity
    · unfold Minute; omega
  simp only [hprod, min_def]
  split_ifs <;> omega


/-- C14, amended: a failed processing of a delivery whose three store statements succeed
leaves its row in status failed, with `last_attempt_at` the clock at which the failure
is recorded and `next_retry_at = t + min(2^n minutes, 60 minutes)`, where `n` is the
`send_attempts` value that the processing writes and `t` is the clock that
`calculateNextRetryTime` reads afterwards; so `next_retry_at − last_attempt_at` is that
delay plus the time between the two clock readings, and at least the delay when the
clock has not gone back (the store's schedule is in minutes and reads neither
`base_retry_interval` nor `max_retry_interval`).  If the marking update fails the store
is left as it was; if it succeeds and the attempts query or the recording update fails,
the row is left in status sending with `send_attempts` 0.  A row whose `send_attempts`
has reached `max_attempts` is never eligible for claim. -/
theorem failed_processing_schedule (db : Store) (run : Processing) (targetID : String)
    (message : Message) (err : String) :
    (run.markFails = false → run.getAttemptsFails = false → run.resultFails = false →
      ∀ tds ∈ (Worker.processSingleMessage db run targetID message
          (SendOutcome.failed err)).target_delivery_status,
        tds.MessageID = message.ID → tds.TargetServerID = targetID →
        tds.Status = "failed" ∧
        ∃ (n : Nat) (last next : Int), tds.SendAttempts = n ∧
          tds.LastAttemptAt = some last ∧ last = run.resultAt ∧
          tds.NextRetryAt = some next ∧
          next = run.retryAt + min (2 ^ n * Minute) (60 * Minute) ∧
          next - last = min (2 ^ n * Minute) (60 * Minute) + (run.retryAt - run.resultAt) ∧
          (run.resultAt ≤ run.retryAt → min (2 ^ n * Minute) (60 * Minute) ≤ next - last)) ∧
    (run.markFails = true →
      Worker.processSingleMessage db run targetID message (SendOutcome.failed err) = db) ∧
    (run.markFails = false → (run.getAttemptsFails = true ∨ run.resultFails = true) →
      ∀ tds ∈ (Worker.processSingleMessage db run targetID message
          (SendOutcome.failed err)).target_delivery_status,
        tds.MessageID = message.ID → tds.TargetServerID = targetID →
        tds.Status = "sending" ∧ tds.LastAttemptAt = some run.markAt ∧
        tds.SendAttempts = 0) ∧
    (∀ (later : Int) (t : String) (tds : TargetDeliveryStatus),
      tds.MaxAttempts ≤ tds.SendAttempts → deliveryEligible later t tds = false) := by
  refine ⟨?_, ?_, ?_, ?_⟩
  · intro hmark hget hres tds hmem hid ht
    obtain ⟨h1, h2, h3, h4⟩ := processSingleMessage_failed_rows db run targetID message err
      hmark hget hres tds hmem hid ht
    have hcalc := calculateNextRetryTime_eq_backoff run.retryAt 1 (by norm_num)
    simp only [Nat.cast_one] at hcalc
    rw [hcalc, backoff, mul_comm] at h4
    refine ⟨h1, 1, run.resultAt, run.retryAt + min (2 ^ 1 * Minute) (60 * Minute),
      by simpa using h3, h2, rfl, h4, rfl, by ring, fun hle => ?_⟩
    omega
  · intro hmark
    exact processSingleMessage_mark_failed db run targetID message _ hmark
  · intro hmark hfault tds hmem hid ht
    rw [processSingleMessage_store_error db run targetID message err hmark hfault,
      processSingleMessage_killed db run targetID message hmark] at hmem
    simp only [List.mem_map] at hmem
    obtain ⟨r0, -, rfl⟩ := hmem
    by_cases hc : r0.MessageID = message.ID ∧ r0.TargetServerID = targetID
    · simp [hc]
    · simp only [hc, if_false] at hid ht
      exact absurd ⟨hid, ht⟩ hc
  · intro later t tds hmax
    cases hel : deliveryEligible later t tds with
    | false => rfl
    | true =>
      have := (deliveryEligible_status later t tds hel).2.2.2
      omega

set_option maxRecDepth 4000 in
/-- C14, witness: the row of `retryMessage` after its first failed processing, which
meets no storage failure and reads the clock at 1 ns and at 2 ns; and the same row when
the update that records the failure fails. -/
theorem failed_processing_schedule_witness :
    ((processingAt 0).markFails = false ∧ (processingAt 0).getAttemptsFails = false ∧
    (processingAt 0).resultFails = false ∧
    ∀ tds ∈ (Worker.processSingleMessage retryStore (processingAt 0) "t1" retryMessage
        (SendOutcome.failed "connection refused")).target_delivery_status,
      tds.MessageID = retryMessage.ID → tds.TargetServerID = "t1" →
      tds.Status = "failed" ∧
      ∃ (n : Nat) (last next : Int), tds.SendAttempts = n ∧
        tds.LastAttemptAt = some last ∧ last = (processingAt 0).resultAt ∧
        tds.NextRetryAt = some next ∧
        next = (processingAt 0).retryAt + min (2 ^ n * Minute) (60 * Minute) ∧
        next - last = min (2 ^ n * Minute) (60 * Minute) +
          ((processingAt 0).retryAt - (processingAt 0).resultAt) ∧
        ((processingAt 0).resultAt ≤ (processingAt 0).retryAt →
          min (2 ^ n * Minute) (60 * Minute) ≤ next - last)) ∧
    ({ processingAt 0 with resultFails := true }.markFails = false ∧
      { processingAt 0 with resultFails := true }.resultFails = true ∧
      ∀ tds ∈ (Worker.processSingleMessage retryStore
          { processingAt 0 with resultFails := true } "t1" retryMessage
          (SendOutcome.failed "connection refused")).target_delivery_status,
        tds.MessageID = retryMessage.ID → tds.TargetServerID = "t1" →
        tds.Status = "sending" ∧
        tds.LastAttemptAt = some { processingAt 0 with resultFails := true }.markAt ∧
        tds.SendAttempts = 0) :=
  ⟨⟨rfl, rfl, rfl,
    (failed_processing_schedule retryStore (processingAt 0) "t1" retryMessage
      "connection refused").1 rfl rfl rfl⟩,
   ⟨rfl, rfl,
    (failed_processing_schedule retryStore { processingAt 0 with resultFails := true } "t1"
      retryMessage "connection refused").2.2.1 rfl (Or.inr rfl)⟩⟩

/-- C15, as stated, fails: the delivery row of `sentStore` has status sent, and an
`UpdateDeliveryStatus` call with status sending on it leaves it in status sending. -/
theorem sent_row_overwritten :
    sentStore.target_delivery_status.map
      (fun r => (r.MessageID, r.TargetServerID, r.Status)) = [(1, "t1", "sent")] ∧
    (Postgres.UpdateDeliveryStatus sentStore 300 300 false 1 "t1" StatusSending 0
      none).1.target_delivery_status.map
      (fun r => (r.MessageID, r.TargetServerID, r.Status)) = [(1, "t1", "sending")] :=
  ⟨rfl, rfl⟩

/-- C15, amended: the store does not enforce that sent is terminal.  `UpdateDeliveryStatus`
does not look at the stored status: on a row in status sent it leaves the status sent
exactly when its status argument is sent, or is none of sending, sent and failed (the
call is rejected), or the statement fails, or the row belongs to another (message,
target) pair.  What the store does for a row in status sent is to keep it out of the
claim query: such a row is not eligible for `GetPendingMessagesForTarget`, at any time
and for any target. -/
theorem sent_not_enforced_by_store :
    (∀ (db : Store) (now retryNow : Int) (fails : Bool) (messageID : Int)
      (targetID status : String) (attempts : Int) (errorMsg : Option String),
      List.Forall₂ (fun old new => old.Status = "sent" →
          (new.Status = "sent" ↔
            (status = "sent" ∨ (status ≠ "sending" ∧ status ≠ "failed") ∨ fails = true ∨
              ¬ (old.MessageID = messageID ∧ old.TargetServerID = targetID))))
        db.target_delivery_status
        (Postgres.UpdateDeliveryStatus db now retryNow fails messageID targetID status
          attempts errorMsg).1.target_delivery_status) ∧
    (∀ (now : Int) (t : String) (tds : TargetDeliveryStatus),
      tds.Status = "sent" → deliveryEligible now t tds = false) := by
  refine ⟨?_, ?_⟩
  · intro db now retryNow fails messageID targetID status attempts errorMsg
    cases fails with
    | true =>
      rw [UpdateDeliveryStatus_exec_failed]
      exact List.forall₂_same.mpr (fun x _ h => by simp [h])
    | false =>
      by_cases h1 : status = "sending"
      · subst h1
        rw [show ("sending" : String) = StatusSending from rfl, UpdateDeliveryStatus_sending,
          List.forall₂_map_right_iff]
        refine List.forall₂_same.mpr (fun x _ h => ?_)
        by_cases hc : x.MessageID = messageID ∧ x.TargetServerID = targetID
        · simp [hc, StatusSending]
        · simp [hc, h]
      · by_cases h2 : status = "sent"
        · subst h2
          rw [show ("sent" : String) = StatusSent from rfl, UpdateDeliveryStatus_sent,
            List.forall₂_map_right_iff]
          refine List.forall₂_same.mpr (fun x _ h => ?_)
          by_cases hc : x.MessageID = messageID ∧ x.TargetServerID = targetID
          · simp [hc, StatusSent]
          · simp [hc, h]
        · by_cases h3 : status = "failed"
          · subst h3
            rw [show ("failed" : String) = StatusFailed from rfl, UpdateDeliveryStatus_failed,
              List.forall₂_map_right_iff]
            refine List.forall₂_same.mpr (fun x _ h => ?_)
            by_cases hc : x.MessageID = messageID ∧ x.TargetServerID = targetID
            · simp [hc, StatusFailed]
            · simp [hc, h]
          · have hdb : (Postgres.UpdateDeliveryStatus db now retryNow false messageID targetID
                status attempts errorMsg).1 = db := by
              simp [Postgres.UpdateDeliveryStatus, StatusSending, StatusSent, StatusFailed,
                h1, h2, h3]
            rw [hdb]
            exact List.forall₂_same.mpr (fun x _ h => by simp [h, h1, h3])
  · intro now t tds hs
    cases hel : deliveryEligible now t tds with
    | false => rfl
    | true =>
      have := (deliveryEligible_status now t tds hel).2.1
      rw [hs] at this
      rcases this with h | h <;> exact absurd h (by decide)


set_option maxRecDepth 4000 in
/-- C16, as stated, fails: with `base_retry_interval = 1s` and `max_retry_interval = 60s`
the delay is 1 s for 0 attempts, but 0 for 64 attempts (the shift leaves nothing) and
negative for 34 attempts (the 64-bit product wraps). -/
theorem retry_delay_wraps :
    (0 : Int) ≤ retryConfig.BaseRetryInterval ∧ (0 : Int) ≤ retryConfig.MaxRetryInterval ∧
    Worker.retryDelay retryConfig 0 = Second ∧ Worker.retryDelay retryConfig 64 = 0 ∧
    Worker.retryDelay retryConfig 34 < 0 := by
  decide

theorem retryDelay_le_max (config : ForwarderConfig) (attempts : Int) :
    Worker.retryDelay config attempts ≤ config.MaxRetryInterval := by
  unfold Worker.retryDelay
  simp only
  split_ifs <;> omega

/-- C16, amended: the delay computed by `Worker.calculateNextRetry` never exceeds
`max_retry_interval`; and for every configuration with `0 ≤ base_retry_interval` and
`0 ≤ max_retry_interval` and all attempt counts `0 ≤ a ≤ b` for which
`base_retry_interval · 2^b` stays below 2^63 (no wrap-around), it satisfies
`0 ≤ delay(a) ≤ delay(b) ≤ max_retry_interval`. -/
theorem retry_delay_monotone_bounded (config : ForwarderConfig) (a b : Int)
    (hbase : 0 ≤ config.BaseRetryInterval) (hmax : 0 ≤ config.MaxRetryInterval)
    (ha : 0 ≤ a) (hab : a ≤ b) (hfit : config.BaseRetryInterval * 2 ^ b.toNat < 2 ^ 63) :
    (0 ≤ Worker.retryDelay config a ∧
      Worker.retryDelay config a ≤ Worker.retryDelay config b ∧
      Worker.retryDelay config b ≤ config.MaxRetryInterval) ∧
    ∀ c : Int, Worker.retryDelay config c ≤ config.MaxRetryInterval := by
  refine ⟨?_, retryDelay_le_max config⟩
  have hnat : a.toNat ≤ b.toNat := Int.toNat_le_toNat hab
  have hpow : (2 : Int) ^ a.toNat ≤ 2 ^ b.toNat := by
    exact_mod_cast Nat.pow_le_pow_right (by norm_num : 0 < 2) hnat
  have hprod : config.BaseRetryInterval * 2 ^ a.toNat ≤ config.BaseRetryInterval * 2 ^ b.toNat :=
    mul_le_mul_of_nonneg_left hpow hbase
  have hea : Worker.retryDelay config a =
      backoff config.BaseRetryInterval config.MaxRetryInterval a.toNat := by
    have := retryDelay_eq_backoff config a.toNat hbase (lt_of_le_of_lt hprod hfit)
    rwa [Int.toNat_of_nonneg ha] at this
  have heb : Worker.retryDelay config b =
      backoff config.BaseRetryInterval config.MaxRetryInterval b.toNat := by
    have := retryDelay_eq_backoff config b.toNat hbase hfit
    rwa [Int.toNat_of_nonneg (le_trans ha hab)] at this
  rw [hea, heb]
  unfold backoff
  have hpa : (0 : Int) ≤ config.BaseRetryInterval * 2 ^ a.toNat :=
    mul_nonneg hbase (by positivity)
  exact ⟨le_min hpa hmax, min_le_min_right _ hprod, min_le_right _ _⟩

/-- C16, witness: the retry scenario configuration with 2 and 5 attempts. -/
theorem retry_delay_monotone_bounded_witness :
    (0 ≤ Worker.retryDelay retryConfig 2 ∧
      Worker.retryDelay retryConfig 2 ≤ Worker.retryDelay retryConfig 5 ∧
      Worker.retryDelay retryConfig 5 ≤ retryConfig.MaxRetryInterval) ∧
    ∀ c : Int, Worker.retryDelay retryConfig c ≤ retryConfig.MaxRetryInterval :=
  retry_delay_monotone_bounded retryConfig 2 5 (by decide) (by decide) (by decide)
    (by decide) (by decide)

set_option maxRecDepth 4000 in
/-- C17, as stated, fails: with `base_retry_interval = 1s` and `max_retry_interval = 60s`
and 0 attempts, the store adds 60 s to the clock while the worker adds 1 s, which is the
value of the spec's backoff function. -/
theorem store_delay_differs_from_worker :
    Postgres.calculateNextRetryTime 0 0 - 0 = 60 * Second ∧
    Worker.calculateNextRetry retryConfig 0 0 - 0 = Second ∧
    backoff retryConfig.BaseRetryInterval retryConfig.MaxRetryInterval 0 = Second := by
  decide

/-- C17, amended: the store's delay does not depend on the configuration: for every
attempt count `a ≤ 27`, `calculateNextRetryTime(a)` adds `min(1 minute · 2^a, 60 minutes)`
to now; for every configuration with `0 ≤ base_retry_interval` and every `a` with
`base_retry_interval · 2^a` below 2^63, the worker's `calculateNextRetry(a)` adds
`min(base_retry_interval · 2^a, max_retry_interval)`; and the two agree for every
attempt count when `base_retry_interval` is one minute and `max_retry_interval` is sixty
minutes. -/
theorem store_and_worker_backoff (now : Int) (a : Nat) :
    (a ≤ 27 → Postgres.calculateNextRetryTime now a - now = backoff Minute (60 * Minute) a) ∧
    (∀ config : ForwarderConfig, 0 ≤ config.BaseRetryInterval →
      config.BaseRetryInterval * 2 ^ a < 2 ^ 63 →
      Worker.calculateNextRetry config now a - now =
        backoff config.BaseRetryInterval config.MaxRetryInterval a) ∧
    (∀ (config : ForwarderConfig) (attempts : Int), config.BaseRetryInterval = Minute →
      config.MaxRetryInterval = 60 * Minute →
      Postgres.calculateNextRetryTime now attempts =
        Worker.calculateNextRetry config now attempts) := by
  refine ⟨fun h => ?_, fun config hbase hfit => ?_, fun config attempts h1 h2 => ?_⟩
  · rw [calculateNextRetryTime_eq_backoff now a h]
    omega
  · unfold Worker.calculateNextRetry
    rw [retryDelay_eq_backoff config a hbase hfit]
    omega
  · unfold Postgres.calculateNextRetryTime Worker.calculateNextRetry Worker.retryDelay
    rw [h1, h2, mul_comm]

/-- C17, witness: three attempts; the store adds 8 minutes, the worker of the retry
scenario configuration adds 8 seconds. -/
theorem store_and_worker_backoff_witness :
    Postgres.calculateNextRetryTime 0 (3 : Nat) - 0 = backoff Minute (60 * Minute) 3 ∧
    Worker.calculateNextRetry retryConfig 0 (3 : Nat) - 0 =
      backoff retryConfig.BaseRetryInterval retryConfig.MaxRetryInterval 3 :=
  ⟨(store_and_worker_backoff 0 3).1 (by decide),
    (store_and_worker_backoff 0 3).2.1 retryConfig (by decide) (by decide)⟩

/-! ## Theorems: failover -/

/-- C18: for every failover state with distinct primary and backup ids, handling a failed
connect to the current endpoint `e` increases `failures[e]` by exactly 1, leaves the other
counters and the configuration alone, and then sets current to the other endpoint if and
only if the new `failures[e]` has reached `e.failover_threshold` and the other endpoint
is enabled (otherwise current is unchanged); in particular, from the initial state with
`failover_threshold = 3` for the primary and the backup enabled, current is still the
primary after the first and the second failure and is the backup after the third. -/
theorem connectFailed_failover (m : Failover)
    (hid : m.config.Primary.ID ≠ m.config.Backup.ID) :
    ((Manager.connectFailed m).failureCounts (Manager.GetCurrentServer m).ID =
        m.failureCounts (Manager.GetCurrentServer m).ID + 1 ∧
      (∀ id, id ≠ (Manager.GetCurrentServer m).ID →
        (Manager.connectFailed m).failureCounts id = m.failureCounts id) ∧
      (Manager.connectFailed m).config = m.config ∧
      ((Manager.connectFailed m).currentServer = m.currentServer.other ↔
        (m.failureCounts (Manager.GetCurrentServer m).ID + 1 ≥
            (Manager.GetCurrentServer m).FailoverThreshold ∧
          (m.config.at m.currentServer.other).Enabled = true)) ∧
      ((Manager.connectFailed m).currentServer ≠ m.currentServer.other →
        (Manager.connectFailed m).currentServer = m.currentServer)) ∧
    (m = NewFailover m.config → m.config.Primary.FailoverThreshold = 3 →
      m.config.Backup.Enabled = true →
      (Manager.connectFailed m).currentServer = Endpoint.primary ∧
      (Manager.connectFailed (Manager.connectFailed m)).currentServer = Endpoint.primary ∧
      (Manager.connectFailed (Manager.connectFailed (Manager.connectFailed m))).currentServer =
        Endpoint.backup) := by
  have hid2 : m.config.Backup.ID ≠ m.config.Primary.ID := fun h => hid h.symm
  constructor
  · cases hcur : m.currentServer with
    | primary =>
      simp only [Manager.connectFailed, Manager.GetCurrentServer, hcur, SourceServers.at,
        Manager.shouldFailover, Manager.recordFailure, if_true, Endpoint.other]
      by_cases hth : m.failureCounts m.config.Primary.ID + 1 ≥
          m.config.Primary.FailoverThreshold
      · by_cases hen : m.config.Backup.Enabled = true
        · simp [hth, hen, Manager.performFailover, Manager.GetCurrentServer, hcur,
            SourceServers.at]
          exact fun id h1 h2 => absurd h2 h1
        · simp [hth, hen, Manager.performFailover, Manager.GetCurrentServer, hcur,
            SourceServers.at, hid]
          exact fun id h1 h2 => absurd h2 h1
      · simp [hth]
        exact fun id h1 h2 => absurd h2 h1
    | backup =>
      simp only [Manager.connectFailed, Manager.GetCurrentServer, hcur, SourceServers.at,
        Manager.shouldFailover, Manager.recordFailure, if_true, Endpoint.other, hid2, if_false]
      by_cases hth : m.failureCounts m.config.Backup.ID + 1 ≥
          m.config.Backup.FailoverThreshold
      · by_cases hen : m.config.Primary.Enabled = true
        · simp [hth, hen, Manager.performFailover, Manager.GetCurrentServer, hcur,
            SourceServers.at, hid2]
          exact fun id h1 h2 => absurd h2 h1
        · simp [hth, hen, Manager.performFailover, Manager.GetCurrentServer, hcur,
            SourceServers.at, hid2]
          exact fun id h1 h2 => absurd h2 h1
      · simp [hth]
        exact fun id h1 h2 => absurd h2 h1
  · intro hnew hth hen
    rw [hnew]
    simp [Manager.connectFailed, Manager.GetCurrentServer, NewFailover, SourceServers.at,
      Manager.shouldFailover, Manager.recordFailure, Manager.performFailover, hth, hen]

/-- C18, witness: `sampleServers` (distinct ids, threshold 3, backup enabled), from the
initial state. -/
theorem connectFailed_failover_witness :
    sampleServers.Primary.ID ≠ sampleServers.Backup.ID ∧
    (Manager.connectFailed (NewFailover sampleServers)).currentServer = Endpoint.primary ∧
    (Manager.connectFailed (Manager.connectFailed (NewFailover sampleServers))).currentServer =
      Endpoint.primary ∧
    (Manager.connectFailed (Manager.connectFailed (Manager.connectFailed
      (NewFailover sampleServers)))).currentServer = Endpoint.backup :=
  ⟨by decide, (connectFailed_failover (NewFailover sampleServers) (by decide)).2 rfl rfl rfl⟩

/-- C19: for every failover state with distinct primary and backup ids in which current
is the backup, `checkAndPerformFailover` sets current to the primary if and only if the
primary's failure counter is 0 and the primary is enabled, and otherwise leaves current
unchanged; in no state does it modify a failure counter or the configuration. -/
theorem checkAndPerformFailover_failback (m : Failover)
    (hid : m.config.Primary.ID ≠ m.config.Backup.ID)
    (hcur : m.currentServer = Endpoint.backup) :
    ((Manager.checkAndPerformFailover m).currentServer = Endpoint.primary ↔
      (m.failureCounts m.config.Primary.ID = 0 ∧ m.config.Primary.Enabled = true)) ∧
    ((Manager.checkAndPerformFailover m).currentServer ≠ Endpoint.primary →
      (Manager.checkAndPerformFailover m).currentServer = m.currentServer) ∧
    ∀ s : Failover, (Manager.checkAndPerformFailover s).failureCounts = s.failureCounts ∧
      (Manager.checkAndPerformFailover s).config = s.config := by
  have hid2 : m.config.Backup.ID ≠ m.config.Primary.ID := fun h => hid h.symm
  refine ⟨?_, ?_, ?_⟩
  · by_cases hc : m.failureCounts m.config.Primary.ID = 0 ∧ m.config.Primary.Enabled = true
    · simp [Manager.checkAndPerformFailover, Manager.GetCurrentServer, hcur, SourceServers.at,
        hid2, hc]
    · simp only [Manager.checkAndPerformFailover, Manager.GetCurrentServer, hcur,
        SourceServers.at, hid2, false_and, if_false, true_and, hc, iff_false]
      simp
  · intro hne
    by_cases hc : m.failureCounts m.config.Primary.ID = 0 ∧ m.config.Primary.Enabled = true
    · exfalso
      apply hne
      simp [Manager.checkAndPerformFailover, Manager.GetCurrentServer, hcur, SourceServers.at,
        hid2, hc]
    · simp only [Manager.checkAndPerformFailover, Manager.GetCurrentServer, hcur,
        SourceServers.at, hid2, false_and, if_false, true_and, hc]
  · intro s
    unfold Manager.checkAndPerformFailover
    split_ifs <;> exact ⟨rfl, rfl⟩

/-- C19, witness: `onBackup` (current is the backup, no recorded failures, primary
enabled) fails back to the primary. -/
theorem checkAndPerformFailover_failback_witness :
    onBackup.config.Primary.ID ≠ onBackup.config.Backup.ID ∧
    onBackup.currentServer = Endpoint.backup ∧
    (Manager.checkAndPerformFailover onBackup).currentServer = Endpoint.primary :=
  ⟨by decide, rfl,
    (checkAndPerformFailover_failback onBackup (by decide) rfl).1.mpr ⟨rfl, rfl⟩⟩

/-! ## Theorems: token derivation -/

theorem hexDecode_ok (n : Nat) : ∀ l : List Byte, l.length = 2 * n →
    (∀ c ∈ l, (hexDigit c).isSome = true) →
    ∃ bytes, hexDecode l = .ok bytes ∧ bytes.length = n ∧
      ∀ i, i < n → ∀ hi lo, l[2 * i]? = some hi → l[2 * i + 1]? = some lo →
        ∃ x y, hexDigit hi = some x ∧ hexDigit lo = some y ∧
          bytes[i]? = some (toByte (x * 16 + y)) := by
  induction n with
  | zero =>
    intro l hl _
    have : l = [] := List.length_eq_zero.mp (by omega)
    subst this
    exact ⟨[], rfl, rfl, fun i hi => absurd hi (Nat.not_lt_zero i)⟩
  | succ n ih =>
    intro l hl hhex
    match l, hl, hhex with
    | a :: b :: rest, hl, hhex =>
      have hrest : rest.length = 2 * n := by
        simp only [List.length_cons] at hl
        omega
      obtain ⟨tl, htl, hlen, hpt⟩ := ih rest hrest
        (fun c hc => hhex c (List.mem_cons_of_mem _ (List.mem_cons_of_mem _ hc)))
      obtain ⟨x, hx⟩ := Option.isSome_iff_exists.mp (hhex a (List.mem_cons_self _ _))
      obtain ⟨y, hy⟩ := Option.isSome_iff_exists.mp
        (hhex b (List.mem_cons_of_mem _ (List.mem_cons_self _ _)))
      refine ⟨toByte (x * 16 + y) :: tl, ?_, by simp [hlen], ?_⟩
      · simp [hexDecode, hx, hy, htl]
      · intro i hi hi' lo h0 h1
        cases i with
        | zero =>
          simp only [Nat.mul_zero, List.getElem?_cons_zero, Option.some.injEq] at h0
          simp only [Nat.mul_zero, Nat.zero_add, List.getElem?_cons_succ,
            List.getElem?_cons_zero, Option.some.injEq] at h1
          subst h0 h1
          exact ⟨x, y, hx, hy, by simp⟩
        | succ j =>
          have e0 : 2 * (j + 1) = (2 * j) + 1 + 1 := by omega
          have e1 : 2 * (j + 1) + 1 = (2 * j + 1) + 1 + 1 := by omega
          rw [e0, List.getElem?_cons_succ, List.getElem?_cons_succ] at h0
          rw [e1, List.getElem?_cons_succ, List.getElem?_cons_succ] at h1
          obtain ⟨x', y', hx', hy', hb⟩ := hpt j (by omega) hi' lo h0 h1
          exact ⟨x', y', hx', hy', by simpa using hb⟩
    | [], hl, _ => simp at hl
    | [_], hl, _ => simp at hl; omega

theorem hexDecode_error (n : Nat) : ∀ l : List Byte, l.length ≤ n →
    (∃ c ∈ l, hexDigit c = none) → ∃ e, hexDecode l = .error e := by
  induction n using Nat.strong_induction_on with
  | _ n ih =>
    intro l hl hbad
    match l, hl, hbad with
    | [], _, ⟨c, hc, _⟩ => cases hc
    | [_], _, _ => exact ⟨_, rfl⟩
    | a :: b :: rest, hl, ⟨c, hc, hnone⟩ =>
      cases hx : hexDigit a with
      | none => exact ⟨"encoding/hex: invalid byte", by simp [hexDecode, hx]⟩
      | some x =>
        cases hy : hexDigit b with
        | none => exact ⟨"encoding/hex: invalid byte", by simp [hexDecode, hx, hy]⟩
        | some y =>
          have hcrest : c ∈ rest := by
            rcases List.mem_cons.mp hc with rfl | hc
            · rw [hx] at hnone; cases hnone
            · rcases List.mem_cons.mp hc with rfl | hc
              · rw [hy] at hnone; cases hnone
              · exact hc
          simp only [List.length_cons] at hl
          obtain ⟨e, he⟩ := ih rest.length (by omega) rest (le_refl _) ⟨c, hcrest, hnone⟩
          exact ⟨e, by simp [hexDecode, hx, hy, he]⟩

/-- C20, as stated, fails: the token of 40 characters `A` is non-empty and is not 64
hexadecimal characters, yet `generateTokenBytes` returns an error instead of its first
32 bytes. -/
theorem long_token_rejected :
    longToken ≠ [] ∧ longToken.length = 40 ∧
    (NewAuthManager longToken 0x322 0x14).generateTokenBytes (.error "rand.Read is not reached")
      = .error "invalid token format" :=
  ⟨by decide, by decide, rfl⟩

/-- C20, amended: for every non-empty configured token of at most 32 bytes,
`generateTokenBytes` succeeds and returns exactly 32 bytes, the token's bytes right-padded
with zero bytes; for every token of 64 hexadecimal characters it returns the 32 bytes
those characters encode, pair by pair; every other non-empty token (longer than 32 bytes
and not 64 hexadecimal characters) is rejected with an error, not truncated. -/
theorem generateTokenBytes_derivation (am : AuthManager)
    (rnd : Except String (List Byte)) :
    (am.token ≠ [] → am.token.length ≤ 32 →
      am.generateTokenBytes rnd =
        .ok (am.token ++ List.replicate (32 - am.token.length) (0 : Byte)) ∧
      (am.token ++ List.replicate (32 - am.token.length) (0 : Byte)).length = 32) ∧
    (am.token.length = 64 → (∀ c ∈ am.token, (hexDigit c).isSome = true) →
      ∃ bytes, am.generateTokenBytes rnd = .ok bytes ∧ bytes.length = 32 ∧
        ∀ i, i < 32 → ∀ hi lo, am.token[2 * i]? = some hi → am.token[2 * i + 1]? = some lo →
          ∃ x y, hexDigit hi = some x ∧ hexDigit lo = some y ∧
            bytes[i]? = some (toByte (x * 16 + y))) ∧
    (32 < am.token.length →
      ¬ (am.token.length = 64 ∧ ∀ c ∈ am.token, (hexDigit c).isSome = true) →
      ∃ e, am.generateTokenBytes rnd = .error e) := by
  refine ⟨fun hne hle => ?_, fun h64 hhex => ?_, fun hlong hnot => ?_⟩
  · have h64 : ¬ am.token.length = 64 := by omega
    refine ⟨by simp [AuthManager.generateTokenBytes, hne, h64, hle], ?_⟩
    rw [List.length_append, List.length_replicate]
    omega
  · have hne : am.token ≠ [] := by
      intro h
      rw [h] at h64
      simp at h64
    obtain ⟨bytes, hb, hlen, hpt⟩ := hexDecode_ok 32 am.token (by omega) hhex
    exact ⟨bytes, by simp [AuthManager.generateTokenBytes, hne, h64, hb], hlen, hpt⟩
  · have hne : am.token ≠ [] := by
      intro h
      rw [h] at hlong
      simp at hlong
    by_cases h64 : am.token.length = 64
    · have hbad : ∃ c ∈ am.token, hexDigit c = none := by
        by_contra hall
        apply hnot
        refine ⟨h64, fun c hc => ?_⟩
        cases hd : hexDigit c with
        | none => exact absurd ⟨c, hc, hd⟩ hall
        | some v => rfl
      obtain ⟨e, he⟩ := hexDecode_error _ am.token (le_refl _) hbad
      exact ⟨e, by simp [AuthManager.generateTokenBytes, hne, h64, he]⟩
    · have hgt : ¬ am.token.length ≤ 32 := by omega
      exact ⟨"invalid token format", by simp [AuthManager.generateTokenBytes, hne, h64, hgt]⟩

set_option maxRecDepth 4000 in
/-- C20, witness: the token of 32 characters `A` comes back unchanged, and the token
`hexToken` (32 times the characters `4A`) decodes to 32 bytes. -/
theorem generateTokenBytes_derivation_witness :
    (NewAuthManager (List.replicate 32 (0x41 : Byte)) 0x322 0x14).generateTokenBytes
        (.error "rand.Read is not reached") = .ok (List.replicate 32 (0x41 : Byte)) ∧
    ∃ bytes, (NewAuthManager hexToken 0x322 0x14).generateTokenBytes
        (.error "rand.Read is not reached") = .ok bytes ∧ bytes.length = 32 :=
  ⟨((generateTokenBytes_derivation (NewAuthManager (List.replicate 32 (0x41 : Byte)) 0x322 0x14)
      (.error "rand.Read is not reached")).1 (by decide) (by decide)).1,
    by
      obtain ⟨bytes, h1, h2, -⟩ :=
        (generateTokenBytes_derivation (NewAuthManager hexToken 0x322 0x14)
          (.error "rand.Read is not reached")).2.1 (by decide) (by decide)
      exact ⟨bytes, h1, h2⟩⟩

/-! ## Theorems: authentication sequence and heartbeat packet -/

theorem headerBytes_fields (p : BasePackage) (rest : List Byte) :
    bigEndian (slice (AuthManager.headerBytes p ++ rest) 8 16) = p.PackageNo % 2 ^ 64 ∧
    bigEndian (slice (AuthManager.headerBytes p ++ rest) 16 18) =
      p.CurrentDataItem % 2 ^ 16 ∧
    bigEndian (slice (AuthManager.headerBytes p ++ rest) 18 22) =
      p.DataSumLength % 2 ^ 32 := by
  simp only [AuthManager.headerBytes, slice, bigEndian, toByte, List.cons_append,
    List.drop_succ_cons, List.drop_zero, List.take_succ_cons, List.take_zero, List.foldl_cons,
    List.foldl_nil, Nat.reduceSub]
  refine ⟨?_, ?_, ?_⟩ <;> omega

theorem GenerateAuthPacket_ok (am : AuthManager) (rnd : Except String (List Byte))
    (tokenBytes : List Byte) (h : am.generateTokenBytes rnd = .ok tokenBytes) :
    ∃ packet, am.GenerateAuthPacket rnd =
        ({ am with packageNo := (am.packageNo + 1) % 2 ^ 64 }, .ok packet) ∧
      packet.length = 32 + tokenBytes.length ∧
      bigEndian (slice packet 8 16) = am.packageNo % 2 ^ 64 ∧
      bigEndian (slice packet 16 18) = 1 ∧
      bigEndian (slice packet 18 22) = 0x28 := by
  refine ⟨AuthManager.headerBytes
      { SourceInfo := am.sourceID, HostInfo := am.hostID, PackageNo := am.packageNo,
        CurrentDataItem := 1, DataSumLength := 0x0028, RetransmissionFlag := 0x00,
        RetransmissionData := 0x00, RetransmissionSumLength := 0x0000,
        Data := tokenBytes } ++ (tokenBytes ++ [0, 0]), ?_, ?_, ?_⟩
  · simp only [AuthManager.GenerateAuthPacket, h, serializeBasePackage_eq]
  · simp [AuthManager.headerBytes]
    omega
  · exact headerBytes_fields _ _

theorem generateAuthPackets_sequence (rnds : List (Except String (List Byte))) :
    ∀ (am : AuthManager),
      (∀ rnd ∈ rnds, ∃ tokenBytes, am.generateTokenBytes rnd = .ok tokenBytes) →
      ∀ j, j < rnds.length →
        ∃ packet, (am.generateAuthPackets rnds).2[j]? = some (.ok packet) ∧
          bigEndian (slice packet 8 16) = (am.packageNo + j) % 2 ^ 64 ∧
          bigEndian (slice packet 16 18) = 1 ∧
          bigEndian (slice packet 18 22) = 0x28 := by
  induction rnds with
  | nil => intro am _ j hj; simp at hj
  | cons rnd rest ih =>
    intro am hgen j hj
    obtain ⟨tokenBytes, htok⟩ := hgen rnd (List.mem_cons_self _ _)
    obtain ⟨packet, hpkt, _, h1, h2, h3⟩ := GenerateAuthPacket_ok am rnd tokenBytes htok
    cases j with
    | zero =>
      refine ⟨packet, ?_, by simpa using h1, h2, h3⟩
      simp [AuthManager.generateAuthPackets, hpkt]
    | succ i =>
      have hrest : ∀ r ∈ rest, ∃ tokenBytes,
          ({ am with packageNo := (am.packageNo + 1) % 2 ^ 64 } : AuthManager).generateTokenBytes
            r = .ok tokenBytes := fun r hr => hgen r (List.mem_cons_of_mem _ hr)
      obtain ⟨p, hp, g1, g2, g3⟩ := ih _ hrest i (by simpa using hj)
      refine ⟨p, ?_, ?_, g2, g3⟩
      · simpa [AuthManager.generateAuthPackets, hpkt] using hp
      · rw [g1]
        show ((am.packageNo + 1) % 2 ^ 64 + i) % 2 ^ 64 = (am.packageNo + (i + 1)) % 2 ^ 64
        omega

/-- C21: for a manager built by `NewAuthManager` and calls whose token generation
succeeds, the k-th `GenerateAuthPacket` call (k ≥ 1) returns a packet whose bytes [8..16)
are the big-endian 64-bit encoding of k (the counter is a uint64, so of k modulo 2^64,
which is k below 2^64), whose bytes [16..18) encode 1 and whose bytes [18..22) encode
0x28. -/
theorem auth_sequence_numbers (token : List Byte) (sourceID hostID : Nat)
    (rnds : List (Except String (List Byte)))
    (hgen : ∀ rnd ∈ rnds, ∃ tokenBytes,
      (NewAuthManager token sourceID hostID).generateTokenBytes rnd = .ok tokenBytes)
    (k : Nat) (hk1 : 1 ≤ k) (hk : k ≤ rnds.length) :
    ∃ packet,
      ((NewAuthManager token sourceID hostID).generateAuthPackets rnds).2[k - 1]? =
        some (.ok packet) ∧
      bigEndian (slice packet 8 16) = k % 2 ^ 64 ∧
      (k < 2 ^ 64 → bigEndian (slice packet 8 16) = k) ∧
      bigEndian (slice packet 16 18) = 1 ∧
      bigEndian (slice packet 18 22) = 0x28 := by
  obtain ⟨packet, hp, h1, h2, h3⟩ :=
    generateAuthPackets_sequence rnds (NewAuthManager token sourceID hostID) hgen (k - 1)
      (by omega)
  have hno : (NewAuthManager token sourceID hostID).packageNo + (k - 1) = k := by
    show 1 + (k - 1) = k
    omega
  rw [hno] at h1
  exact ⟨packet, hp, h1, fun hlt => by rw [h1]; exact Nat.mod_eq_of_lt hlt, h2, h3⟩


/-- C21, witness: the third packet for the token of 32 ASCII `A`. -/
theorem auth_sequence_numbers_witness :
    (∀ rnd ∈ List.replicate 3 (Except.error "rand.Read is not reached"), ∃ tokenBytes,
      (NewAuthManager (List.replicate 32 (0x41 : Byte)) 0x322 0x14).generateTokenBytes rnd =
        .ok tokenBytes) ∧
    1 ≤ 3 ∧ 3 ≤ (List.replicate 3 (Except.error "rand.Read is not reached" :
      Except String (List Byte))).length ∧
    ∃ packet,
      ((NewAuthManager (List.replicate 32 (0x41 : Byte)) 0x322 0x14).generateAuthPackets
        (List.replicate 3 (.error "rand.Read is not reached"))).2[3 - 1]? =
        some (.ok packet) ∧
      bigEndian (slice packet 8 16) = 3 % 2 ^ 64 ∧
      (3 < 2 ^ 64 → bigEndian (slice packet 8 16) = 3) ∧
      bigEndian (slice packet 16 18) = 1 ∧
      bigEndian (slice packet 18 22) = 0x28 :=
  ⟨fun _ _ => ⟨_, rfl⟩, by decide, by decide,
    auth_sequence_numbers (List.replicate 32 (0x41 : Byte)) 0x322 0x14
      (List.replicate 3 (.error "rand.Read is not reached")) (fun _ _ => ⟨_, rfl⟩) 3
      (by decide) (by decide)⟩

/-- C22: for every heartbeat manager that `NewHeartbeatManager` builds, whatever the
interval, the idle timeouts and the two clocks, `GenerateHeartbeatPacket` returns exactly
the 14 bytes `E5 BF 83 E8 B7 B3 78 78 78 78 88 88 88 88`. -/
theorem GenerateHeartbeatPacket_bytes (interval writeIdle readIdle : Int)
    (lastHeartbeat lastHeartbeatRecv now : Int) :
    ({ NewHeartbeatManager interval writeIdle readIdle with
        lastHeartbeat := lastHeartbeat, lastHeartbeatRecv := lastHeartbeatRecv
      }.GenerateHeartbeatPacket now).2 =
      [0xE5, 0xBF, 0x83, 0xE8, 0xB7, 0xB3, 0x78, 0x78, 0x78, 0x78, 0x88, 0x88, 0x88, 0x88] :=
  rfl

/-! ## Theorems: target reconciliation -/

theorem getExistingServers_eq (tx : List TargetServer) :
    TargetSynchronizer.getExistingServers tx false = .ok (tx.map scannedServer) := rfl

theorem existingServer_none (stored : List TargetServer) (id : String)
    (h : ∀ r ∈ stored, r.ID ≠ id) :
    existingServer (stored.map scannedServer) id = none := by
  unfold existingServer
  rw [List.find?_eq_none]
  intro x hx
  rw [List.mem_reverse, List.mem_map] at hx
  obtain ⟨r, hr, rfl⟩ := hx
  simpa [scannedServer] using h r hr

theorem existingServer_some (stored : List TargetServer)
    (hnodup : (stored.map (fun r => r.ID)).Nodup) (r : TargetServer) (hr : r ∈ stored) :
    existingServer (stored.map scannedServer) r.ID = some (scannedServer r) := by
  induction stored with
  | nil => cases hr
  | cons a rest ih =>
    rw [List.map_cons, List.nodup_cons] at hnodup
    unfold existingServer at ih ⊢
    rw [List.map_cons, List.reverse_cons, List.find?_append]
    rcases List.mem_cons.mp hr with rfl | hmem
    · have hnone := existingServer_none rest r.ID (fun x hx hid =>
        hnodup.1 (List.mem_map.mpr ⟨x, hx, hid⟩))
      unfold existingServer at hnone
      rw [hnone]
      simp [scannedServer]
    · rw [ih hnodup.2 hmem]
      rfl

theorem reconciledRow_ID (seconds : Int → Int) (servers : List config.TargetServer)
    (absent : TargetServer → TargetServer) (habs : ∀ r, (absent r).ID = r.ID)
    (r : TargetServer) : (reconciledRow seconds servers absent r).ID = r.ID := by
  unfold reconciledRow
  split
  · split
    · rfl
    · rfl
  · exact habs r

theorem reconciledRow_append_ne (seconds : Int → Int) (P : List config.TargetServer)
    (c : config.TargetServer) (absent : TargetServer → TargetServer) (r : TargetServer)
    (h : r.ID ≠ c.ID) :
    reconciledRow seconds (P ++ [c]) absent r = reconciledRow seconds P absent r := by
  have hc : ¬ c.ID = r.ID := fun e => h e.symm
  unfold reconciledRow
  rw [List.find?_append]
  cases hf : P.find? (fun server => decide (server.ID = r.ID)) with
  | none => simp [hc]
  | some p => simp

theorem reconciledRow_append_eq (seconds : Int → Int) (P : List config.TargetServer)
    (c : config.TargetServer) (absent : TargetServer → TargetServer) (r : TargetServer)
    (hP : ∀ p ∈ P, p.ID ≠ c.ID) (h : r.ID = c.ID) :
    reconciledRow seconds P absent r = absent r ∧
    reconciledRow seconds (P ++ [c]) absent r =
      if TargetSynchronizer.needUpdate (scannedServer r) c then configuredRow seconds c r
      else r := by
  have hf : P.find? (fun server => decide (server.ID = r.ID)) = none := by
    rw [List.find?_eq_none]
    intro p hp
    simpa [h] using hP p hp
  unfold reconciledRow
  rw [List.find?_append, hf]
  simp [h]

theorem filter_new_append_old (stored : List TargetServer) (P : List config.TargetServer)
    (c : config.TargetServer) (r : TargetServer) (hr : r ∈ stored) (hid : r.ID = c.ID) :
    (P ++ [c]).filter (fun server => !stored.any (fun r => r.ID = server.ID)) =
      P.filter (fun server => !stored.any (fun r => r.ID = server.ID)) := by
  rw [List.filter_append]
  have : stored.any (fun r => decide (r.ID = c.ID)) = true :=
    List.any_eq_true.mpr ⟨r, hr, by simpa using hid⟩
  simp [this]

theorem filter_new_append_new (stored : List TargetServer) (P : List config.TargetServer)
    (c : config.TargetServer) (h : ∀ r ∈ stored, r.ID ≠ c.ID) :
    (P ++ [c]).filter (fun server => !stored.any (fun r => r.ID = server.ID)) =
      P.filter (fun server => !stored.any (fun r => r.ID = server.ID)) ++ [c] := by
  rw [List.filter_append]
  have : stored.any (fun r => decide (r.ID = c.ID)) = false := by
    rw [List.any_eq_false]
    intro r hr
    simpa using h r hr
  simp [this]

theorem nodup_ID_eq (stored : List TargetServer)
    (hnodup : (stored.map (fun r => r.ID)).Nodup) (a b : TargetServer)
    (ha : a ∈ stored) (hb : b ∈ stored) (h : a.ID = b.ID) : a = b :=
  List.inj_on_of_nodup_map hnodup ha hb h

theorem syncSingleServer_step (seconds : Int → Int) (now : Int) (stored : List TargetServer)
    (hnodup : (stored.map (fun r => r.ID)).Nodup) (P : List config.TargetServer)
    (c : config.TargetServer) (hP : ∀ p ∈ P, p.ID ≠ c.ID) :
    TargetSynchronizer.syncSingleServer seconds now (upsertedRows seconds now stored P id)
        false c (stored.map scannedServer) =
      .ok (upsertedRows seconds now stored (P ++ [c]) id) := by
  have hnew : ∀ p ∈ P.filter (fun server => !stored.any (fun r => r.ID = server.ID)),
      (insertedRow seconds now p).ID ≠ c.ID := fun p hp =>
    hP p (List.mem_filter.mp hp).1
  by_cases hex : ∃ r ∈ stored, r.ID = c.ID
  · obtain ⟨r, hr, hid⟩ := hex
    have hlook := existingServer_some stored hnodup r hr
    rw [hid] at hlook
    have hrow : ∀ r0 ∈ stored, reconciledRow seconds (P ++ [c]) id r0 =
        if r0.ID = c.ID then
          (if TargetSynchronizer.needUpdate (scannedServer r) c then
            configuredRow seconds c (reconciledRow seconds P id r0)
          else reconciledRow seconds P id r0)
        else reconciledRow seconds P id r0 := by
      intro r0 hr0
      by_cases h0 : r0.ID = c.ID
      · have e : r0 = r := nodup_ID_eq stored hnodup r0 r hr0 hr (h0.trans hid.symm)
        subst e
        obtain ⟨h1, h2⟩ := reconciledRow_append_eq seconds P c id r0 hP h0
        rw [h2, h1, if_pos h0]
        rfl
      · rw [if_neg h0, reconciledRow_append_ne seconds P c id r0 h0]
    simp only [TargetSynchronizer.syncSingleServer, hlook]
    unfold upsertedRows
    rw [filter_new_append_old stored P c r hr hid]
    split
    · next hnu =>
      simp only [TargetSynchronizer.updateServer, Bool.false_eq_true, if_false, List.map_append,
        List.map_map]
      congr 2
      · apply List.map_congr_left
        intro r0 hr0
        rw [hrow r0 hr0, hnu]
        have hxid := reconciledRow_ID seconds P id (fun _ => rfl) r0
        simp only [Function.comp, if_true]
        by_cases h0 : r0.ID = c.ID
        · rw [if_pos (hxid.trans h0), if_pos h0]
          rfl
        · rw [if_neg (fun e => h0 (hxid.symm.trans e)), if_neg h0]
      · apply List.map_congr_left
        intro p hp
        simp only [Function.comp, if_neg (hnew p hp)]
    · next hnu =>
      have hS : stored.map (reconciledRow seconds (P ++ [c]) id) =
          stored.map (reconciledRow seconds P id) := by
        apply List.map_congr_left
        intro r0 hr0
        rw [hrow r0 hr0]
        simp only [hnu, Bool.false_eq_true, if_false, ite_self]
      rw [hS]
  · have hne : ∀ r ∈ stored, r.ID ≠ c.ID := fun r hr hid => hex ⟨r, hr, hid⟩
    have hlook := existingServer_none stored c.ID hne
    simp only [TargetSynchronizer.syncSingleServer, hlook, TargetSynchronizer.createServer,
      Bool.false_eq_true, if_false, insertTargetRow]
    have hany : (upsertedRows seconds now stored P id).any (fun r => decide (r.ID = c.ID)) =
        false := by
      rw [List.any_eq_false]
      intro x hx
      unfold upsertedRows at hx
      rcases List.mem_append.mp hx with h | h
      · obtain ⟨r0, hr0, rfl⟩ := List.mem_map.mp h
        simpa [reconciledRow_ID seconds P id (fun _ => rfl) r0] using hne r0 hr0
      · obtain ⟨p, hp, rfl⟩ := List.mem_map.mp h
        simpa using hnew p hp
    rw [hany]
    simp only [Bool.false_eq_true, if_false]
    unfold upsertedRows
    have hS : stored.map (reconciledRow seconds (P ++ [c]) id) =
        stored.map (reconciledRow seconds P id) := by
      apply List.map_congr_left
      intro r0 hr0
      rw [reconciledRow_append_ne seconds P c id r0 (hne r0 hr0)]
    rw [filter_new_append_new stored P c hne, List.map_append, ← List.append_assoc, hS]
    rfl

theorem upsertedRows_nil (seconds : Int → Int) (now : Int) (stored : List TargetServer) :
    upsertedRows seconds now stored [] id = stored := by
  have h : reconciledRow seconds [] id = id := by
    funext r
    simp [reconciledRow]
  simp [upsertedRows, h]

theorem syncLoop_eq (seconds : Int → Int) (now : Int) (stored : List TargetServer)
    (hnodup : (stored.map (fun r => r.ID)).Nodup) :
    ∀ (Q P : List config.TargetServer),
      ((P ++ Q).map (fun server => server.ID)).Nodup →
      TargetSynchronizer.syncLoop seconds now SyncFaults.none (stored.map scannedServer)
          (upsertedRows seconds now stored P id) Q =
        .ok (upsertedRows seconds now stored (P ++ Q) id) := by
  intro Q
  induction Q with
  | nil => intro P _; rw [List.append_nil]; rfl
  | cons c rest ih =>
    intro P hPQ
    have hP : ∀ p ∈ P, p.ID ≠ c.ID := by
      intro p hp hid
      rw [List.map_append, List.nodup_append] at hPQ
      exact hPQ.2.2 (List.mem_map.mpr ⟨p, hp, rfl⟩)
        (List.mem_map.mpr ⟨c, List.mem_cons_self _ _, hid.symm⟩)
    have hassoc : P ++ c :: rest = (P ++ [c]) ++ rest := by simp
    rw [TargetSynchronizer.syncLoop]
    have hstep := syncSingleServer_step seconds now stored hnodup P c hP
    simp only [SyncFaults.none] at hstep ⊢
    rw [hstep]
    simp only
    rw [hassoc] at hPQ ⊢
    exact ih (P ++ [c]) hPQ

theorem disableLoop_eq (cids : List String) :
    ∀ (ids : List String) (tx : List TargetServer),
      TargetSynchronizer.disableLoop (fun _ => false) cids tx ids =
        .ok (tx.map (fun r =>
          if ids.contains r.ID && !cids.contains r.ID then disabledRow r else r)) := by
  intro ids
  induction ids with
  | nil => intro tx; simp [TargetSynchronizer.disableLoop]
  | cons i rest ih =>
    intro tx
    rw [TargetSynchronizer.disableLoop]
    by_cases hc : cids.contains i = true
    · simp only [hc, Bool.not_true, Bool.false_eq_true, if_false]
      rw [ih tx]
      congr 1
      apply List.map_congr_left
      intro r _
      have hmem : i ∈ cids := by simpa using hc
      by_cases hr : r.ID = i
      · simp [hr, hmem]
      · simp [hr]
    · simp only [Bool.not_eq_true] at hc
      simp only [hc, Bool.not_false, if_true, Bool.false_eq_true, if_false]
      rw [ih, List.map_map]
      congr 1
      apply List.map_congr_left
      intro r _
      have hmem : i ∉ cids := by simpa using hc
      by_cases hr : r.ID = i
      · simp [hr, hmem, disabledRow]
      · simp [hr]

theorem syncSingleServer_of_ok (seconds : Int → Int) (now : Int) (tx : List TargetServer)
    (fails : Bool) (server : config.TargetServer) (existingServers tx1 : List TargetServer)
    (h : TargetSynchronizer.syncSingleServer seconds now tx fails server existingServers =
      .ok tx1) :
    TargetSynchronizer.syncSingleServer seconds now tx false server existingServers =
      .ok tx1 := by
  cases fails with
  | false => exact h
  | true =>
    unfold TargetSynchronizer.syncSingleServer at h ⊢
    split at h
    · split at h
      · simp [TargetSynchronizer.updateServer] at h
      · next hnu => rw [if_neg hnu]; exact h
    · simp [TargetSynchronizer.createServer] at h

theorem syncLoop_of_ok (seconds : Int → Int) (now : Int) (faults : SyncFaults)
    (existingServers : List TargetServer) :
    ∀ (servers : List config.TargetServer) (tx tx1 : List TargetServer),
      TargetSynchronizer.syncLoop seconds now faults existingServers tx servers = .ok tx1 →
      TargetSynchronizer.syncLoop seconds now SyncFaults.none existingServers tx servers =
        .ok tx1 := by
  intro servers
  induction servers with
  | nil => intro tx tx1 h; exact h
  | cons c rest ih =>
    intro tx tx1 h
    rw [TargetSynchronizer.syncLoop] at h ⊢
    cases hs : TargetSynchronizer.syncSingleServer seconds now tx (faults.syncServer c.ID) c
        existingServers with
    | error e => simp [hs] at h
    | ok tx2 =>
      simp only [hs] at h
      have h2 := syncSingleServer_of_ok seconds now tx _ c existingServers tx2 hs
      simp only [SyncFaults.none] at h2 ⊢
      rw [h2]
      exact ih tx2 tx1 h

theorem disableLoop_of_ok (fails : String → Bool) (cids : List String) :
    ∀ (ids : List String) (tx tx1 : List TargetServer),
      TargetSynchronizer.disableLoop fails cids tx ids = .ok tx1 →
      TargetSynchronizer.disableLoop (fun _ => false) cids tx ids = .ok tx1 := by
  intro ids
  induction ids with
  | nil => intro tx tx1 h; exact h
  | cons i rest ih =>
    intro tx tx1 h
    rw [TargetSynchronizer.disableLoop] at h ⊢
    split at h
    · next hc =>
      rw [if_pos hc]
      split at h
      · simp at h
      · simp only [Bool.false_eq_true, if_false]
        exact ih _ _ h
    · next hc =>
      rw [if_neg hc]
      exact ih _ _ h

theorem SyncTargetServers_of_ok (seconds : Int → Int) (db : Store) (now : Int)
    (faults : SyncFaults) (servers : List config.TargetServer) (db1 : Store)
    (h : TargetSynchronizer.SyncTargetServers seconds db now faults servers = (db1, none)) :
    TargetSynchronizer.SyncTargetServers seconds db now SyncFaults.none servers =
      (db1, none) := by
  unfold TargetSynchronizer.SyncTargetServers at h
  split at h
  · simp at h
  · cases hq : faults.getExisting with
    | true => simp [TargetSynchronizer.getExistingServers, hq] at h
    | false =>
      simp only [hq, getExistingServers_eq] at h
      cases hl : TargetSynchronizer.syncLoop seconds now faults
          (db.target_servers.map scannedServer) db.target_servers servers with
      | error e => simp [hl] at h
      | ok tx1 =>
        simp only [hl] at h
        cases hd : TargetSynchronizer.disableMissingServers tx1 faults.disableServer servers
            (db.target_servers.map scannedServer) with
        | error e => simp [hd] at h
        | ok tx2 =>
          simp only [hd] at h
          split at h
          · simp at h
          · have hl2 := syncLoop_of_ok seconds now faults _ servers _ tx1 hl
            have hd2 : TargetSynchronizer.disableMissingServers tx1
                SyncFaults.none.disableServer servers
                (db.target_servers.map scannedServer) = .ok tx2 :=
              disableLoop_of_ok _ _ _ _ _ hd
            unfold TargetSynchronizer.SyncTargetServers
            have hb : SyncFaults.none.begin = false := rfl
            have hg : SyncFaults.none.getExisting = false := rfl
            have hcm : SyncFaults.none.commit = false := rfl
            simp only [hb, hg, hcm, getExistingServers_eq, hl2, hd2, Bool.false_eq_true,
              if_false]
            exact h

theorem SyncTargetServers_eq (seconds : Int → Int) (db : Store) (now : Int)
    (servers : List config.TargetServer)
    (hS : (db.target_servers.map (fun r => r.ID)).Nodup)
    (hC : (servers.map (fun server => server.ID)).Nodup) :
    TargetSynchronizer.SyncTargetServers seconds db now SyncFaults.none servers =
      ({ db with target_servers := reconciledRows seconds now db.target_servers servers },
        none) := by
  have hl := syncLoop_eq seconds now db.target_servers hS servers [] (by simpa using hC)
  rw [upsertedRows_nil, List.nil_append] at hl
  have hd : TargetSynchronizer.disableMissingServers
      (upsertedRows seconds now db.target_servers servers id) SyncFaults.none.disableServer
      servers (db.target_servers.map scannedServer) =
      .ok (reconciledRows seconds now db.target_servers servers) := by
    unfold TargetSynchronizer.disableMissingServers
    show TargetSynchronizer.disableLoop (fun _ => false) _ _ _ = _
    rw [disableLoop_eq]
    have hin : (db.target_servers.map scannedServer).map (fun server => server.ID) =
        db.target_servers.map (fun r => r.ID) := by
      rw [List.map_map]; rfl
    rw [hin]
    congr 1
    unfold reconciledRows upsertedRows
    rw [List.map_append]
    congr 1
    · rw [List.map_map]
      apply List.map_congr_left
      intro r hr
      have hid := reconciledRow_ID seconds servers id (fun _ => rfl) r
      have hmem : r.ID ∈ db.target_servers.map (fun r => r.ID) :=
        List.mem_map.mpr ⟨r, hr, rfl⟩
      simp only [Function.comp, hid]
      unfold reconciledRow
      cases hf : servers.find? (fun server => decide (server.ID = r.ID)) with
      | none =>
        have hnot : r.ID ∉ servers.map (fun server => server.ID) := by
          intro hm
          obtain ⟨c, hc, hcid⟩ := List.mem_map.mp hm
          have := List.find?_eq_none.mp hf c hc
          simp [hcid] at this
        have h1 : (db.target_servers.map (fun r => r.ID)).contains r.ID = true := by
          simpa using hmem
        have h2 : (servers.map (fun server => server.ID)).contains r.ID = false := by
          simpa using hnot
        simp only [h1, h2, Bool.not_false, Bool.and_self, if_true, id]
      | some c =>
        have hc := List.mem_of_find?_eq_some hf
        have hcid : c.ID = r.ID := by simpa using List.find?_some hf
        have h2 : (servers.map (fun server => server.ID)).contains r.ID = true := by
          simpa using (⟨c, hc, hcid⟩ : ∃ a ∈ servers, a.ID = r.ID)
        simp only [h2, Bool.not_true, Bool.and_false, Bool.false_eq_true, if_false]
    · rw [List.map_map]
      apply List.map_congr_left
      intro c hc
      have h2 : (servers.map (fun server => server.ID)).contains c.ID = true := by
        simpa using (⟨c, (List.mem_filter.mp hc).1, rfl⟩ : ∃ a ∈ servers, a.ID = c.ID)
      have h3 : (insertedRow seconds now c).ID = c.ID := rfl
      simp only [Function.comp, h3, h2, Bool.not_true, Bool.and_false, Bool.false_eq_true,
        if_false]
  unfold TargetSynchronizer.SyncTargetServers
  have hb : SyncFaults.none.begin = false := rfl
  have hg : SyncFaults.none.getExisting = false := rfl
  have hcm : SyncFaults.none.commit = false := rfl
  simp only [hb, hg, hcm, getExistingServers_eq, hl, hd, Bool.false_eq_true, if_false]

theorem find_configured (servers : List config.TargetServer)
    (hC : (servers.map (fun server => server.ID)).Nodup) (c : config.TargetServer)
    (hc : c ∈ servers) (id : String) (hid : c.ID = id) :
    servers.find? (fun server => decide (server.ID = id)) = some c := by
  induction servers with
  | nil => cases hc
  | cons a rest ih =>
    rw [List.map_cons, List.nodup_cons] at hC
    rcases List.mem_cons.mp hc with rfl | hmem
    · simp [hid]
    · have hne : ¬ a.ID = id := by
        intro e
        exact hC.1 (List.mem_map.mpr ⟨c, hmem, hid.trans e.symm⟩)
      rw [List.find?_cons_of_neg _ (by simpa using hne)]
      exact ih hC.2 hmem

theorem mem_reconciledRows (seconds : Int → Int) (now : Int) (stored : List TargetServer)
    (servers : List config.TargetServer) (r : TargetServer) :
    r ∈ reconciledRows seconds now stored servers ↔
      (∃ r0 ∈ stored, r = reconciledRow seconds servers disabledRow r0) ∨
      (∃ c ∈ servers, (∀ r0 ∈ stored, r0.ID ≠ c.ID) ∧ r = insertedRow seconds now c) := by
  unfold reconciledRows upsertedRows
  rw [List.mem_append, List.mem_map, List.mem_map]
  constructor
  · rintro (⟨r0, h0, rfl⟩ | ⟨c, hc, rfl⟩)
    · exact Or.inl ⟨r0, h0, rfl⟩
    · rw [List.mem_filter] at hc
      refine Or.inr ⟨c, hc.1, ?_, rfl⟩
      have h2 := hc.2
      simp only [Bool.not_eq_true', List.any_eq_false, decide_eq_true_eq] at h2
      exact h2
  · rintro (⟨r0, h0, rfl⟩ | ⟨c, hc, hnew, rfl⟩)
    · exact Or.inl ⟨r0, h0, rfl⟩
    · refine Or.inr ⟨c, List.mem_filter.mpr ⟨hc, ?_⟩, rfl⟩
      simp only [Bool.not_eq_true', List.any_eq_false, decide_eq_true_eq]
      exact hnew

theorem reconciledRows_ids (seconds : Int → Int) (now : Int) (stored : List TargetServer)
    (servers : List config.TargetServer) (id : String) :
    id ∈ (reconciledRows seconds now stored servers).map (fun r => r.ID) ↔
      id ∈ stored.map (fun r => r.ID) ∨ id ∈ servers.map (fun server => server.ID) := by
  simp only [List.mem_map, mem_reconciledRows]
  constructor
  · rintro ⟨r, (⟨r0, h0, rfl⟩ | ⟨c, hc, _, rfl⟩), rfl⟩
    · exact Or.inl ⟨r0, h0, (reconciledRow_ID seconds servers disabledRow (fun _ => rfl) r0).symm⟩
    · exact Or.inr ⟨c, hc, rfl⟩
  · rintro (⟨r0, h0, rfl⟩ | ⟨c, hc, rfl⟩)
    · exact ⟨_, Or.inl ⟨r0, h0, rfl⟩,
        reconciledRow_ID seconds servers disabledRow (fun _ => rfl) r0⟩
    · by_cases hex : ∃ r0 ∈ stored, r0.ID = c.ID
      · obtain ⟨r0, h0, hid⟩ := hex
        exact ⟨_, Or.inl ⟨r0, h0, rfl⟩,
          (reconciledRow_ID seconds servers disabledRow (fun _ => rfl) r0).trans hid⟩
      · exact ⟨_, Or.inr ⟨c, hc, fun r0 h0 hid => hex ⟨r0, h0, hid⟩, rfl⟩, rfl⟩

theorem reconciledRows_nodup (seconds : Int → Int) (now : Int) (stored : List TargetServer)
    (servers : List config.TargetServer)
    (hS : (stored.map (fun r => r.ID)).Nodup)
    (hC : (servers.map (fun server => server.ID)).Nodup) :
    ((reconciledRows seconds now stored servers).map (fun r => r.ID)).Nodup := by
  unfold reconciledRows upsertedRows
  rw [List.map_append, List.map_map, List.map_map]
  have h1 : stored.map ((fun r => r.ID) ∘ reconciledRow seconds servers disabledRow) =
      stored.map (fun r => r.ID) :=
    List.map_congr_left (fun r _ =>
      reconciledRow_ID seconds servers disabledRow (fun _ => rfl) r)
  have h2 : (servers.filter (fun server => !stored.any (fun r => r.ID = server.ID))).map
      ((fun r => r.ID) ∘ insertedRow seconds now) =
      (servers.filter (fun server => !stored.any (fun r => r.ID = server.ID))).map
        (fun server => server.ID) := rfl
  rw [h1, h2, List.nodup_append]
  refine ⟨hS, (List.filter_sublist _).map _ |>.nodup hC, ?_⟩
  intro id hid1 hid2
  obtain ⟨r0, h0, rfl⟩ := List.mem_map.mp hid1
  obtain ⟨c, hc, hcid⟩ := List.mem_map.mp hid2
  have h3 := (List.mem_filter.mp hc).2
  simp only [Bool.not_eq_true', List.any_eq_false, decide_eq_true_eq] at h3
  exact h3 r0 h0 hcid.symm

theorem needUpdate_false (existing : TargetServer) (new : config.TargetServer)
    (h : TargetSynchronizer.needUpdate existing new = false) :
    existing.Name = new.Name ∧ existing.Address = new.Address ∧
    existing.Enabled = new.Enabled ∧ existing.Timeout = new.Timeout ∧
    existing.MaxRetries = new.MaxRetries ∧ existing.BatchSize = new.BatchSize ∧
    existing.Priority = new.Priority := by
  simp only [TargetSynchronizer.needUpdate, Bool.or_eq_false_iff, bne_eq_false_iff_eq] at h
  obtain ⟨⟨⟨⟨⟨⟨h1, h2⟩, h3⟩, h4⟩, h5⟩, h6⟩, h7⟩ := h
  exact ⟨h1, h2, h3, h4, h5, h6, h7⟩

theorem reconciledRows_configured (seconds : Int → Int)
    (hsec : ∀ n : Int, seconds (n * Second) = n) (now : Int) (stored : List TargetServer)
    (servers : List config.TargetServer)
    (hC : (servers.map (fun server => server.ID)).Nodup)
    (server : config.TargetServer) (hserver : server ∈ servers) (r : TargetServer)
    (hr : r ∈ reconciledRows seconds now stored servers) (hid : r.ID = server.ID) :
    r.Name = server.Name ∧ r.Address = server.Address ∧ r.Enabled = server.Enabled ∧
    r.Timeout = seconds server.Timeout ∧ r.MaxRetries = server.MaxRetries ∧
    r.BatchSize = server.BatchSize ∧ r.Priority = server.Priority := by
  rcases (mem_reconciledRows seconds now stored servers r).mp hr with
    ⟨r0, _, rfl⟩ | ⟨c, hc, _, rfl⟩
  · have hid0 : server.ID = r0.ID :=
      hid.symm.trans (reconciledRow_ID seconds servers disabledRow (fun _ => rfl) r0)
    have hf := find_configured servers hC server hserver r0.ID hid0
    unfold reconciledRow
    rw [hf]
    simp only
    split
    · exact ⟨rfl, rfl, rfl, rfl, rfl, rfl, rfl⟩
    · next hnu =>
      obtain ⟨h1, h2, h3, h4, h5, h6, h7⟩ :=
        needUpdate_false (scannedServer r0) server (by simpa using hnu)
      refine ⟨h1, h2, h3, ?_, h5, h6, h7⟩
      have h4a : r0.Timeout * Second = server.Timeout := h4
      rw [← h4a, hsec]
  · have hcs : c = server :=
      List.inj_on_of_nodup_map hC hc hserver hid
    subst hcs
    exact ⟨rfl, rfl, rfl, rfl, rfl, rfl, rfl⟩

theorem reconciledRows_absent (seconds : Int → Int) (now : Int) (stored : List TargetServer)
    (servers : List config.TargetServer) (r : TargetServer) (hr : r ∈ stored)
    (habs : r.ID ∉ servers.map (fun server => server.ID)) :
    disabledRow r ∈ reconciledRows seconds now stored servers := by
  refine (mem_reconciledRows seconds now stored servers _).mpr (Or.inl ⟨r, hr, ?_⟩)
  have hf : servers.find? (fun server => decide (server.ID = r.ID)) = none := by
    rw [List.find?_eq_none]
    intro c hc
    have : c.ID ≠ r.ID := fun e => habs (List.mem_map.mpr ⟨c, hc, e⟩)
    simpa using this
  unfold reconciledRow
  rw [hf]

theorem reconciledRows_fixed (seconds : Int → Int) (now1 now2 : Int)
    (stored : List TargetServer) (servers : List config.TargetServer)
    (hC : (servers.map (fun server => server.ID)).Nodup) :
    reconciledRows seconds now2 (reconciledRows seconds now1 stored servers) servers =
      reconciledRows seconds now1 stored servers := by
  have hfilter : servers.filter (fun server =>
      !(reconciledRows seconds now1 stored servers).any (fun r => r.ID = server.ID)) = [] := by
    rw [List.filter_eq_nil_iff]
    intro c hc
    have hin := (reconciledRows_ids seconds now1 stored servers c.ID).mpr
      (Or.inr (List.mem_map.mpr ⟨c, hc, rfl⟩))
    obtain ⟨r, hr, hrid⟩ := List.mem_map.mp hin
    have : (reconciledRows seconds now1 stored servers).any (fun r => decide (r.ID = c.ID)) =
        true := List.any_eq_true.mpr ⟨r, hr, by simpa using hrid⟩
    simp [this]
  have hmap : ∀ r ∈ reconciledRows seconds now1 stored servers,
      reconciledRow seconds servers disabledRow r = r := by
    intro r hr
    rcases (mem_reconciledRows seconds now1 stored servers r).mp hr with
      ⟨r0, _, rfl⟩ | ⟨c, hc, _, rfl⟩
    · have hid := reconciledRow_ID seconds servers disabledRow (fun _ => rfl) r0
      generalize hx : reconciledRow seconds servers disabledRow r0 = x at hid
      unfold reconciledRow at hx ⊢
      rw [hid]
      cases hf : servers.find? (fun server => decide (server.ID = r0.ID)) with
      | none =>
        rw [hf] at hx
        simp only at hx ⊢
        rw [← hx]
        rfl
      | some c =>
        rw [hf] at hx
        simp only at hx ⊢
        by_cases hnu : TargetSynchronizer.needUpdate (scannedServer r0) c = true
        · rw [if_pos hnu] at hx
          rw [← hx]
          split <;> rfl
        · rw [if_neg hnu] at hx
          rw [← hx, if_neg hnu]
    · have hf := find_configured servers hC c hc c.ID rfl
      unfold reconciledRow
      have hid : (insertedRow seconds now1 c).ID = c.ID := rfl
      rw [hid, hf]
      simp only
      split <;> rfl
  unfold reconciledRows upsertedRows at hfilter ⊢
  rw [hfilter, List.map_nil, List.append_nil]
  conv_rhs => rw [← List.map_id (List.map (reconciledRow seconds servers disabledRow) stored ++ _)]
  apply List.map_congr_left
  intro r hr
  exact hmap r hr

theorem wholeSeconds_exact (n : Int) : wholeSeconds (n * Second) = n := by
  unfold wholeSeconds
  exact Int.mul_tdiv_cancel n (by decide)

/-- C23: for a table and a configured list with pairwise distinct ids, a
`SyncTargetServers` call that returns no error leaves a table with pairwise distinct ids
whose id set is the union of the stored and the configured ids; the row of every
configured id holds the configured name, address, enabled flag, timeout in whole
seconds, `max_retries`, `batch_size` and priority; every stored row whose id is not
configured is there with `enabled = false` and its other attributes unchanged; and the
table has not lost a row.  The conversion `seconds` is exact on whole seconds. -/
theorem SyncTargetServers_result (seconds : Int → Int)
    (hsec : ∀ n : Int, seconds (n * Second) = n) (db : Store) (now : Int)
    (faults : SyncFaults) (servers : List config.TargetServer) (db1 : Store)
    (hS : (db.target_servers.map (fun r => r.ID)).Nodup)
    (hC : (servers.map (fun server => server.ID)).Nodup)
    (h : TargetSynchronizer.SyncTargetServers seconds db now faults servers = (db1, none)) :
    (db1.target_servers.map (fun r => r.ID)).Nodup ∧
    (∀ id, id ∈ db1.target_servers.map (fun r => r.ID) ↔
      id ∈ db.target_servers.map (fun r => r.ID) ∨
      id ∈ servers.map (fun server => server.ID)) ∧
    (∀ server ∈ servers, ∀ r ∈ db1.target_servers, r.ID = server.ID →
      r.Name = server.Name ∧ r.Address = server.Address ∧ r.Enabled = server.Enabled ∧
      r.Timeout = seconds server.Timeout ∧ r.MaxRetries = server.MaxRetries ∧
      r.BatchSize = server.BatchSize ∧ r.Priority = server.Priority) ∧
    (∀ r ∈ db.target_servers, r.ID ∉ servers.map (fun server => server.ID) →
      { r with Enabled := false } ∈ db1.target_servers) ∧
    db.target_servers.length ≤ db1.target_servers.length := by
  have h1 := SyncTargetServers_of_ok seconds db now faults servers db1 h
  rw [SyncTargetServers_eq seconds db now servers hS hC] at h1
  have hdb : db1.target_servers = reconciledRows seconds now db.target_servers servers := by
    rw [← (Prod.mk.inj h1).1]
  rw [hdb]
  refine ⟨reconciledRows_nodup seconds now _ servers hS hC,
    reconciledRows_ids seconds now _ servers,
    fun server hserver r hr hid =>
      reconciledRows_configured seconds hsec now _ servers hC server hserver r hr hid,
    fun r hr habs => reconciledRows_absent seconds now _ servers r hr habs, ?_⟩
  simp [reconciledRows, upsertedRows]

/-- C23, witness: `configuredTargets` reconciled into `twoTargetStore`. -/
theorem SyncTargetServers_result_witness :
    (∀ n : Int, wholeSeconds (n * Second) = n) ∧
    (twoTargetStore.target_servers.map (fun r => r.ID)).Nodup ∧
    (configuredTargets.map (fun server => server.ID)).Nodup ∧
    TargetSynchronizer.SyncTargetServers wholeSeconds twoTargetStore 50 SyncFaults.none
      configuredTargets = ({ twoTargetStore with target_servers := reconciledTargets }, none) ∧
    (∀ server ∈ configuredTargets, ∀ r ∈ reconciledTargets, r.ID = server.ID →
      r.Name = server.Name ∧ r.Address = server.Address ∧ r.Enabled = server.Enabled ∧
      r.Timeout = wholeSeconds server.Timeout ∧ r.MaxRetries = server.MaxRetries ∧
      r.BatchSize = server.BatchSize ∧ r.Priority = server.Priority) :=
  ⟨wholeSeconds_exact, by decide, by decide, rfl,
    (SyncTargetServers_result wholeSeconds wholeSeconds_exact twoTargetStore 50 SyncFaults.none
      configuredTargets { twoTargetStore with target_servers := reconciledTargets }
      (by decide) (by decide) rfl).2.2.1⟩

/-- C24: for a table and a configured list with pairwise distinct ids, after a
`SyncTargetServers` call that returned no error, a second call with the same list, at any
later time, succeeds when no statement fails, and every second call that returns no error
leaves the store exactly as the first call left it. -/
theorem SyncTargetServers_idempotent (seconds : Int → Int) (db : Store) (now1 now2 : Int)
    (faults1 : SyncFaults) (servers : List config.TargetServer) (db1 : Store)
    (hS : (db.target_servers.map (fun r => r.ID)).Nodup)
    (hC : (servers.map (fun server => server.ID)).Nodup)
    (h : TargetSynchronizer.SyncTargetServers seconds db now1 faults1 servers =
      (db1, none)) :
    TargetSynchronizer.SyncTargetServers seconds db1 now2 SyncFaults.none servers =
      (db1, none) ∧
    ∀ (faults2 : SyncFaults) (db2 : Store),
      TargetSynchronizer.SyncTargetServers seconds db1 now2 faults2 servers = (db2, none) →
      db2 = db1 := by
  have h1 := SyncTargetServers_of_ok seconds db now1 faults1 servers db1 h
  rw [SyncTargetServers_eq seconds db now1 servers hS hC] at h1
  have hdb : db1 =
      { db with target_servers := (reconciledRows seconds now1 db.target_servers servers) } :=
    (Prod.mk.inj h1).1.symm
  have hS1 : (db1.target_servers.map (fun r => r.ID)).Nodup := by
    rw [hdb]
    exact reconciledRows_nodup seconds now1 _ servers hS hC
  have h2 := SyncTargetServers_eq seconds db1 now2 servers hS1 hC
  have hfix : reconciledRows seconds now2 db1.target_servers servers = db1.target_servers := by
    rw [hdb]
    exact reconciledRows_fixed seconds now1 now2 _ servers hC
  rw [hfix] at h2
  refine ⟨h2, fun faults2 db2 h3 => ?_⟩
  have h4 := SyncTargetServers_of_ok seconds db1 now2 faults2 servers db2 h3
  rw [h2] at h4
  exact (Prod.mk.inj h4).1.symm

/-- C24, witness: `configuredTargets` reconciled twice into `twoTargetStore`. -/
theorem SyncTargetServers_idempotent_witness :
    (twoTargetStore.target_servers.map (fun r => r.ID)).Nodup ∧
    (configuredTargets.map (fun server => server.ID)).Nodup ∧
    TargetSynchronizer.SyncTargetServers wholeSeconds twoTargetStore 50 SyncFaults.none
      configuredTargets = ({ twoTargetStore with target_servers := reconciledTargets }, none) ∧
    TargetSynchronizer.SyncTargetServers wholeSeconds
      { twoTargetStore with target_servers := reconciledTargets } 90 SyncFaults.none
      configuredTargets = ({ twoTargetStore with target_servers := reconciledTargets }, none) :=
  ⟨by decide, by decide, rfl,
    (SyncTargetServers_idempotent wholeSeconds twoTargetStore 50 90 SyncFaults.none
      configuredTargets { twoTargetStore with target_servers := reconciledTargets }
      (by decide) (by decide) rfl).1⟩

/-! ## Theorems: termination and the residual buffer -/

theorem processLoop_wrapped_step (fuel : Nat) (packages : List BasePackage) :
    ProtocolHandler.processLoop (fuel + 1) wrappedLengthFrame packages =
      ProtocolHandler.processLoop fuel wrappedLengthFrame packages := by
  rw [ProtocolHandler.processLoop]
  have h1 : ¬ wrappedLengthFrame.length < 32 := by decide
  have h2 : ProtocolHandler.isHeartbeatPacket wrappedLengthFrame = false := by decide
  have h3 : ProtocolHandler.parseDataLength wrappedLengthFrame = .ok 0xFFFFFFE0 := rfl
  have h4 : (32 + 0xFFFFFFE0) % 2 ^ 32 = 0 := by norm_num
  simp only [h1, h2, h3, h4, if_false, Bool.false_eq_true, List.take_zero, List.drop_zero,
    Nat.not_lt_zero]
  rfl

/-- C25 at the failing input: on the 32-byte record `wrappedLengthFrame`, whose declared
length is `0xFFFFFFE0`, the total length `32 + length` wraps to 0, `parsePackage` rejects
the empty slice, and the iteration drops 0 bytes and continues: the loop runs out of
every fuel, each iteration leaves buffer and packages as they were, and `ProcessData`
from the empty buffer does not return. -/
theorem ProcessData_wrapped_length_diverges :
    (∀ fuel packages, ProtocolHandler.processLoop fuel wrappedLengthFrame packages = none) ∧
    (∀ fuel packages,
      ProtocolHandler.processLoop (fuel + 1) wrappedLengthFrame packages =
        ProtocolHandler.processLoop fuel wrappedLengthFrame packages) ∧
    ProtocolHandler.ProcessData { buffer := [] } wrappedLengthFrame = none := by
  have h : ∀ fuel packages,
      ProtocolHandler.processLoop fuel wrappedLengthFrame packages = none := by
    intro fuel
    induction fuel with
    | zero => intro packages; rfl
    | succ n ih => intro packages; rw [processLoop_wrapped_step]; exact ih packages
  refine ⟨h, processLoop_wrapped_step, ?_⟩
  simp only [ProtocolHandler.ProcessData, List.nil_append, h]

/-- C26: for every handler with a non-empty delimiter, every buffer content and every
chunk, `DelimiterHandler.ProcessData` returns; the loop gives the same result with any
fuel above the buffer length; and each iteration either exits (leaving the guarded
buffer) or finds the delimiter at an index `i` and continues on `buffer[i+len(delimiter):]`,
which is shorter by at least the delimiter length. -/
theorem DelimiterHandler_ProcessData_terminates (dh : DelimiterHandler)
    (hsep : dh.delimiter ≠ []) (data : List Byte) :
    (∃ out, dh.ProcessData data = some out) ∧
    (∀ fuel, (dh.buffer ++ data).length < fuel →
      DelimiterHandler.processLoop dh.delimiter dh.maxLength fuel (dh.buffer ++ data) [] =
        DelimiterHandler.processLoop dh.delimiter dh.maxLength
          ((dh.buffer ++ data).length + 1) (dh.buffer ++ data) []) ∧
    (∀ (fuel : Nat) (buffer : List Byte) (packets : List (List Byte)),
      DelimiterHandler.processLoop dh.delimiter dh.maxLength (fuel + 1) buffer packets =
        some (overflowGuard dh.maxLength buffer, packets) ∨
      ∃ i, bytesIndex buffer dh.delimiter = some i ∧
        DelimiterHandler.processLoop dh.delimiter dh.maxLength (fuel + 1) buffer packets =
          DelimiterHandler.processLoop dh.delimiter dh.maxLength fuel
            (buffer.drop (i + dh.delimiter.length))
            (if (buffer.take i).length > 0 then packets ++ [buffer.take i] else packets) ∧
        (buffer.drop (i + dh.delimiter.length)).length + dh.delimiter.length ≤
          buffer.length) := by
  refine ⟨⟨_, ProcessData_eq dh hsep data⟩, ?_, ?_⟩
  · intro fuel hfuel
    rw [processLoop_eq dh.delimiter hsep dh.maxLength fuel _ [] hfuel,
      processLoop_eq dh.delimiter hsep dh.maxLength _ _ [] (Nat.lt_succ_self _)]
  · intro fuel buffer packets
    rw [DelimiterHandler.processLoop]
    cases hi : bytesIndex buffer dh.delimiter with
    | none =>
      left
      simp only [overflowGuard]
      split <;> rfl
    | some i =>
      right
      refine ⟨i, rfl, rfl, ?_⟩
      have hb := bytesIndex_bound buffer dh.delimiter i hi
      rw [List.length_drop]
      omega

/-- C26, witness: the reassembly scenario stream read by a fresh handler. -/
theorem DelimiterHandler_ProcessData_terminates_witness :
    (NewDelimiterHandler scenarioDelimiter 1024).delimiter ≠ [] ∧
    (∃ out, (NewDelimiterHandler scenarioDelimiter 1024).ProcessData reassemblyStream =
      some out) ∧
    (∀ fuel, reassemblyStream.length < fuel →
      DelimiterHandler.processLoop scenarioDelimiter 1024 fuel reassemblyStream [] =
        DelimiterHandler.processLoop scenarioDelimiter 1024
          (reassemblyStream.length + 1) reassemblyStream []) :=
  have h := DelimiterHandler_ProcessData_terminates
    (NewDelimiterHandler scenarioDelimiter 1024) (by decide) reassemblyStream
  ⟨by decide, h.1, h.2.1⟩

/-- C27: for every handler with a non-empty delimiter and `maxLength ≥ 0`, every buffer
state and every chunk, `ProcessData` returns and leaves a buffer in which the delimiter
does not occur (at no index) and whose length is at most `maxLength`. -/
theorem ProcessData_residual_buffer (dh : DelimiterHandler) (hsep : dh.delimiter ≠ [])
    (hmax : 0 ≤ dh.maxLength) (data : List Byte) :
    ∃ out, dh.ProcessData data = some out ∧
      bytesIndex out.1.buffer dh.delimiter = none ∧
      (∀ i, ¬ occursAt out.1.buffer dh.delimiter i) ∧
      (out.1.buffer.length : Int) ≤ dh.maxLength := by
  refine ⟨_, ProcessData_eq dh hsep data, ?_⟩
  have hrest := splitAll_rest_none dh.delimiter hsep (dh.buffer ++ data)
  have hkey : bytesIndex (overflowGuard dh.maxLength
        (splitAll dh.delimiter (dh.buffer ++ data)).2) dh.delimiter = none ∧
      ((overflowGuard dh.maxLength
        (splitAll dh.delimiter (dh.buffer ++ data)).2).length : Int) ≤ dh.maxLength := by
    unfold overflowGuard
    split
    · refine ⟨?_, by simpa using hmax⟩
      cases hd : dh.delimiter with
      | nil => exact absurd hd hsep
      | cons b t => simp [bytesIndex]
    · exact ⟨hrest, by omega⟩
  exact ⟨hkey.1, (bytesIndex_none_iff _ _).mp hkey.1, hkey.2⟩

/-- C27, witness: the first chunk of the reassembly scenario, which ends inside a
delimiter, read by a fresh handler. -/
theorem ProcessData_residual_buffer_witness :
    (NewDelimiterHandler scenarioDelimiter 1024).delimiter ≠ [] ∧
    0 ≤ (NewDelimiterHandler scenarioDelimiter 1024).maxLength ∧
    ∃ out, (NewDelimiterHandler scenarioDelimiter 1024).ProcessData
        [0xAA, 0xBB, 0x78, 0x78] = some out ∧
      bytesIndex out.1.buffer (NewDelimiterHandler scenarioDelimiter 1024).delimiter = none ∧
      (∀ i, ¬ occursAt out.1.buffer (NewDelimiterHandler scenarioDelimiter 1024).delimiter i) ∧
      (out.1.buffer.length : Int) ≤ (NewDelimiterHandler scenarioDelimiter 1024).maxLength :=
  ⟨by decide, by decide,
    ProcessData_residual_buffer (NewDelimiterHandler scenarioDelimiter 1024) (by decide)
      (by decide) [0xAA, 0xBB, 0x78, 0x78]⟩

/-! ## Theorems: validated configurations -/

/-- C28 at the failing input: the configuration whose token is 64 characters `Z` is
accepted by `ValidateAuthentication`, which checks only the length, and
`GenerateAuthPacket` of the manager built from it fails in the hexadecimal decoding of
the token, whatever the random source. -/
theorem validated_token_not_hex (rnd : Except String (List Byte)) :
    Config.ValidateAuthentication nonHexConfig = none ∧
    (NewAuthManager nonHexConfig.Authentication.Token nonHexConfig.Authentication.SourceID
        nonHexConfig.Authentication.HostID).GenerateAuthPacket rnd =
      (NewAuthManager nonHexToken 1 1,
        .error "failed to generate token: encoding/hex: invalid byte") :=
  ⟨by decide, rfl⟩

/-- C29 at the failing input: the configuration with the single target `t0` of
`max_retries = 0` is accepted by `ValidateTargetServers`; after reconciliation the saved
message gets for `t0` a delivery row that is pending with `send_attempts = 0`,
`max_attempts = 0` and no retry time, which is not eligible at any time, and
`GetPendingMessagesForTarget` returns no message for `t0`. -/
theorem zero_retry_target_never_eligible (now : Int) :
    Config.ValidateTargetServers (fun _ => true) zeroRetryConfig = none ∧
    zeroRetryStore.target_servers = [zeroRetryRow] ∧
    zeroRetryStore.target_delivery_status = [zeroRetryDelivery] ∧
    deliveryEligible now "t0" zeroRetryDelivery = false ∧
    Postgres.GetPendingMessagesForTarget zeroRetryStore now false "t0" 10 = .ok [] :=
  ⟨by decide, by decide, by decide, rfl, rfl⟩

/-! ## Theorems: failover invariant -/

theorem FailoverOp_apply_config (m : Failover) (op : FailoverOp) :
    (FailoverOp.apply m op).config = m.config := by
  cases op <;>
    simp only [FailoverOp.apply, Manager.recordFailure, Manager.resetFailureCount,
      Manager.performFailover, Manager.checkAndPerformFailover] <;>
    repeat (first | rfl | split)

theorem FailoverOp_apply_counts (m : Failover) (op : FailoverOp)
    (h : ∀ id, 0 ≤ m.failureCounts id) : ∀ id, 0 ≤ (FailoverOp.apply m op).failureCounts id := by
  intro id
  cases op with
  | recordFailure serverID =>
    simp only [FailoverOp.apply, Manager.recordFailure]
    split
    · have := h serverID
      omega
    · exact h id
  | resetFailureCount serverID =>
    simp only [FailoverOp.apply, Manager.resetFailureCount]
    split
    · simp only
      split
      · exact le_refl _
      · exact h id
    · exact h id
  | performFailover =>
    simp only [FailoverOp.apply, Manager.performFailover]
    repeat (first | exact h id | split)
  | checkAndPerformFailover =>
    simp only [FailoverOp.apply, Manager.checkAndPerformFailover]
    repeat (first | exact h id | split)

theorem FailoverOp_apply_enabled (m : Failover) (op : FailoverOp)
    (h : (FailoverOp.apply m op).currentServer ≠ m.currentServer) :
    (Manager.GetCurrentServer (FailoverOp.apply m op)).Enabled = true := by
  cases op with
  | recordFailure serverID => exact absurd rfl h
  | resetFailureCount serverID =>
    simp only [FailoverOp.apply, Manager.resetFailureCount] at h
    split at h <;> exact absurd rfl h
  | performFailover =>
    simp only [FailoverOp.apply, Manager.performFailover] at h ⊢
    split
    · next hc => exact hc.2
    · split
      · next hc => exact hc.2
      · next h1 h2 => simp only [h1, h2, if_false] at h; exact absurd rfl h
  | checkAndPerformFailover =>
    simp only [FailoverOp.apply, Manager.checkAndPerformFailover] at h ⊢
    split
    · next hc => exact hc.2.2
    · split
      · next hc => exact hc.2.2
      · next h1 h2 => simp only [h1, h2, if_false] at h; exact absurd rfl h

theorem FailoverOp_run_invariant (ops : List FailoverOp) :
    ∀ m : Failover, (∀ id, 0 ≤ m.failureCounts id) →
      (FailoverOp.run m ops).config = m.config ∧
      ∀ id, 0 ≤ (FailoverOp.run m ops).failureCounts id := by
  induction ops with
  | nil => intro m h; exact ⟨rfl, h⟩
  | cons op rest ih =>
    intro m h
    have h1 := ih (FailoverOp.apply m op) (FailoverOp_apply_counts m op h)
    exact ⟨h1.1.trans (FailoverOp_apply_config m op), h1.2⟩

/-- C30: in every state reached from `NewManager` by a sequence of `recordFailure`,
`resetFailureCount`, `performFailover` and `checkAndPerformFailover`, the current server
is the primary or the backup endpoint, every failure counter is at least 0, and every
further operation that changes the current server leaves it on an endpoint whose
`Enabled` flag is true. -/
theorem failover_reachable_invariant (config : SourceServers) (ops : List FailoverOp) :
    (Manager.GetCurrentServer (FailoverOp.run (NewFailover config) ops) = config.Primary ∨
      Manager.GetCurrentServer (FailoverOp.run (NewFailover config) ops) = config.Backup) ∧
    (∀ id, 0 ≤ (FailoverOp.run (NewFailover config) ops).failureCounts id) ∧
    ∀ op : FailoverOp,
      (FailoverOp.apply (FailoverOp.run (NewFailover config) ops) op).currentServer ≠
        (FailoverOp.run (NewFailover config) ops).currentServer →
      (Manager.GetCurrentServer
        (FailoverOp.apply (FailoverOp.run (NewFailover config) ops) op)).Enabled = true := by
  obtain ⟨hc, hn⟩ := FailoverOp_run_invariant ops (NewFailover config) (fun _ => le_refl _)
  refine ⟨?_, hn, fun op h => FailoverOp_apply_enabled _ op h⟩
  unfold Manager.GetCurrentServer
  rw [hc]
  cases (FailoverOp.run (NewFailover config) ops).currentServer
  · left; rfl
  · right; rfl

/-- C30, witness: after three recorded failures of the primary,
`checkAndPerformFailover` changes the current server, and the new one is enabled. -/
theorem failover_reachable_invariant_witness :
    (FailoverOp.apply (FailoverOp.run (NewFailover sampleServers)
        [.recordFailure "primary", .recordFailure "primary", .recordFailure "primary"])
      .checkAndPerformFailover).currentServer ≠
      (FailoverOp.run (NewFailover sampleServers)
        [.recordFailure "primary", .recordFailure "primary",
          .recordFailure "primary"]).currentServer ∧
    (Manager.GetCurrentServer (FailoverOp.apply (FailoverOp.run (NewFailover sampleServers)
        [.recordFailure "primary", .recordFailure "primary", .recordFailure "primary"])
      .checkAndPerformFailover)).Enabled = true :=
  ⟨by decide,
    (failover_reachable_invariant sampleServers
      [.recordFailure "primary", .recordFailure "primary", .recordFailure "primary"]).2.2
      .checkAndPerformFailover (by decide)⟩

end TcpRelay
